import Mathlib

/-!
Verification development for the Sectionist audio-analysis backend.

The Python sources `backend/example.py` and `backend/improved_segmentation.py`
are shallowly embedded below.  Floating-point numbers are modelled as exact
rationals.  Two external numeric primitives that are irrational over ℚ are
taken as parameters and constrained by hypotheses in the theorems that need
them:

* `sqrtq : ℚ → ℚ` models the floating-point square root used by
  `np.linalg.norm` / `np.std`;
* `corr : List ℚ → List ℚ → Option ℚ` models `np.corrcoef` (Pearson
  correlation; `none` models the NaN produced on constant input).

Python exceptions (index errors on too-short frame grids, `range` with a zero
step) are modelled by `Option`-valued functions returning `none`.
-/

namespace Sectionist

attribute [local semireducible] Rat.inv Rat.mul Rat.add Rat.sub

/-- Python `int(q)`: truncation toward zero. -/
def pyTrunc (q : ℚ) : ℤ := if 0 ≤ q then ⌊q⌋ else -⌊-q⌋

/-- Python `round(q)` (round half to even), as an integer. -/
def pyRoundInt (q : ℚ) : ℤ :=
  let f := ⌊q⌋
  let r := q - f
  if r < 1/2 then f
  else if 1/2 < r then f + 1
  else if f % 2 = 0 then f else f + 1

/-- Python `round(q, 2)`. -/
def round2 (q : ℚ) : ℚ := (pyRoundInt (q * 100) : ℚ) / 100

/-- numpy `mean` of a list (the empty list, where numpy emits NaN, maps to 0). -/
def npMean (l : List ℚ) : ℚ := l.sum / l.length

/-- numpy `var`: mean of squared deviations from the mean. -/
def npVar (l : List ℚ) : ℚ := npMean (l.map (fun v => (v - npMean l)^2))

/-- numpy `max` of a list (0 on the empty list, where numpy raises). -/
def npMax (l : List ℚ) : ℚ :=
  match l with
  | [] => 0
  | a :: as' => as'.foldl max a

def argmaxAux (l : List ℚ) (i bi : ℕ) (bv : ℚ) : ℕ :=
  match l with
  | [] => bi
  | a :: as' => if bv < a then argmaxAux as' (i+1) i a else argmaxAux as' (i+1) bi bv

/-- numpy `argmax`: first index of the maximum (0 on the empty list). -/
def npArgmax : List ℚ → ℕ
  | [] => 0
  | a :: as' => argmaxAux as' 1 0 a

def argminAux (l : List ℚ) (i bi : ℕ) (bv : ℚ) : ℕ :=
  match l with
  | [] => bi
  | a :: as' => if a < bv then argminAux as' (i+1) i a else argminAux as' (i+1) bi bv

/-- numpy `argmin`: first index of the minimum (0 on the empty list). -/
def npArgmin : List ℚ → ℕ
  | [] => 0
  | a :: as' => argminAux as' 1 0 a

/-- Inner product of two vectors (`np.dot`). -/
def dot (xs ys : List ℚ) : ℚ := (List.zipWith (· * ·) xs ys).sum

/-- Sum of squares of a vector (the square of `np.linalg.norm`). -/
def sumSq (xs : List ℚ) : ℚ := (xs.map (fun v => v^2)).sum

/-- Column count of a matrix stored as a list of rows (`shape[1]`). -/
def matCols (m : List (List ℚ)) : ℕ := (m.headD []).length

/-- Python slice `row[a:b]` for `0 ≤ a ≤ b`. -/
def rowSlice (r : List ℚ) (a b : ℕ) : List ℚ := (r.drop a).take (b - a)

/-- Python slice `m[:, a:b]`. -/
def matSlice (m : List (List ℚ)) (a b : ℕ) : List (List ℚ) := m.map (fun r => rowSlice r a b)

/-- Row-major flattening of a matrix (`.flatten()`). -/
def matFlat (m : List (List ℚ)) : List ℚ := m.flatten

/-- Python `range(0, b, step)` for a positive `step`, as naturals. -/
def pyRangeBy (b : ℤ) (step : ℕ) : List ℕ :=
  (List.range (if b ≤ 0 then 0 else ((b.toNat + step - 1) / step))).map (· * step)

/-- Python `range(a, b, step)` for naturals `a`, `step > 0` and integer bound `b`. -/
def pyRangeFrom (a : ℕ) (b : ℤ) (step : ℕ) : List ℕ :=
  (List.range (if b ≤ (a : ℤ) then 0 else ((b - a).toNat + step - 1) / step)).map
    (fun k => a + k * step)

/-- A labeled song section, as in the Python result dictionaries
`{"name", "start", "end", "confidence"}` (`end` is a Lean keyword, hence `stop`). -/
structure Section where
  name : String
  start : ℚ
  stop : ℚ
  confidence : ℚ
deriving Repr, DecidableEq, Inhabited

/-- A detected chord span `{"name", "start", "end", "confidence"}`. -/
structure Chord where
  name : String
  start : ℚ
  stop : ℚ
  confidence : ℚ
deriving Repr, DecidableEq, Inhabited

/-- A key-change event `{"timestamp", "from_key", "to_key", "confidence"}`. -/
structure KeyChange where
  timestamp : ℚ
  from_key : String
  to_key : String
  confidence : ℚ
deriving Repr, DecidableEq, Inhabited

/-! ## example.py: frame-based boundary detection and labeling -/

/-- From `example.py detect_boundaries_frame_based`.  `sqrtq` models
`np.linalg.norm`'s square root.  `none` models the exceptions Python raises on
degenerate inputs (fewer than two frame times with ≥ 32 columns, or a window
step of zero frames); a non-increasing frame grid is likewise out of scope and
mapped to `none`. -/
def detect_boundaries_frame_based (sqrtq : ℚ → ℚ)
    (chroma rms centroid : List (List ℚ)) (frame_times : List ℚ) (duration : ℚ) :
    Option (List ℚ) :=
  if matCols chroma < 32 then
    some [0, duration/4, duration/2, 3*duration/4, duration]
  else
    match frame_times with
    | [] => none
    | [_] => none
    | t0 :: t1 :: _ =>
      let spacing := t1 - t0
      if spacing ≤ 0 then none else
      let fpw := (pyTrunc (5 / spacing)).toNat
      let fps := (pyTrunc (2 / spacing)).toNat
      if fps = 0 then none else
      let cols := matCols chroma
      let candidates := (pyRangeFrom fpw ((cols : ℤ) - fpw) fps).filterMap (fun i =>
        let bC := matSlice chroma (i - fpw) i
        let aC := matSlice chroma i (min (matCols chroma) (i + fpw))
        let bR := matSlice rms (i - fpw) i
        let aR := matSlice rms i (min (matCols rms) (i + fpw))
        let bCen := matSlice centroid (i - fpw) i
        let aCen := matSlice centroid i (min (matCols centroid) (i + fpw))
        if 0 < (matFlat bC).length ∧ 0 < (matFlat aC).length ∧
           0 < (matFlat bR).length ∧ 0 < (matFlat aR).length then
          let chroma_diff := sqrtq (sumSq (List.zipWith (· - ·) (bC.map npMean) (aC.map npMean)))
          let energy_diff := |npMean (matFlat bR) - npMean (matFlat aR)|
          let brightness_diff := |npMean (matFlat bCen) - npMean (matFlat aCen)|
          let score := chroma_diff + energy_diff * 5 + brightness_diff / 1000
          if 3/10 < score then
            some (if i < frame_times.length then frame_times.getD i 0
                  else frame_times.getLastD 0)
          else none
        else none)
      let filtered := (candidates ++ [duration]).foldl
        (fun acc b => if 12 ≤ b - acc.getLastD 0 then acc ++ [b] else acc) [(0:ℚ)]
      let filtered2 := if filtered.getLastD 0 ≠ duration then filtered ++ [duration] else filtered
      some (if filtered2.length < 3 then [0, duration/3, 2*duration/3, duration]
            else filtered2)

/-- Labeling decision table of `example.py label_sections_frame_based`
(applied in order, first match wins). -/
def frame_label (posFrac dur energy brightness stability : ℚ) (i : ℕ) : String :=
  if posFrac < 15/100 then "Intro"
  else if 85/100 < posFrac then "Outro"
  else if 4/10 < energy ∧ 1200 < brightness then "Chorus"
  else if posFrac < 1/2 then "Verse " ++ toString (min (i+1) 3)
  else if dur < 20 ∧ stability < 3/10 then "Bridge"
  else if 35/100 < energy then "Chorus" else "Verse"

/-- From `example.py label_sections_frame_based`. -/
def label_sections_frame_based (bt : List ℚ) (chroma rms centroid : List (List ℚ))
    (frame_times : List ℚ) : List Section :=
  let total := bt.getLastD 0
  (List.range (bt.length - 1)).foldl (fun sections i =>
    let start := bt.getD i 0
    let stop := bt.getD (i+1) 0
    let dur := stop - start
    let posFrac := if 0 < total then start / total else 0
    let sf := npArgmin (frame_times.map (fun x => |x - start|))
    let ef := npArgmin (frame_times.map (fun x => |x - stop|))
    let feats :=
      if sf < ef ∧ sf < matCols chroma then
        let sC := matFlat (matSlice chroma sf (min ef (matCols chroma)))
        let sR := matFlat (matSlice rms sf (min ef (matCols rms)))
        let sCen := matFlat (matSlice centroid sf (min ef (matCols centroid)))
        (if 0 < sR.length then npMean sR else 3/10,
         if 0 < sC.length then 1 / (1 + npVar sC) else 1/2,
         if 0 < sCen.length then npMean sCen else 1000)
      else ((3:ℚ)/10, (1:ℚ)/2, (1000:ℚ))
    let label := frame_label posFrac dur feats.1 feats.2.2 feats.2.1 i
    sections ++ [⟨label, round2 start, round2 stop, round2 feats.2.1⟩]) []

/-- Sections part of `example.py analyze_song_structure` (feature extraction by
librosa is external; the features and frame grid are the inputs here). -/
def analyze_song_structure (sqrtq : ℚ → ℚ) (chroma rms centroid : List (List ℚ))
    (frame_times : List ℚ) (duration : ℚ) : Option (List Section) :=
  (detect_boundaries_frame_based sqrtq chroma rms centroid frame_times duration).map
    (fun bts => label_sections_frame_based bts chroma rms centroid frame_times)

/-- Section list of `example.py analyze_audio_file`: line 578 calls the
frame-based `analyze_song_structure` defined in the same module. -/
def analyze_audio_file_sections (sqrtq : ℚ → ℚ) (chroma rms centroid : List (List ℚ))
    (frame_times : List ℚ) (duration : ℚ) : Option (List Section) :=
  analyze_song_structure sqrtq chroma rms centroid frame_times duration

/-! ## example.py: key detection -/

def note_names : List String :=
  ["C", "C#", "D", "D#", "E", "F"] ++ ["F#", "G", "G#", "A", "A#", "B"]

/-- Krumhansl-Schmuckler major-key profile (example.py line 258). -/
def major_profile : List ℚ :=
  [635/100, 223/100, 348/100, 233/100, 438/100, 409/100,
   252/100, 519/100, 239/100, 366/100, 229/100, 288/100]

/-- Krumhansl-Schmuckler minor-key profile (example.py line 263). -/
def minor_profile : List ℚ :=
  [633/100, 268/100, 352/100, 538/100, 260/100, 353/100,
   254/100, 475/100, 398/100, 269/100, 334/100, 317/100]

/-- numpy `np.roll(l, i)`: cyclic right shift by `i`. -/
def npRoll (l : List ℚ) (i : ℕ) : List ℚ :=
  (l.drop (l.length - i % l.length)) ++ (l.take (l.length - i % l.length))

/-- The 24 key profiles: 12 rotations of the major profile then 12 of the minor. -/
def key_profiles : List (List ℚ) :=
  ((List.range 12).map (fun i => npRoll major_profile i)) ++
  ((List.range 12).map (fun i => npRoll minor_profile i))

/-- The 24 key names, parallel to `key_profiles`. -/
def key_names : List String :=
  ((List.range 12).map (fun i => note_names.getD i "" ++ " major")) ++
  ((List.range 12).map (fun i => note_names.getD i "" ++ " minor"))

/-- L1 normalization guarded by a positive sum, as written twice in
`detect_key_and_changes` and `detect_key_changes_in_segments`:
`v / np.sum(v) if np.sum(v) > 0 else v`. -/
def normalizeL1 (v : List ℚ) : List ℚ := if 0 < v.sum then v.map (· / v.sum) else v

/-- Correlation scores of a chroma vector against the 24 L1-normalized key
profiles, with NaN correlations (modelled by `none`) replaced by 0
(example.py lines 292-298). -/
def key_scores (corr : List ℚ → List ℚ → Option ℚ) (v : List ℚ) : List ℚ :=
  key_profiles.map (fun p => (corr v (p.map (· / p.sum))).getD 0)

/-- Overall-key part of `example.py detect_key_and_changes`. -/
def detect_key (corr : List ℚ → List ℚ → Option ℚ) (chroma : List (List ℚ)) : String :=
  let m := normalizeL1 (chroma.map npMean)
  key_names.getD (npArgmax (key_scores corr m)) ""

/-- From `example.py detect_key_changes_in_segments`.  `none` models the
`ValueError` Python raises when the window step `segment_size // 2` is zero. -/
def detect_key_changes_in_segments (corr : List ℚ → List ℚ → Option ℚ)
    (chroma : List (List ℚ)) (sr : ℕ) : Option (List KeyChange) :=
  let segSize := (10 * sr) / 2048
  let cols := matCols chroma
  if cols < 2 * segSize then some [] else
  if segSize / 2 = 0 then none else
  some ((pyRangeBy ((cols : ℤ) - segSize) (segSize / 2)).foldl (fun st s =>
      let e := min (s + segSize) cols
      let m := normalizeL1 ((matSlice chroma s e).map npMean)
      let scores := key_scores corr m
      let idx := npArgmax scores
      let key := key_names.getD idx ""
      let out2 :=
        match st.1 with
        | some pk =>
          if key ≠ pk ∧ 3/10 < scores.getD idx 0 then
            st.2 ++ [⟨round2 ((s * 2048 : ℚ) / sr), pk, key, round2 (scores.getD idx 0)⟩]
          else st.2
        | none => st.2
      (some key, out2)) ((none : Option String), ([] : List KeyChange))).2

/-- From `example.py detect_key_and_changes`: the overall key plus the
segment-wise key changes. -/
def detect_key_and_changes (corr : List ℚ → List ℚ → Option ℚ)
    (chroma : List (List ℚ)) (sr : ℕ) : Option (String × List KeyChange) :=
  (detect_key_changes_in_segments corr chroma sr).map
    (fun kcs => (detect_key corr chroma, kcs))

/-! ## example.py: chord detection -/

/-- The 24 binary chord templates of `example.py detect_chords`
(12 major then 12 minor triads), in dict insertion order. -/
def chord_templates : List (String × List ℚ) :=
  [("C",   [1,0,0,0,1,0,0,1,0,0,0,0]),
   ("C#",  [0,1,0,0,0,1,0,0,1,0,0,0]),
   ("D",   [0,0,1,0,0,0,1,0,0,1,0,0]),
   ("D#",  [0,0,0,1,0,0,0,1,0,0,1,0]),
   ("E",   [0,0,0,0,1,0,0,0,1,0,0,1]),
   ("F",   [1,0,0,0,0,1,0,0,0,1,0,0]),
   ("F#",  [0,1,0,0,0,0,1,0,0,0,1,0]),
   ("G",   [0,0,1,0,0,0,0,1,0,0,0,1]),
   ("G#",  [1,0,0,1,0,0,0,0,1,0,0,0]),
   ("A",   [0,1,0,0,1,0,0,0,0,1,0,0]),
   ("A#",  [0,0,1,0,0,1,0,0,0,0,1,0]),
   ("B",   [0,0,0,1,0,0,1,0,0,0,0,1]),
   ("Cm",  [1,0,0,1,0,0,0,1,0,0,0,0]),
   ("C#m", [0,1,0,0,1,0,0,0,1,0,0,0]),
   ("Dm",  [0,0,1,0,0,1,0,0,0,1,0,0]),
   ("D#m", [0,0,0,1,0,0,1,0,0,0,1,0]),
   ("Em",  [0,0,0,0,1,0,0,1,0,0,0,1]),
   ("Fm",  [1,0,0,0,0,1,0,0,1,0,0,0]),
   ("F#m", [0,1,0,0,0,0,1,0,0,1,0,0]),
   ("Gm",  [0,0,1,0,0,0,0,1,0,0,1,0]),
   ("G#m", [0,0,0,1,0,0,0,0,1,0,0,1]),
   ("Am",  [1,0,0,0,1,0,0,0,0,1,0,0]),
   ("A#m", [0,1,0,0,0,1,0,0,0,0,1,0]),
   ("Bm",  [0,0,1,0,0,0,1,0,0,0,0,1])]

/-- Cosine similarity with the zero-norm guard of `example.py detect_chords`
(score 0 when either norm is nonpositive). -/
def cos_score (sqrtq : ℚ → ℚ) (a t : List ℚ) : ℚ :=
  let cn := sqrtq (sumSq a)
  let tn := sqrtq (sumSq t)
  if 0 < cn ∧ 0 < tn then dot a t / (cn * tn) else 0

/-- Best-matching chord of a mean chroma vector: fold over the templates,
starting from the placeholder `("N", 0)` and updating on strictly greater
similarity. -/
def best_chord (sqrtq : ℚ → ℚ) (a : List ℚ) : String × ℚ :=
  chord_templates.foldl
    (fun best p =>
      let s := cos_score sqrtq a p.2
      if best.2 < s then (p.1, s) else best)
    ("N", 0)

/-- Mean chroma of the window starting at frame `s`, L1-normalized when its
sum is positive (example.py lines 446-454). -/
def window_mean_chroma (chroma : List (List ℚ)) (fps s : ℕ) : List ℚ :=
  normalizeL1 (chroma.map (fun r => npMean (rowSlice r s (min (s + fps) (matCols chroma)))))

/-- Best chord of the window starting at frame `s`. -/
def window_best (sqrtq : ℚ → ℚ) (chroma : List (List ℚ)) (fps s : ℕ) : String × ℚ :=
  best_chord sqrtq (window_mean_chroma chroma fps s)

/-- Chord emitted for one analysis window: only when the best similarity
strictly exceeds the 0.3 threshold (example.py lines 478-499). -/
def window_chord (sqrtq : ℚ → ℚ) (chroma : List (List ℚ)) (frame_times : List ℚ)
    (fps s : ℕ) : Option Chord :=
  let e := min (s + fps) (matCols chroma)
  let bc := window_best sqrtq chroma fps s
  if 3/10 < bc.2 then
    some ⟨bc.1,
          round2 (if s < frame_times.length then frame_times.getD s 0
                  else frame_times.getLastD 0),
          round2 (if e - 1 < frame_times.length then frame_times.getD (e-1) 0
                  else frame_times.getLastD 0),
          round2 bc.2⟩
  else none

/-- Post-processing merge of consecutive identical chords within a 0.5 s gap
(example.py lines 501-520). -/
def merge_chords (cs : List Chord) : List Chord :=
  match cs with
  | [] => []
  | c :: rest => rest.foldl (fun acc ch =>
      match acc.getLast? with
      | some lc =>
        if ch.name = lc.name ∧ |ch.start - lc.stop| < 1/2 then
          acc.dropLast ++ [⟨lc.name, lc.start, ch.stop, round2 ((lc.confidence + ch.confidence)/2)⟩]
        else acc ++ [ch]
      | none => acc ++ [ch]) [c]

/-- From `example.py detect_chords` (hop length 2048; the chroma matrix is the
external librosa output and is the input here).  `none` models the
`ValueError` raised when `frames_per_segment` is zero. -/
def detect_chords (sqrtq : ℚ → ℚ) (chroma : List (List ℚ)) (sr : ℕ) : Option (List Chord) :=
  let frame_times := (List.range (matCols chroma)).map (fun i => (i * 2048 : ℚ) / sr)
  let fps := (2 * sr) / 2048
  if fps = 0 then none
  else some (merge_chords
    ((pyRangeBy ((matCols chroma : ℤ) - fps) fps).filterMap
      (window_chord sqrtq chroma frame_times fps)))

/-! ## improved_segmentation.py: features, novelty, boundaries, labeling -/

/-- The feature bundle built by `extract_comprehensive_features` (whose body is
librosa signal processing, external to this embedding): aligned feature
matrices plus the frame-time axis.  The tempogram and tempo are carried but not
read by the functions verified here. -/
structure FeatureSet where
  chroma : List (List ℚ)
  mfcc : List (List ℚ)
  spectral : List (List ℚ)
  rms : List (List ℚ)
  tempogram : List (List ℚ)
  frame_times : List ℚ
  tempo : ℚ
deriving Repr, DecidableEq, Inhabited

/-- Index folding of scipy's `reflect` boundary mode `(d c b a | a b c d | d c b a)`. -/
def reflectIdx (n : ℕ) (i : ℤ) : ℕ :=
  if n = 0 then 0 else
  let m := i.emod (2 * n)
  (if m < (n : ℤ) then m else 2 * n - 1 - m).toNat

/-- Correlation sum of a kernel against a reflectively padded signal, the
kernel read left to right starting at signal position `pos`. -/
def convSum (w : List ℚ) (x : List ℚ) (pos : ℤ) : ℚ :=
  match w with
  | [] => 0
  | a :: rest => a * x.getD (reflectIdx x.length pos) 0 + convSum rest x (pos + 1)

/-- scipy `ndimage.gaussian_filter1d` with `reflect` boundary.  The truncated
Gaussian kernel has transcendental weights, so the normalized kernel `w` (of
half-width `r`) is a parameter; the theorems assume it nonnegative (and, where
needed, summing to 1), which the true kernel satisfies. -/
def gaussian_filter1d (w : List ℚ) (r : ℕ) (x : List ℚ) : List ℚ :=
  (List.range x.length).map (fun (i : ℕ) => convSum w x ((i : ℤ) - r))

/-- Normalization `x / (np.max(x) + 1e-8)` used on every novelty curve. -/
def normalize_by_max (x : List ℚ) : List ℚ := x.map (· / (npMax x + 1/100000000))

/-- Sum over rows of the absolute first difference along time
(`np.sum(np.abs(np.diff(m, axis=1)), axis=0)`). -/
def sum_abs_diff (m : List (List ℚ)) : List ℚ :=
  (List.range (matCols m - 1)).map (fun j =>
    (m.map (fun row => |row.getD (j+1) 0 - row.getD j 0|)).sum)

/-- Flattened absolute first difference (`np.abs(np.diff(m, axis=1)).flatten()`),
used for the 1-row RMS matrix. -/
def abs_diff_flat (m : List (List ℚ)) : List ℚ :=
  matFlat (m.map (fun row =>
    (List.range (row.length - 1)).map (fun j => |row.getD (j+1) 0 - row.getD j 0|)))

/-- The novelty-curve dictionary of `compute_novelty_functions`; every field
models one dict key, `none` meaning the key is absent. -/
structure NoveltyFuncs where
  harmonic : Option (List ℚ)
  timbral : Option (List ℚ)
  energy : Option (List ℚ)
  spectral : Option (List ℚ)
  combined : Option (List ℚ)
deriving Repr, DecidableEq, Inhabited

/-- One iteration of the weighted-combination loop in
`compute_novelty_functions`: add the `i`-th novelty curve, scaled by its
weight, onto the accumulator when the lengths line up. -/
def combStep (curves : List (List ℚ)) (weights : List ℚ) (acc : List ℚ) (i : ℕ) :
    List ℚ :=
  let nov := curves.getD i []
  if i < weights.length ∧ nov.length = acc.length then
    List.zipWith (fun x y => x + weights.getD i 0 * y) acc nov
  else acc

/-- From `improved_segmentation.py compute_novelty_functions`.  `w1`/`r1` is
the σ=1.0 smoothing kernel, `w2`/`r2` the σ=1.5 kernel for the combined curve. -/
def compute_novelty_functions (w1 : List ℚ) (r1 : ℕ) (w2 : List ℚ) (r2 : ℕ)
    (fs : FeatureSet) : NoveltyFuncs :=
  let harmonic := if 1 < matCols fs.chroma then
      normalize_by_max (gaussian_filter1d w1 r1 (sum_abs_diff fs.chroma)) else [0]
  let timbral := if 1 < matCols fs.mfcc then
      normalize_by_max (gaussian_filter1d w1 r1 (sum_abs_diff fs.mfcc)) else [0]
  let energy := if 1 < matCols fs.rms then
      normalize_by_max (gaussian_filter1d w1 r1 (abs_diff_flat fs.rms)) else [0]
  let spectral := if 1 < matCols fs.spectral then
      normalize_by_max (gaussian_filter1d w1 r1 (sum_abs_diff fs.spectral)) else [0]
  let all_novelty := [harmonic, timbral, energy, spectral]
  let combined :=
    if all_novelty ≠ [] then
      let weights : List ℚ := [4/10, 3/10, 2/10, 1/10]
      let base := (all_novelty.headD []).map (fun _ => (0:ℚ))
      let comb := (List.range all_novelty.length).foldl (combStep all_novelty weights) base
      some (gaussian_filter1d w2 r2 comb)
    else none
  ⟨some harmonic, some timbral, some energy, some spectral, combined⟩

/-- Curve selection at the top of `detect_boundaries_novelty`: the combined
curve when present, else the harmonic one, else nothing (basic fallback). -/
def select_novelty_curve (nf : NoveltyFuncs) : Option (List ℚ) :=
  nf.combined.orElse (fun _ => nf.harmonic)

/-! scipy `find_peaks` with `height`, `distance` and `prominence`, as called
by `detect_boundaries_novelty`. -/

/-- End of the plateau starting at a candidate maximum (scipy `_local_maxima_1d`
inner loop). -/
def plateauEnd (x : List ℚ) (iMax : ℕ) (v : ℚ) (j fuel : ℕ) : ℕ :=
  match fuel with
  | 0 => j
  | f + 1 => if j < iMax ∧ x.getD j 0 = v then plateauEnd x iMax v (j+1) f else j

def localMaximaAux (x : List ℚ) (iMax i fuel : ℕ) : List ℕ :=
  match fuel with
  | 0 => []
  | f + 1 =>
    if i < iMax then
      if x.getD (i-1) 0 < x.getD i 0 then
        let ia := plateauEnd x iMax (x.getD i 0) (i+1) x.length
        if x.getD ia 0 < x.getD i 0 then
          (i + (ia - 1)) / 2 :: localMaximaAux x iMax (ia + 1) f
        else localMaximaAux x iMax (i+1) f
      else localMaximaAux x iMax (i+1) f
    else []

/-- scipy `_local_maxima_1d`: interior local maxima, plateaus reported at
their midpoints. -/
def localMaxima (x : List ℚ) : List ℕ := localMaximaAux x (x.length - 1) 1 (x.length + 1)

/-- One step of scipy `_select_by_peak_distance`: if peak `j` is still kept,
discard every other peak strictly within `distance` of it. -/
def sbpdStep (peaks : List ℕ) (distance : ℕ) (keep : List Bool) (j : ℕ) : List Bool :=
  if keep.getD j false then
    (List.range keep.length).map (fun k =>
      if k = j then true
      else if ((peaks.getD k 0 : ℤ) - (peaks.getD j 0 : ℤ)).natAbs < distance then false
      else keep.getD k false)
  else keep

/-- Stable insertion of an index into a sorted index list. -/
def insertSorted (le : ℕ → ℕ → Bool) (x : ℕ) : List ℕ → List ℕ
  | [] => [x]
  | y :: ys => if le x y then x :: y :: ys else y :: insertSorted le x ys

/-- Stable insertion sort of index lists (models `np.argsort`, whose order on
equal keys is unspecified). -/
def sortIdx (le : ℕ → ℕ → Bool) (l : List ℕ) : List ℕ := l.foldr (insertSorted le) []

/-- scipy `_select_by_peak_distance`: process peaks from highest priority
down.  (numpy's argsort order on equal priorities is unspecified; ties are
modelled stably by original index.) -/
def selectByPeakDistance (peaks : List ℕ) (hs : List ℚ) (distance : ℕ) : List Bool :=
  let order := sortIdx (fun a b => hs.getD b 0 ≤ hs.getD a 0) (List.range peaks.length)
  order.foldl (sbpdStep peaks distance) (peaks.map (fun _ => true))

/-- Left half of scipy `_peak_prominences`: walk left from the peak while the
signal stays below the peak value, accumulating the minimum. -/
def promLeftMin (x : List ℚ) (v : ℚ) (i : ℤ) (cur : ℚ) (fuel : ℕ) : ℚ :=
  match fuel with
  | 0 => cur
  | f + 1 =>
    if 0 ≤ i ∧ x.getD i.toNat 0 ≤ v then
      promLeftMin x v (i - 1) (min cur (x.getD i.toNat 0)) f
    else cur

/-- Right half of scipy `_peak_prominences`. -/
def promRightMin (x : List ℚ) (v : ℚ) (i : ℕ) (cur : ℚ) (fuel : ℕ) : ℚ :=
  match fuel with
  | 0 => cur
  | f + 1 =>
    if i ≤ x.length - 1 ∧ x.getD i 0 ≤ v then
      promRightMin x v (i+1) (min cur (x.getD i 0)) f
    else cur

/-- scipy peak prominence with unrestricted window. -/
def peakProminence (x : List ℚ) (p : ℕ) : ℚ :=
  let v := x.getD p 0
  v - max (promLeftMin x v p v (x.length + 1)) (promRightMin x v p v (x.length + 1))

/-- scipy `find_peaks(x, height, distance, prominence)`: local maxima filtered
by height, then by distance (by descending height priority), then by
prominence — the argument order used by `detect_boundaries_novelty`. -/
def find_peaks (x : List ℚ) (height : ℚ) (distance : ℕ) (prom : ℚ) : List ℕ :=
  let p1 := localMaxima x
  let p2 := p1.filter (fun p => height ≤ x.getD p 0)
  let keep := selectByPeakDistance p2 (p2.map (fun p => x.getD p 0)) distance
  let p3 := (List.range p2.length).filterMap
    (fun i => if keep.getD i false then some (p2.getD i 0) else none)
  p3.filter (fun p => prom ≤ peakProminence x p)

/-- From `improved_segmentation.py detect_boundaries_novelty`.  `sqrtq` models
`np.std`'s square root. -/
def detect_boundaries_novelty (sqrtq : ℚ → ℚ) (nf : NoveltyFuncs)
    (frame_times : List ℚ) (min_segment_length : ℚ) : List ℚ :=
  match select_novelty_curve nf with
  | none =>
    let duration := if 0 < frame_times.length then frame_times.getLastD 0 else 60
    [0, duration/3, 2*duration/3, duration]
  | some novelty =>
    let threshold := npMean novelty + sqrtq (npVar novelty) / 2
    let mdf := max 1 (pyTrunc (if 1 < frame_times.length then
        min_segment_length / (frame_times.getD 1 0 - frame_times.getD 0 0) else 1)).toNat
    let peaks := find_peaks novelty threshold mdf (1/10)
    let bts := peaks.foldl (fun acc p =>
        if p < frame_times.length then
          let bt := frame_times.getD p 0
          if min_segment_length ≤ bt - acc.getLastD 0 then acc ++ [bt] else acc
        else acc) [(0:ℚ)]
    let total := if 0 < frame_times.length then frame_times.getLastD 0 else 60
    let bts2 := if bts.getLastD 0 ≠ total then bts ++ [total] else bts
    if bts2.length < 3 then [0, total/3, 2*total/3, total] else bts2

/-! ## improved_segmentation.py: section labeling and post-processing -/

/-- Per-segment characteristics of `analyze_section_content`, extended with the
time attributes `label_sections_advanced` attaches (`posFrac` is the source's
`position_ratio`). -/
structure SectionChars where
  energy_level : ℚ
  energy_variation : ℚ
  harmonic_complexity : ℚ
  harmonic_stability : ℚ
  brightness : ℚ
  timbral_variation : ℚ
  spectral_centroid : ℚ
  spectral_rolloff : ℚ
  start : ℚ
  stop : ℚ
  duration : ℚ
  posFrac : ℚ
deriving Repr, DecidableEq, Inhabited

/-- From `improved_segmentation.py analyze_section_content` (the time
attributes are filled in by the caller). -/
def analyze_section_content (sqrtq : ℚ → ℚ) (fs : FeatureSet) (sf0 ef0 : ℕ) :
    SectionChars :=
  let maxF := matCols fs.chroma
  let sf := max 0 (min sf0 (maxF - 1))
  let ef := max (sf + 1) (min ef0 maxF)
  let rmsSeg := matFlat (matSlice fs.rms sf ef)
  let chromaSeg := matSlice fs.chroma sf ef
  let mfccSeg := matSlice fs.mfcc sf ef
  let spectralSeg := matSlice fs.spectral sf ef
  { energy_level := npMean rmsSeg
    energy_variation := sqrtq (npVar rmsSeg)
    harmonic_complexity :=
      (((chromaSeg.map (fun row => npMean (row.map (fun v => if 1/10 < v then 1 else 0)))).filter
        (fun ap => 1/10 < ap)).length : ℚ)
    harmonic_stability := 1 / (1 + sqrtq (npVar (matFlat chromaSeg)))
    brightness := npMean (mfccSeg.getD 0 [])
    timbral_variation := npMean (mfccSeg.map (fun row => sqrtq (npVar row)))
    spectral_centroid := npMean (spectralSeg.getD 0 [])
    spectral_rolloff := npMean (spectralSeg.getD 1 [])
    start := 0, stop := 0, duration := 0, posFrac := 0 }

/-- Python `"Verse" in s` (substring test). -/
def containsVerse (s : String) : Bool := 1 < (s.splitOn "Verse").length

/-- Labeling decision chain of `label_sections_advanced` (lines 372-401),
applied in order with first match wins.  The two branches of the source's
chorus-candidate check both yield "Chorus" and are kept as written. -/
def advanced_label (posFrac duration : ℚ)
    (is_high_energy is_complex is_stable is_short is_last has_other_high : Bool)
    (verse_count : ℕ) : String :=
  if posFrac < 1/10 ∨ (posFrac < 2/10 ∧ duration < 15) then "Intro"
  else if 9/10 < posFrac ∨ (85/100 < posFrac ∧ is_last) then "Outro"
  else if is_high_energy ∧ is_complex ∧ ¬is_short then
    if has_other_high then "Chorus" else "Chorus"
  else if is_short ∧ ¬is_stable ∧ 3/10 < posFrac ∧ posFrac < 8/10 then "Bridge"
  else if posFrac < 6/10 ∧ ¬is_high_energy then
    if verse_count = 0 then "Verse 1" else "Verse " ++ toString (verse_count + 1)
  else if ¬is_high_energy then
    if 2 < verse_count then "Verse" else "Verse " ++ toString (verse_count + 1)
  else "Chorus"

/-- Confidence accumulation of `label_sections_advanced` (lines 403-423):
base 0.5, one label bonus, two characteristic bonuses, capped at 0.99. -/
def advanced_confidence (label : String) (posFrac : ℚ)
    (is_high_energy is_stable is_short below_var_mean : Bool) : ℚ :=
  let c1 : ℚ :=
    if label = "Intro" ∧ posFrac < 15/100 then 1/2 + 3/10
    else if label = "Outro" ∧ 85/100 < posFrac then 1/2 + 3/10
    else if label = "Chorus" ∧ is_high_energy then 1/2 + 2/10
    else if containsVerse label ∧ ¬is_high_energy then 1/2 + 2/10
    else if label = "Bridge" ∧ is_short then 1/2 + 2/10
    else 1/2
  let c2 := if is_stable then c1 + 1/10 else c1
  let c3 := if below_var_mean then c2 + 1/10 else c2
  min (99/100) c3

/-- From `improved_segmentation.py label_sections_advanced`. -/
def label_sections_advanced (sqrtq : ℚ → ℚ) (boundary_times : List ℚ)
    (fs : FeatureSet) (frame_times : List ℚ) : List Section :=
  let total := boundary_times.getLastD 0
  let chars := (List.range (boundary_times.length - 1)).map (fun i =>
    let start := boundary_times.getD i 0
    let stop := boundary_times.getD (i+1) 0
    let sf := npArgmin (frame_times.map (fun x => |x - start|))
    let ef := npArgmin (frame_times.map (fun x => |x - stop|))
    let c := analyze_section_content sqrtq fs sf ef
    { c with start := start, stop := stop, duration := stop - start,
             posFrac := if 0 < total then start / total else 0 })
  let energy_mean := npMean (chars.map (·.energy_level))
  let energy_std := sqrtq (npVar (chars.map (·.energy_level)))
  let complexity_mean := npMean (chars.map (·.harmonic_complexity))
  let var_mean := npMean (chars.map (·.energy_variation))
  (List.range chars.length).foldl (fun sections i =>
    let c := chars.getD i default
    let is_high := decide (energy_mean + energy_std / 2 < c.energy_level)
    let is_complex := decide (complexity_mean < c.harmonic_complexity)
    let is_stable := decide ((7:ℚ)/10 < c.harmonic_stability)
    let is_short := decide (c.duration < (12:ℚ))
    let is_last := decide (i = chars.length - 1)
    let has_other_high := decide (0 < ((List.range chars.length).filter (fun j =>
        j ≠ i ∧ energy_mean + energy_std / 2 < (chars.getD j default).energy_level)).length)
    let verse_count := (sections.filter (fun s => containsVerse s.name)).length
    let label := advanced_label c.posFrac c.duration is_high is_complex is_stable
      is_short is_last has_other_high verse_count
    let conf := advanced_confidence label c.posFrac is_high is_stable is_short
      (decide (c.energy_variation < var_mean))
    sections ++ [⟨label, round2 c.start, round2 c.stop, round2 conf⟩]) []

/-- From `improved_segmentation.py improved_analyze_song_structure`: novelty
computation, boundary detection with a 6 s minimum segment, advanced
labeling.  Feature extraction itself is external (librosa). -/
def improved_analyze_song_structure (sqrtq : ℚ → ℚ) (w1 : List ℚ) (r1 : ℕ)
    (w2 : List ℚ) (r2 : ℕ) (fs : FeatureSet) : List Section :=
  let nf := compute_novelty_functions w1 r1 w2 r2 fs
  let bts := detect_boundaries_novelty sqrtq nf fs.frame_times 6
  label_sections_advanced sqrtq bts fs fs.frame_times

/-- Lowercased leading word of a section name (`name.lower().split()[0]`). -/
def leadWord (s : String) : String := (s.toLower.splitOn " ").headD ""

/-- Merge test of `post_process_sections`: same leading label word, or either
section shorter than the minimum length. -/
def merge_condition (min_len : ℚ) (a b : Section) : Bool :=
  decide (leadWord a.name = leadWord b.name) || decide (a.stop - a.start < min_len) ||
    decide (b.stop - b.start < min_len)

/-- Merge of `post_process_sections`: extend the first section to the second's
end and average the confidences. -/
def merge_sections (a b : Section) : Section :=
  ⟨a.name, a.start, b.stop, (a.confidence + b.confidence) / 2⟩

/-- The while-loop of `post_process_sections`, indexing the original list with
cursor `i` exactly as the source does (`fuel` bounds the iteration count). -/
def ppLoop (sections : List Section) (min_len : ℚ) (merge_similar : Bool)
    (i fuel : ℕ) : List Section :=
  match fuel with
  | 0 => []
  | f + 1 =>
    if i < sections.length then
      let current := sections.getD i default
      let sm := merge_similar && decide (i < sections.length - 1) &&
        merge_condition min_len current (sections.getD (i+1) default)
      if sm && decide (i < sections.length - 1) then
        merge_sections current (sections.getD (i+1) default) ::
          ppLoop sections min_len merge_similar (i+2) f
      else current :: ppLoop sections min_len merge_similar (i+1) f
    else []

/-- From `improved_segmentation.py post_process_sections`. -/
def post_process_sections (sections : List Section) (min_len : ℚ)
    (merge_similar : Bool) : List Section :=
  if sections.length ≤ 1 then sections
  else ppLoop sections min_len merge_similar 0 sections.length

/-! ## General lemmas about the numeric helpers -/

theorem pyRoundInt_ge (q : ℚ) (n : ℤ) (h : (n : ℚ) ≤ q) : n ≤ pyRoundInt q := by
  have hf : n ≤ ⌊q⌋ := Int.le_floor.2 h
  simp only [pyRoundInt]
  split_ifs <;> omega

theorem pyRoundInt_le (q : ℚ) (n : ℤ) (h : q ≤ (n : ℚ)) : pyRoundInt q ≤ n := by
  have hf : ⌊q⌋ ≤ n := by
    have := Int.floor_le_floor h
    simpa using this
  have hfl : (⌊q⌋ : ℚ) ≤ q := Int.floor_le q
  simp only [pyRoundInt]
  split_ifs with h1 h2 h3
  · omega
  · -- result ⌊q⌋ + 1; here 1/2 < q - ⌊q⌋, which rules out q = n
    by_contra hc
    push_neg at hc
    have hfn : ⌊q⌋ = n := by omega
    have hq : q = (n : ℚ) := le_antisymm h (by rw [← hfn]; exact hfl)
    rw [hq, Int.floor_intCast] at h2
    norm_num at h2
  · omega
  · -- result ⌊q⌋ + 1; here q - ⌊q⌋ = 1/2, which rules out q = n
    by_contra hc
    push_neg at hc
    have hfn : ⌊q⌋ = n := by omega
    have hq : q = (n : ℚ) := le_antisymm h (by rw [← hfn]; exact hfl)
    rw [hq, Int.floor_intCast] at h1
    norm_num at h1

theorem round2_nonneg (q : ℚ) (h : 0 ≤ q) : 0 ≤ round2 q := by
  unfold round2
  have : (0 : ℤ) ≤ pyRoundInt (q * 100) := pyRoundInt_ge _ 0 (by push_cast; linarith)
  positivity

theorem round2_le_one (q : ℚ) (h : q ≤ 1) : round2 q ≤ 1 := by
  unfold round2
  have : pyRoundInt (q * 100) ≤ (100 : ℤ) := pyRoundInt_le _ 100 (by push_cast; linarith)
  rw [div_le_one (by norm_num)]
  exact_mod_cast this

theorem round2_ge_hundredth (q : ℚ) (n : ℤ) (h : (n : ℚ) / 100 ≤ q) :
    (n : ℚ) / 100 ≤ round2 q := by
  unfold round2
  have : n ≤ pyRoundInt (q * 100) := pyRoundInt_ge _ n (by nlinarith)
  have h2 : (n : ℚ) ≤ (pyRoundInt (q * 100) : ℚ) := by exact_mod_cast this
  linarith

theorem npMean_nonneg (l : List ℚ) (h : ∀ v ∈ l, 0 ≤ v) : 0 ≤ npMean l := by
  unfold npMean
  exact div_nonneg (List.sum_nonneg h) (by positivity)

theorem npVar_nonneg (l : List ℚ) : 0 ≤ npVar l := by
  unfold npVar
  exact npMean_nonneg _ (by
    intro v hv
    rcases List.mem_map.1 hv with ⟨u, _, rfl⟩
    positivity)

theorem sumSq_nonneg (l : List ℚ) : 0 ≤ sumSq l :=
  List.sum_nonneg (by
    intro v hv
    rcases List.mem_map.1 hv with ⟨u, _, rfl⟩
    positivity)

theorem dot_nonneg (xs : List ℚ) : ∀ ys : List ℚ, (∀ v ∈ xs, 0 ≤ v) → (∀ v ∈ ys, 0 ≤ v) →
    0 ≤ dot xs ys := by
  induction xs with
  | nil => intro ys _ _; simp [dot]
  | cons x xs ih =>
    intro ys hx hy
    cases ys with
    | nil => simp [dot]
    | cons y ys =>
      have h1 : 0 ≤ x * y :=
        mul_nonneg (hx x (by simp)) (hy y (by simp))
      have h2 : 0 ≤ dot xs ys :=
        ih ys (fun v hv => hx v (by simp [hv])) (fun v hv => hy v (by simp [hv]))
      simpa [dot] using add_nonneg h1 h2

/-- Cauchy-Schwarz for the list inner product. -/
theorem dot_sq_le (xs : List ℚ) : ∀ ys : List ℚ, dot xs ys ^ 2 ≤ sumSq xs * sumSq ys := by
  induction xs with
  | nil => intro ys; simp [dot, sumSq]
  | cons x xs ih =>
    intro ys
    cases ys with
    | nil => simp [dot, sumSq]
    | cons y ys =>
      have h := ih ys
      have hSx : 0 ≤ sumSq xs := sumSq_nonneg xs
      have hSy : 0 ≤ sumSq ys := sumSq_nonneg ys
      have hAB : 0 ≤ x^2 * sumSq ys + y^2 * sumSq xs := by positivity
      have habs : (2 * (x * y) * dot xs ys)^2 ≤ (x^2 * sumSq ys + y^2 * sumSq xs)^2 := by
        nlinarith [sq_nonneg (x^2 * sumSq ys - y^2 * sumSq xs),
          mul_nonneg (sq_nonneg (x * y)) (sub_nonneg.2 h)]
      have key : 2 * (x * y) * dot xs ys ≤ x^2 * sumSq ys + y^2 * sumSq xs :=
        (abs_le_of_sq_le_sq' habs hAB).2
      have hd : dot (x :: xs) (y :: ys) = x * y + dot xs ys := by simp [dot]
      have hsx : sumSq (x :: xs) = x^2 + sumSq xs := by simp [sumSq]
      have hsy : sumSq (y :: ys) = y^2 + sumSq ys := by simp [sumSq]
      rw [hd, hsx, hsy]
      nlinarith [h]

theorem argmaxAux_lt (l : List ℚ) : ∀ (i bi : ℕ) (bv : ℚ), bi < i →
    argmaxAux l i bi bv < i + l.length := by
  induction l with
  | nil =>
    intro i bi bv h
    simp only [argmaxAux, List.length_nil]
    omega
  | cons a as ih =>
    intro i bi bv h
    simp only [argmaxAux, List.length_cons]
    split_ifs
    · have := ih (i+1) i a (Nat.lt_succ_self i)
      omega
    · have := ih (i+1) bi bv (Nat.lt_succ_of_lt h)
      omega

theorem npArgmax_lt (l : List ℚ) (h : l ≠ []) : npArgmax l < l.length := by
  cases l with
  | nil => simp at h
  | cons a as =>
    have := argmaxAux_lt as 1 0 a (by norm_num)
    simp only [npArgmax, List.length_cons]
    omega

theorem getD_mem {α : Type} (l : List α) (i : ℕ) (d : α) (h : i < l.length) : l.getD i d ∈ l := by
  rw [List.getD_eq_getElem _ _ h]
  exact List.getElem_mem h

/-- Length of a fold whose step grows the accumulator by exactly one element. -/
theorem foldl_length_step {α β : Type} (F : List β → α → List β)
    (h : ∀ acc i, (F acc i).length = acc.length + 1) :
    ∀ (l : List α) (acc : List β), (l.foldl F acc).length = acc.length + l.length := by
  intro l
  induction l with
  | nil => intro acc; simp
  | cons a as ih =>
    intro acc
    simp only [List.foldl_cons, ih (F acc a), h acc a, List.length_cons]
    omega

/-- Every element of a fold with an invariant-preserving step satisfies the invariant. -/
theorem foldl_step_forall {α β : Type} (P : β → Prop) (F : List β → α → List β)
    (h : ∀ acc i x, (∀ y ∈ acc, P y) → x ∈ F acc i → P x) :
    ∀ (l : List α) (acc : List β), (∀ y ∈ acc, P y) → ∀ x ∈ l.foldl F acc, P x := by
  intro l
  induction l with
  | nil => intro acc hacc; simpa using hacc
  | cons a as ih =>
    intro acc hacc
    exact ih (F acc a) (fun y hy => h acc a y hacc hy)

/-! ## C10: the combined novelty curve always exists, so the fallback
branches of the boundary detector are dead in the composed pipeline. -/

/-- Claim C10: `compute_novelty_functions` populates all four family curves
for every FeatureSet and therefore always produces the `combined` curve;
consequently the curve selection in `detect_boundaries_novelty` always picks
`combined`, never the `harmonic` fallback nor the equal-thirds fallback. -/
theorem c10_combined_always_present (w1 : List ℚ) (r1 : ℕ) (w2 : List ℚ) (r2 : ℕ)
    (fs : FeatureSet) :
    ((compute_novelty_functions w1 r1 w2 r2 fs).harmonic.isSome ∧
     (compute_novelty_functions w1 r1 w2 r2 fs).timbral.isSome ∧
     (compute_novelty_functions w1 r1 w2 r2 fs).energy.isSome ∧
     (compute_novelty_functions w1 r1 w2 r2 fs).spectral.isSome ∧
     (compute_novelty_functions w1 r1 w2 r2 fs).combined.isSome) ∧
    select_novelty_curve (compute_novelty_functions w1 r1 w2 r2 fs) =
      (compute_novelty_functions w1 r1 w2 r2 fs).combined := by
  constructor
  · exact ⟨rfl, rfl, rfl, rfl, by simp [compute_novelty_functions]⟩
  · simp [compute_novelty_functions, select_novelty_curve]

/-! ## C9: the post-processing merge rule -/

theorem ppLoop_zero (s : List Section) (min_len : ℚ) (ms : Bool) (i : ℕ) :
    ppLoop s min_len ms i 0 = [] := rfl

theorem ppLoop_succ (s : List Section) (min_len : ℚ) (ms : Bool) (i f : ℕ) :
    ppLoop s min_len ms i (f+1) =
      if i < s.length then
        (if ((ms && decide (i < s.length - 1) &&
              merge_condition min_len (s.getD i default) (s.getD (i+1) default)) &&
              decide (i < s.length - 1)) = true then
          merge_sections (s.getD i default) (s.getD (i+1) default) ::
            ppLoop s min_len ms (i+2) f
        else s.getD i default :: ppLoop s min_len ms (i+1) f)
      else [] := rfl

theorem ppLoop_shift (min_len : ℚ) (ms : Bool) :
    ∀ (fuel : ℕ) (a : Section) (s : List Section) (i : ℕ),
      ppLoop (a :: s) min_len ms (i+1) fuel = ppLoop s min_len ms i fuel := by
  intro fuel
  induction fuel with
  | zero => intro a s i; rfl
  | succ f ih =>
    intro a s i
    rw [ppLoop_succ, ppLoop_succ]
    simp only [List.length_cons, List.getD_cons_succ, Nat.add_sub_cancel]
    have hdec : decide (i + 1 < s.length) = decide (i < s.length - 1) :=
      decide_eq_decide.mpr (by omega)
    rw [hdec]
    refine if_congr (by omega) (if_congr Iff.rfl ?_ ?_) rfl
    · exact congrArg _ (ih a s (i+2))
    · exact congrArg _ (ih a s (i+1))

theorem ppLoop_fuel (min_len : ℚ) (ms : Bool) :
    ∀ (f1 f2 : ℕ) (s : List Section) (i : ℕ),
      s.length - i ≤ f1 → s.length - i ≤ f2 →
      ppLoop s min_len ms i f1 = ppLoop s min_len ms i f2 := by
  intro f1
  induction f1 with
  | zero =>
    intro f2 s i h1 h2
    have hn : ¬ i < s.length := by omega
    cases f2 with
    | zero => rfl
    | succ g => rw [ppLoop_zero, ppLoop_succ, if_neg hn]
  | succ f ih =>
    intro f2 s i h1 h2
    cases f2 with
    | zero =>
      have hn : ¬ i < s.length := by omega
      rw [ppLoop_zero, ppLoop_succ, if_neg hn]
    | succ g =>
      rw [ppLoop_succ, ppLoop_succ]
      refine if_congr Iff.rfl (if_congr Iff.rfl ?_ ?_) rfl
      · exact congrArg _ (ih g s (i+2) (by omega) (by omega))
      · exact congrArg _ (ih g s (i+1) (by omega) (by omega))

theorem ppLoop_eq_post_process (min_len : ℚ) (ms : Bool) (s : List Section) (fuel : ℕ)
    (hf : s.length ≤ fuel) : ppLoop s min_len ms 0 fuel = post_process_sections s min_len ms := by
  unfold post_process_sections
  split_ifs with h
  · -- length ≤ 1
    cases s with
    | nil =>
      cases fuel with
      | zero => rfl
      | succ f => rw [ppLoop_succ]; simp
    | cons a t =>
      cases t with
      | nil =>
        cases fuel with
        | zero => simp at hf
        | succ f =>
          rw [ppLoop_succ]
          simp only [List.length_cons, List.length_nil, List.getD_cons_zero]
          rw [if_pos (by omega)]
          rw [if_neg (by simp)]
          cases f with
          | zero => rfl
          | succ g => rw [ppLoop_succ]; simp
      | cons b t2 => simp at h
  · exact ppLoop_fuel min_len ms fuel s.length s 0 (by omega) (by omega)

/-- Claim C9: `post_process_sections` merges a section into its immediate
successor exactly when the two share the same leading label word or either
duration is below the minimum merge threshold (default 5 s at the call sites);
the merge extends the survivor to the successor's end and averages the two
confidences; and the pass is single left-to-right, so a merged section is
itself never re-merged: the loop continues on the untouched rest of the list. -/
theorem c9_post_process_merge_rule (min_len : ℚ) (a b : Section) (rest : List Section) :
    (post_process_sections (a :: b :: rest) min_len true =
      if merge_condition min_len a b then
        merge_sections a b :: post_process_sections rest min_len true
      else a :: post_process_sections (b :: rest) min_len true) ∧
    (merge_condition min_len a b = true ↔
      (leadWord a.name = leadWord b.name ∨ a.stop - a.start < min_len ∨
        b.stop - b.start < min_len)) ∧
    merge_sections a b = ⟨a.name, a.start, b.stop, (a.confidence + b.confidence) / 2⟩ := by
  refine ⟨?_, ?_, rfl⟩
  · have hstep : post_process_sections (a :: b :: rest) min_len true =
        ppLoop (a :: b :: rest) min_len true 0 (rest.length + 1 + 1) := by
      simp [post_process_sections]
    rw [hstep]
    rw [ppLoop_succ]
    simp only [List.length_cons, List.getD_cons_zero, List.getD_cons_succ,
      Nat.add_sub_cancel]
    rw [if_pos (show 0 < rest.length + 1 + 1 by omega)]
    rw [show decide (0 < rest.length + 1) = true from decide_eq_true (by omega)]
    simp only [Bool.true_and, Bool.and_true]
    have hrec2 : ppLoop (a :: b :: rest) min_len true 2 (rest.length + 1) =
        post_process_sections rest min_len true := by
      calc ppLoop (a :: b :: rest) min_len true 2 (rest.length + 1)
          = ppLoop (b :: rest) min_len true 1 (rest.length + 1) :=
            ppLoop_shift min_len true (rest.length + 1) a (b :: rest) 1
        _ = ppLoop rest min_len true 0 (rest.length + 1) :=
            ppLoop_shift min_len true (rest.length + 1) b rest 0
        _ = post_process_sections rest min_len true :=
            ppLoop_eq_post_process _ _ _ _ (by omega)
    have hrec1 : ppLoop (a :: b :: rest) min_len true 1 (rest.length + 1) =
        post_process_sections (b :: rest) min_len true := by
      calc ppLoop (a :: b :: rest) min_len true 1 (rest.length + 1)
          = ppLoop (b :: rest) min_len true 0 (rest.length + 1) :=
            ppLoop_shift min_len true (rest.length + 1) a (b :: rest) 0
        _ = post_process_sections (b :: rest) min_len true :=
            ppLoop_eq_post_process _ _ _ _ (by simp)
    by_cases hm : merge_condition min_len a b = true
    · rw [if_pos hm, if_pos hm, hrec2]
    · rw [if_neg hm, if_neg hm, hrec1]
  · simp [merge_condition, or_assoc]

/-! ## C8: when a segment is labeled Intro -/

theorem verse_ne_intro (s : String) : ("Verse " ++ s) ≠ "Intro" := by
  intro h
  have hl := congrArg String.length h
  rw [String.length_append] at hl
  have h6 : ("Verse " : String).length = 6 := by decide
  have h5 : ("Intro" : String).length = 5 := by decide
  omega

/-- Amended claim C8: in the advanced labeler, a segment is labeled Intro if
and only if its position fraction is below 0.1 OR it is below 0.2 with a
duration under 15 s (the source's full first rule); in the frame-based
labeler the Intro threshold is 0.15, not 0.1. -/
theorem c8_intro_rule :
    (∀ (posFrac duration : ℚ) (b1 b2 b3 b4 b5 b6 : Bool) (vc : ℕ),
      (advanced_label posFrac duration b1 b2 b3 b4 b5 b6 vc = "Intro" ↔
        (posFrac < 1/10 ∨ (posFrac < 2/10 ∧ duration < 15)))) ∧
    (∀ (posFrac dur energy brightness stability : ℚ) (i : ℕ),
      (frame_label posFrac dur energy brightness stability i = "Intro" ↔
        posFrac < 15/100)) := by
  constructor
  · intro posFrac duration b1 b2 b3 b4 b5 b6 vc
    unfold advanced_label
    split_ifs with h1 <;>
      first
        | exact iff_of_true rfl h1
        | exact iff_of_false (by decide) h1
        | exact iff_of_false (verse_ne_intro _) h1
  · intro posFrac dur energy brightness stability i
    unfold frame_label
    split_ifs with h1 <;>
      first
        | exact iff_of_true rfl h1
        | exact iff_of_false (by decide) h1
        | exact iff_of_false (verse_ne_intro _) h1

/-- A frame-synchronous FeatureSet of four all-zero frames, used to exhibit
the Intro rule's second disjunct. -/
def fsC8 : FeatureSet :=
  ⟨(List.range 12).map (fun _ => [0,0,0,0]), (List.range 13).map (fun _ => [0,0,0,0]),
   (List.range 4).map (fun _ => [0,0,0,0]), [[0,0,0,0]], [], [0,10,20,30], 120⟩

/-- Counterexample to claim C8 as stated: with boundaries `[0, 3.6, 10, 30]`
the second segment starts at position fraction 3.6/30 = 0.12 ≥ 0.1, yet the
advanced labeler names it Intro (its duration 6.4 s is below 15 s and the
fraction is below 0.2). -/
theorem c8_intro_counterexample :
    ((label_sections_advanced (fun _ => 0) [0, 18/5, 10, 30] fsC8 [0,10,20,30]).getD 1
      default).name = "Intro" ∧
    ¬ ((18/5 : ℚ) / 30 < 1/10) := by
  constructor
  · decide
  · norm_num

/-! ## C6: key detection never leaves the 24-key vocabulary -/

/-- Claim C6: for every chroma matrix (including one whose mean sums to zero),
`detect_key_and_changes`' key estimate is drawn from the fixed 24-name
vocabulary — NaN correlations are replaced by 0 before the argmax, so the
argmax always lands inside the score list — and when the mean chroma sums to
zero the L1 normalization is skipped (the vector is passed through unchanged). -/
theorem c6_key_vocabulary (corr : List ℚ → List ℚ → Option ℚ) (chroma : List (List ℚ)) :
    detect_key corr chroma ∈ key_names ∧
    ((chroma.map npMean).sum = 0 → normalizeL1 (chroma.map npMean) = chroma.map npMean) := by
  constructor
  · unfold detect_key
    have hlen : (key_scores corr (normalizeL1 (chroma.map npMean))).length = 24 := by
      simp [key_scores, key_profiles]
    have hnn : key_names.length = 24 := by simp [key_names]
    have hlt : npArgmax (key_scores corr (normalizeL1 (chroma.map npMean))) <
        key_names.length := by
      rw [hnn, ← hlen]
      exact npArgmax_lt _ (by rw [← List.length_pos, hlen]; norm_num)
    exact getD_mem _ _ _ hlt
  · intro h
    unfold normalizeL1
    rw [h]
    simp

theorem c6_key_vocabulary_witness :
    detect_key (fun _ _ => none) [[(0:ℚ)]] ∈ key_names ∧
    normalizeL1 ([[(0:ℚ)]].map npMean) = [[(0:ℚ)]].map npMean := by
  exact ⟨(c6_key_vocabulary (fun _ _ => none) [[0]]).1,
    (c6_key_vocabulary (fun _ _ => none) [[0]]).2 (by decide)⟩

/-! ## C5: shape and range of the novelty curves -/

theorem convSum_nonneg : ∀ (w x : List ℚ), (∀ v ∈ w, 0 ≤ v) → (∀ v ∈ x, 0 ≤ v) →
    ∀ pos : ℤ, 0 ≤ convSum w x pos := by
  intro w
  induction w with
  | nil => intro x _ _ pos; simp [convSum]
  | cons a rest ih =>
    intro x hw hx pos
    have h1 := ih x (fun v hv => hw v (List.mem_cons_of_mem _ hv)) hx (pos + 1)
    have ha : 0 ≤ a := hw a (List.mem_cons_self _ _)
    have hxv : 0 ≤ x.getD (reflectIdx x.length pos) 0 := by
      by_cases hidx : reflectIdx x.length pos < x.length
      · exact hx _ (getD_mem _ _ _ hidx)
      · rw [List.getD_eq_default _ _ (le_of_not_lt hidx)]
    simp only [convSum]
    have := mul_nonneg ha hxv
    linarith

theorem convSum_bounds : ∀ (w x : List ℚ) (M : ℚ), (∀ v ∈ w, 0 ≤ v) →
    (∀ v ∈ x, 0 ≤ v ∧ v ≤ M) → 0 ≤ M →
    ∀ pos : ℤ, 0 ≤ convSum w x pos ∧ convSum w x pos ≤ w.sum * M := by
  intro w
  induction w with
  | nil => intro x M hw hx hM pos; simp [convSum]
  | cons a rest ih =>
    intro x M hw hx hM pos
    obtain ⟨h1, h2⟩ := ih x M (fun v hv => hw v (List.mem_cons_of_mem _ hv)) hx hM (pos + 1)
    have ha : 0 ≤ a := hw a (List.mem_cons_self _ _)
    have hxv : 0 ≤ x.getD (reflectIdx x.length pos) 0 ∧
        x.getD (reflectIdx x.length pos) 0 ≤ M := by
      by_cases hidx : reflectIdx x.length pos < x.length
      · exact hx _ (getD_mem _ _ _ hidx)
      · rw [List.getD_eq_default _ _ (le_of_not_lt hidx)]
        exact ⟨le_refl 0, hM⟩
    constructor
    · simp only [convSum]
      have := mul_nonneg ha hxv.1
      linarith
    · simp only [convSum, List.sum_cons]
      have hexp : (a + rest.sum) * M = a * M + rest.sum * M := by ring
      have ham : a * x.getD (reflectIdx x.length pos) 0 ≤ a * M :=
        mul_le_mul_of_nonneg_left hxv.2 ha
      rw [hexp]
      linarith

theorem foldl_max_ge : ∀ (l : List ℚ) (b : ℚ),
    b ≤ l.foldl max b ∧ ∀ v ∈ l, v ≤ l.foldl max b := by
  intro l
  induction l with
  | nil => intro b; simp
  | cons x xs ih =>
    intro b
    obtain ⟨h1, h2⟩ := ih (max b x)
    refine ⟨le_trans (le_max_left b x) h1, ?_⟩
    intro v hv
    rcases List.mem_cons.1 hv with rfl | hv
    · exact le_trans (le_max_right b v) h1
    · exact h2 v hv

theorem npMax_ge (l : List ℚ) : ∀ v ∈ l, v ≤ npMax l := by
  cases l with
  | nil => simp
  | cons a as =>
    intro v hv
    rcases List.mem_cons.1 hv with rfl | hv
    · exact (foldl_max_ge as v).1
    · exact (foldl_max_ge as a).2 v hv

theorem normalize_by_max_bounds (x : List ℚ) (hx : ∀ v ∈ x, 0 ≤ v) :
    ∀ v ∈ normalize_by_max x, 0 ≤ v ∧ v ≤ 1 := by
  intro v hv
  rcases List.mem_map.1 hv with ⟨u, hu, rfl⟩
  have h1 : 0 ≤ u := hx u hu
  have h2 : u ≤ npMax x := npMax_ge x u hu
  have h3 : 0 ≤ npMax x := le_trans h1 h2
  have hden : 0 < npMax x + 1/100000000 := by linarith
  constructor
  · positivity
  · rw [div_le_one hden]
    linarith

theorem sum_abs_diff_nonneg (m : List (List ℚ)) : ∀ v ∈ sum_abs_diff m, 0 ≤ v := by
  intro v hv
  rcases List.mem_map.1 hv with ⟨j, _, rfl⟩
  refine List.sum_nonneg ?_
  intro u hu
  rcases List.mem_map.1 hu with ⟨row, _, rfl⟩
  positivity

theorem abs_diff_flat_single (row : List ℚ) : abs_diff_flat [row] =
    (List.range (row.length - 1)).map (fun j => |row.getD (j+1) 0 - row.getD j 0|) := by
  simp [abs_diff_flat, matFlat]

/-- One family-novelty computation: smoothed and max-normalized absolute
differences have the raw curve's length and live in [0, 1]. -/
theorem family_curve_ok (w : List ℚ) (r : ℕ) (raw : List ℚ) (L : ℕ)
    (hlen : raw.length = L) (hraw : ∀ v ∈ raw, 0 ≤ v) (hw : ∀ v ∈ w, 0 ≤ v) :
    (normalize_by_max (gaussian_filter1d w r raw)).length = L ∧
    ∀ v ∈ normalize_by_max (gaussian_filter1d w r raw), 0 ≤ v ∧ v ≤ 1 := by
  constructor
  · simp only [normalize_by_max, gaussian_filter1d, List.length_map, List.length_range, hlen]
  · apply normalize_by_max_bounds
    intro v hv
    rcases List.mem_map.1 hv with ⟨i, _, rfl⟩
    exact convSum_nonneg w raw hw hraw _

theorem zipWith_wadd_bounds (wt S : ℚ) (hwt : 0 ≤ wt) (hS : 0 ≤ S) :
    ∀ (a b : List ℚ), (∀ v ∈ a, 0 ≤ v ∧ v ≤ S) → (∀ v ∈ b, 0 ≤ v ∧ v ≤ 1) →
      ∀ v ∈ List.zipWith (fun x y => x + wt * y) a b, 0 ≤ v ∧ v ≤ S + wt := by
  intro a
  induction a with
  | nil => intro b _ _ v hv; simp at hv
  | cons x xs ih =>
    intro b ha hb v hv
    cases b with
    | nil => simp at hv
    | cons y ys =>
      rcases List.mem_cons.1 hv with rfl | hv
      · obtain ⟨hx0, hx1⟩ := ha x (by simp)
        obtain ⟨hy0, hy1⟩ := hb y (by simp)
        constructor
        · show 0 ≤ x + wt * y
          nlinarith
        · show x + wt * y ≤ S + wt
          nlinarith
      · exact ih ys (fun u hu => ha u (by simp [hu])) (fun u hu => hb u (by simp [hu])) v hv

theorem getD_nonneg_of_forall (l : List ℚ) (i : ℕ) (h : ∀ w ∈ l, 0 ≤ w) :
    0 ≤ l.getD i 0 := by
  rw [List.getD_eq_getElem?_getD]
  rcases h' : l[i]? with _ | w
  · simp
  · simpa using h w (List.getElem?_mem h')

theorem sum_take_succ_getD (l : List ℚ) (i : ℕ) :
    (l.take (i+1)).sum = (l.take i).sum + l.getD i 0 := by
  rw [List.take_succ, List.sum_append, List.getD_eq_getElem?_getD]
  rcases l[i]? with _ | w <;> simp

/-- One combination step keeps the accumulator length and raises the upper
bound by at most the step's weight. -/
theorem combStep_ok (curves : List (List ℚ)) (weights : List ℚ) (m : ℕ) (S : ℚ)
    (hcur : ∀ c ∈ curves, ∀ v ∈ c, 0 ≤ v ∧ v ≤ 1)
    (hw : ∀ w ∈ weights, 0 ≤ w)
    (acc : List ℚ) (i : ℕ) (hacc : acc.length = m) (hb : ∀ v ∈ acc, 0 ≤ v ∧ v ≤ S) :
    (combStep curves weights acc i).length = m ∧
    ∀ v ∈ combStep curves weights acc i, 0 ≤ v ∧ v ≤ S + weights.getD i 0 := by
  have hwi : 0 ≤ weights.getD i 0 := getD_nonneg_of_forall weights i hw
  rcases acc with _ | ⟨a, as⟩
  · simp only [combStep]
    split_ifs with hcond
    · constructor
      · simpa using hacc
      · intro v hv
        simp at hv
    · exact ⟨hacc, by intro v hv; simp at hv⟩
  · have hS : 0 ≤ S := le_trans (hb a (by simp)).1 (hb a (by simp)).2
    simp only [combStep]
    split_ifs with hcond
    · have hnb : ∀ v ∈ curves.getD i [], 0 ≤ v ∧ v ≤ 1 := by
        rw [List.getD_eq_getElem?_getD]
        rcases h' : curves[i]? with _ | c
        · simp
        · simpa using hcur c (List.getElem?_mem h')
      refine ⟨?_, ?_⟩
      · simp only [List.length_zipWith, hcond.2, hacc, min_self]
      · exact zipWith_wadd_bounds (weights.getD i 0) S hwi hS _ _ hb hnb
    · refine ⟨hacc, ?_⟩
      intro v hv
      have := hb v hv
      exact ⟨this.1, by linarith [this.2]⟩

/-- Indexed invariant for folds over `List.range`. -/
theorem foldl_range_inv {β : Type} (P : ℕ → β → Prop) (F : β → ℕ → β) :
    ∀ (k : ℕ) (init : β), (∀ i acc, i < k → P i acc → P (i+1) (F acc i)) → P 0 init →
      P k ((List.range k).foldl F init) := by
  intro k
  induction k with
  | zero => intro init _ h0; simpa using h0
  | succ m ih =>
    intro init h h0
    rw [List.range_succ, List.foldl_append]
    simp only [List.foldl_cons, List.foldl_nil]
    exact h m _ (by omega) (ih init (fun i acc hi => h i acc (by omega)) h0)

/-- Well-formedness of a frame-synchronous FeatureSet with `n` time columns:
the matrices share the column count, RMS is a single row, and the frame-time
axis is parallel (`n` entries). -/
def WfFS (fs : FeatureSet) (n : ℕ) : Prop :=
  matCols fs.chroma = n ∧ matCols fs.mfcc = n ∧ matCols fs.spectral = n ∧
  (∃ row : List ℚ, fs.rms = [row] ∧ row.length = n) ∧ fs.frame_times.length = n

/-- A novelty curve of the amended shape: one entry per column transition
(one fewer than the `n` frames), all values in [0, 1]. -/
def curveOK (n : ℕ) (c : List ℚ) : Prop :=
  c.length = n - 1 ∧ ∀ v ∈ c, 0 ≤ v ∧ v ≤ 1

/-- Amended claim C5: for a well-formed FeatureSet with `n ≥ 2` frames and a
nonnegative smoothing kernel (the combined-pass kernel summing to 1, as the
true Gaussian does), all four family curves and the combined curve have
`n - 1` entries — one fewer than `frame_times`, since `np.diff` shortens the
time axis — and every value lies in [0, 1]. -/
theorem c5_novelty_curves (w1 : List ℚ) (r1 : ℕ) (w2 : List ℚ) (r2 : ℕ)
    (fs : FeatureSet) (n : ℕ) (hn : 2 ≤ n) (hwf : WfFS fs n)
    (hw1 : ∀ v ∈ w1, 0 ≤ v) (hw2 : ∀ v ∈ w2, 0 ≤ v) (hw2s : w2.sum = 1) :
    curveOK n ((compute_novelty_functions w1 r1 w2 r2 fs).harmonic.getD []) ∧
    curveOK n ((compute_novelty_functions w1 r1 w2 r2 fs).timbral.getD []) ∧
    curveOK n ((compute_novelty_functions w1 r1 w2 r2 fs).energy.getD []) ∧
    curveOK n ((compute_novelty_functions w1 r1 w2 r2 fs).spectral.getD []) ∧
    curveOK n ((compute_novelty_functions w1 r1 w2 r2 fs).combined.getD []) := by
  obtain ⟨hc, hmf, hsp, ⟨row, hrow, hrlen⟩, hft⟩ := hwf
  have h2c : 1 < matCols fs.chroma := by omega
  have h2m : 1 < matCols fs.mfcc := by omega
  have h2s : 1 < matCols fs.spectral := by omega
  have hrc : matCols fs.rms = n := by rw [hrow]; simpa [matCols] using hrlen
  have h2r : 1 < matCols fs.rms := by omega
  have hH := family_curve_ok w1 r1 (sum_abs_diff fs.chroma) (n-1)
    (by simp [sum_abs_diff, hc]) (sum_abs_diff_nonneg _) hw1
  have hT := family_curve_ok w1 r1 (sum_abs_diff fs.mfcc) (n-1)
    (by simp [sum_abs_diff, hmf]) (sum_abs_diff_nonneg _) hw1
  have hS := family_curve_ok w1 r1 (sum_abs_diff fs.spectral) (n-1)
    (by simp [sum_abs_diff, hsp]) (sum_abs_diff_nonneg _) hw1
  have hEraw : ∀ v ∈ abs_diff_flat fs.rms, 0 ≤ v := by
    rw [hrow, abs_diff_flat_single]
    intro v hv
    rcases List.mem_map.1 hv with ⟨j, _, rfl⟩
    positivity
  have hElen : (abs_diff_flat fs.rms).length = n - 1 := by
    rw [hrow, abs_diff_flat_single]
    simp [hrlen]
  have hE := family_curve_ok w1 r1 (abs_diff_flat fs.rms) (n-1) hElen hEraw hw1
  simp only [compute_novelty_functions, if_pos h2c, if_pos h2m, if_pos h2s, if_pos h2r,
    ne_eq, List.cons_ne_nil, not_false_iff, if_true, Option.getD_some, List.headD_cons]
  refine ⟨⟨hH.1, hH.2⟩, ⟨hT.1, hT.2⟩, ⟨hE.1, hE.2⟩, ⟨hS.1, hS.2⟩, ?_⟩
  -- the combined curve: the fold adds the four weighted curves to a zero base
  set H := normalize_by_max (gaussian_filter1d w1 r1 (sum_abs_diff fs.chroma)) with hHdef
  set T := normalize_by_max (gaussian_filter1d w1 r1 (sum_abs_diff fs.mfcc)) with hTdef
  set E := normalize_by_max (gaussian_filter1d w1 r1 (abs_diff_flat fs.rms)) with hEdef
  set S := normalize_by_max (gaussian_filter1d w1 r1 (sum_abs_diff fs.spectral)) with hSdef
  have hbase_len : (H.map (fun _ => (0:ℚ))).length = n - 1 := by
    simp only [List.length_map]; exact hH.1
  have hbase_b : ∀ v ∈ H.map (fun _ => (0:ℚ)), 0 ≤ v ∧ v ≤ 0 := by
    intro v hv
    rcases List.mem_map.1 hv with ⟨_, _, rfl⟩
    exact ⟨le_refl 0, le_refl 0⟩
  have hcurves : ∀ c ∈ [H, T, E, S], ∀ v ∈ c, 0 ≤ v ∧ v ≤ 1 := by
    intro c hc
    rcases List.mem_cons.1 hc with rfl | hc
    · exact hH.2
    rcases List.mem_cons.1 hc with rfl | hc
    · exact hT.2
    rcases List.mem_cons.1 hc with rfl | hc
    · exact hE.2
    rcases List.mem_cons.1 hc with rfl | hc
    · exact hS.2
    simp at hc
  have hwts : ∀ w ∈ ([4/10, 3/10, 2/10, 1/10] : List ℚ), 0 ≤ w := by
    intro w hw
    fin_cases hw <;> norm_num
  have hinv := foldl_range_inv
    (fun i acc => acc.length = n - 1 ∧
      ∀ v ∈ acc, 0 ≤ v ∧ v ≤ (([4/10, 3/10, 2/10, 1/10] : List ℚ).take i).sum)
    (combStep [H, T, E, S] [4/10, 3/10, 2/10, 1/10])
    ([H, T, E, S].length) (H.map (fun _ => (0:ℚ)))
    (by
      intro i acc _ hP
      have hstep := combStep_ok [H, T, E, S] [4/10, 3/10, 2/10, 1/10] (n-1)
        ((([4/10, 3/10, 2/10, 1/10] : List ℚ).take i).sum) hcurves hwts acc i hP.1 hP.2
      refine ⟨hstep.1, ?_⟩
      intro v hv
      rw [sum_take_succ_getD]
      exact hstep.2 v hv)
    ⟨hbase_len, by
      intro v hv
      rcases List.mem_map.1 hv with ⟨_, _, rfl⟩
      simp⟩
  obtain ⟨hclen, hcb⟩ := hinv
  have hlen4 : [H, T, E, S].length = 4 := rfl
  rw [hlen4] at hclen hcb ⊢
  have hsum4 : (([4/10, 3/10, 2/10, 1/10] : List ℚ).take 4).sum = 1 := by decide
  rw [hsum4] at hcb
  constructor
  · simp only [gaussian_filter1d, List.length_map, List.length_range]
    exact hclen
  · intro v hv
    rcases List.mem_map.1 hv with ⟨i, _, rfl⟩
    have hb := convSum_bounds w2 _ 1 hw2 hcb (by norm_num) ((i : ℤ) - r2)
    rw [hw2s] at hb
    exact ⟨hb.1, by linarith [hb.2]⟩

/-- A frame-synchronous FeatureSet with exactly two all-zero frames; its
frame-time axis has 2 entries but its novelty curves have a single entry. -/
def fsC5 : FeatureSet :=
  ⟨(List.range 12).map (fun _ => [0,0]), (List.range 13).map (fun _ => [0,0]),
   (List.range 4).map (fun _ => [0,0]), [[0,0]], [], [0, 1/10], 120⟩

/-- Counterexample to claim C5 as stated: the harmonic novelty curve of a
2-frame FeatureSet has 1 element (np.diff shortens the axis) while
`frame_times` has 2, so the curves do not have the same length as the
frame-time axis. -/
theorem c5_curve_length_counterexample :
    ((compute_novelty_functions [1] 0 [1] 0 fsC5).harmonic.getD []).length ≠
      fsC5.frame_times.length := by
  decide

theorem c5_novelty_curves_witness :
    curveOK 2 ((compute_novelty_functions [1] 0 [1] 0 fsC5).harmonic.getD []) ∧
    curveOK 2 ((compute_novelty_functions [1] 0 [1] 0 fsC5).combined.getD []) := by
  have h := c5_novelty_curves [1] 0 [1] 0 fsC5 2 (by norm_num)
    ⟨by decide, by decide, by decide, ⟨[0,0], rfl, rfl⟩, rfl⟩
    (by intro v hv; simp at hv; simp [hv])
    (by intro v hv; simp at hv; simp [hv]) (by decide)
  exact ⟨h.1, h.2.2.2.2⟩

/-! ## C1: boundary-sequence endpoint and monotonicity invariants -/

/-- The boundary-sequence invariant of the spec: first element 0, last element
the total duration, strictly increasing. -/
def BoundaryOK (total : ℚ) (b : List ℚ) : Prop :=
  b.headD 0 = 0 ∧ b.getLastD 0 = total ∧ List.Chain' (· < ·) b

theorem getLast?_eq_getLastD : ∀ (l : List ℚ), l ≠ [] →
    l.getLast? = some (l.getLastD 0) := by
  intro l
  induction l with
  | nil => intro h; exact absurd rfl h
  | cons a as ih =>
    intro _
    cases as with
    | nil => rfl
    | cons b bs =>
      rw [List.getLast?_cons_cons, ih (by simp), List.getLastD_cons,
        List.getLastD_cons, List.getLastD_cons]

theorem headD_append_left (l t : List ℚ) (d : ℚ) (h : l ≠ []) :
    (l ++ t).headD d = l.headD d := by
  rcases l with _ | ⟨a, as⟩
  · exact absurd rfl h
  · rfl

theorem chain'_concat_lt (l : List ℚ) (b : ℚ) (h : List.Chain' (· < ·) l)
    (hb : l = [] ∨ l.getLastD 0 < b) : List.Chain' (· < ·) (l ++ [b]) := by
  rw [List.chain'_append]
  refine ⟨h, List.chain'_singleton b, ?_⟩
  intro x hx y hy
  rcases hb with rfl | hlt
  · simp at hx
  · have hne : l ≠ [] := by rintro rfl; simp at hx
    rw [getLast?_eq_getLastD l hne] at hx
    simp only [Option.mem_def, Option.some.injEq] at hx
    simp only [List.head?_cons, Option.mem_def, Option.some.injEq] at hy
    rw [← hx, ← hy]
    exact hlt

theorem getD_le_getLastD : ∀ (l : List ℚ), List.Chain' (· ≤ ·) l →
    ∀ p, p < l.length → l.getD p 0 ≤ l.getLastD 0 := by
  intro l
  induction l with
  | nil => intro _ p hp; simp at hp
  | cons a as ih =>
    intro hmono p hp
    cases as with
    | nil =>
      have hp0 : p = 0 := by simp only [List.length_cons, List.length_nil] at hp; omega
      subst hp0
      exact le_refl a
    | cons b bs =>
      have hab : a ≤ b := (List.chain'_cons.1 hmono).1
      have htl : List.Chain' (· ≤ ·) (b :: bs) := (List.chain'_cons.1 hmono).2
      have hlast_eq : (a :: b :: bs).getLastD 0 = (b :: bs).getLastD 0 := by
        rw [List.getLastD_cons, List.getLastD_cons, List.getLastD_cons]
      cases p with
      | zero =>
        show a ≤ (a :: b :: bs).getLastD 0
        rw [hlast_eq]
        calc a ≤ b := hab
          _ ≤ (b :: bs).getLastD 0 := by
            have := ih htl 0 (by simp)
            simpa using this
      | succ q =>
        show (b :: bs).getD q 0 ≤ (a :: b :: bs).getLastD 0
        rw [hlast_eq]
        have hq : q < (b :: bs).length := by
          simp only [List.length_cons] at hp ⊢
          omega
        exact ih htl q hq

/-- Invariant for the gap-filtering folds: each step either keeps the
accumulator or appends a strictly larger value bounded by the total. -/
theorem append_fold_inv {α : Type} (f : List ℚ → α → List ℚ) (total : ℚ) :
    ∀ (l : List α) (init : List ℚ),
      (∀ (acc : List ℚ), ∀ x ∈ l, f acc x = acc ∨
        ∃ b, f acc x = acc ++ [b] ∧ acc.getLastD 0 < b ∧ b ≤ total) →
      init ≠ [] → init.headD 0 = 0 → List.Chain' (· < ·) init →
      init.getLastD 0 ≤ total →
      l.foldl f init ≠ [] ∧ (l.foldl f init).headD 0 = 0 ∧
        List.Chain' (· < ·) (l.foldl f init) ∧ (l.foldl f init).getLastD 0 ≤ total := by
  intro l
  induction l with
  | nil =>
    intro init _ h1 h2 h3 h4
    exact ⟨h1, h2, h3, h4⟩
  | cons x xs ih =>
    intro init hf h1 h2 h3 h4
    simp only [List.foldl_cons]
    rcases hf init x (by simp) with heq | ⟨b, heq, hlt, hle⟩
    · rw [heq]
      exact ih init (fun acc y hy => hf acc y (by simp [hy])) h1 h2 h3 h4
    · rw [heq]
      refine ih _ (fun acc y hy => hf acc y (by simp [hy])) (by simp) ?_ ?_ ?_
      · rw [headD_append_left init [b] 0 h1]
        exact h2
      · exact chain'_concat_lt init b h3 (Or.inr hlt)
      · rw [List.getLastD_concat]
        exact hle

/-- The equal-thirds fallback satisfies the boundary invariant. -/
theorem thirds_ok (t : ℚ) (ht : 0 < t) : BoundaryOK t [0, t/3, 2*t/3, t] := by
  refine ⟨rfl, ?_, ?_⟩
  · rw [List.getLastD_cons, List.getLastD_cons, List.getLastD_cons,
      List.getLastD_cons, List.getLastD_nil]
  · exact List.chain'_cons.2 ⟨by linarith, List.chain'_cons.2 ⟨by linarith,
      List.chain'_cons.2 ⟨by linarith, List.chain'_singleton t⟩⟩⟩

/-- Inverting the candidate filter of `detect_boundaries_frame_based`: a
produced value is the guarded one. -/
theorem ite_opt_some {A B : Prop} [Decidable A] [Decidable B] (v b : ℚ)
    (h : (if A then (if B then some v else none) else none) = some b) : b = v := by
  split_ifs at h with h1 h2
  exact (Option.some.inj h).symm

/-- Inverting the guard structure of `detect_boundaries_frame_based`'s main
branch: a produced list is the guarded one. -/
theorem ite_opt_some2 {A B : Prop} [Decidable A] [Decidable B] (v b : List ℚ)
    (h : (if A then none else if B then none else some v) = some b) : v = b := by
  split_ifs at h with h1 h2
  exact Option.some.inj h

/-- Appending the total when it is missing and falling back to thirds keeps the
boundary invariant (the common tail of both boundary detectors). -/
theorem boundary_finish (T : ℚ) (bts : List ℚ) (hT : 0 < T)
    (hinv : bts ≠ [] ∧ bts.headD 0 = 0 ∧ List.Chain' (· < ·) bts ∧ bts.getLastD 0 ≤ T) :
    BoundaryOK T
      (if (if bts.getLastD 0 ≠ T then bts ++ [T] else bts).length < 3
       then [0, T/3, 2*T/3, T]
       else if bts.getLastD 0 ≠ T then bts ++ [T] else bts) := by
  obtain ⟨h1, h2, h3, h4⟩ := hinv
  have hb2 : (if bts.getLastD 0 ≠ T then bts ++ [T] else bts).headD 0 = 0 ∧
      (if bts.getLastD 0 ≠ T then bts ++ [T] else bts).getLastD 0 = T ∧
      List.Chain' (· < ·) (if bts.getLastD 0 ≠ T then bts ++ [T] else bts) := by
    by_cases hne : bts.getLastD 0 ≠ T
    · rw [if_pos hne]
      refine ⟨?_, List.getLastD_concat 0 T bts,
        chain'_concat_lt bts T h3 (Or.inr (lt_of_le_of_ne h4 hne))⟩
      rw [headD_append_left bts [T] 0 h1]
      exact h2
    · rw [if_neg hne]
      exact ⟨h2, not_ne_iff.1 hne, h3⟩
  by_cases hlen : (if bts.getLastD 0 ≠ T then bts ++ [T] else bts).length < 3
  · rw [if_pos hlen]
    exact thirds_ok T hT
  · rw [if_neg hlen]
    exact ⟨hb2.1, hb2.2.1, hb2.2.2⟩

/-- The novelty-based boundary detector satisfies the boundary invariant for a
nonempty, nondecreasing frame axis with positive final time and a positive
minimum segment length. -/
theorem detect_boundaries_novelty_ok (sqrtq : ℚ → ℚ) (nf : NoveltyFuncs)
    (ft : List ℚ) (msl : ℚ) (hft : ft ≠ []) (hmono : List.Chain' (· ≤ ·) ft)
    (hlast : 0 < ft.getLastD 0) (hmsl : 0 < msl) :
    BoundaryOK (ft.getLastD 0) (detect_boundaries_novelty sqrtq nf ft msl) := by
  have h0 : 0 < ft.length := List.length_pos.2 hft
  rcases hsel : select_novelty_curve nf with _ | novelty
  · simp only [detect_boundaries_novelty, hsel]
    rw [if_pos h0]
    exact thirds_ok _ hlast
  · simp only [detect_boundaries_novelty, hsel]
    rw [if_pos h0]
    refine boundary_finish (ft.getLastD 0) _ hlast
      (append_fold_inv _ (ft.getLastD 0) _ [(0:ℚ)] ?_ (by simp) rfl
        (List.chain'_singleton 0)
        (by rw [List.getLastD_cons, List.getLastD_nil]; exact hlast.le))
    intro acc p _
    by_cases hp : p < ft.length
    · by_cases hacc : msl ≤ ft.getD p 0 - acc.getLastD 0
      · right
        refine ⟨ft.getD p 0, ?_, by linarith, getD_le_getLastD ft hmono p hp⟩
        simp only [if_pos hp, if_pos hacc]
      · left
        simp only [if_pos hp, if_neg hacc]
    · left
      simp only [if_neg hp]

/-- The frame-based boundary detector satisfies the boundary invariant whenever
it returns a value, for a nondecreasing frame axis not exceeding the duration. -/
theorem detect_boundaries_frame_based_ok (sqrtq : ℚ → ℚ)
    (chroma rms centroid : List (List ℚ)) (ft : List ℚ) (duration : ℚ) (bs : List ℚ)
    (hmono : List.Chain' (· ≤ ·) ft) (hdur : 0 < duration)
    (hfd : ft.getLastD 0 ≤ duration)
    (heq : detect_boundaries_frame_based sqrtq chroma rms centroid ft duration = some bs) :
    BoundaryOK duration bs := by
  by_cases hcols : matCols chroma < 32
  · unfold detect_boundaries_frame_based at heq
    rw [if_pos hcols, Option.some.injEq] at heq
    subst heq
    refine ⟨rfl, ?_, ?_⟩
    · rw [List.getLastD_cons, List.getLastD_cons, List.getLastD_cons,
        List.getLastD_cons, List.getLastD_cons, List.getLastD_nil]
    · exact List.chain'_cons.2 ⟨by linarith, List.chain'_cons.2 ⟨by linarith,
        List.chain'_cons.2 ⟨by linarith, List.chain'_cons.2 ⟨by linarith,
        List.chain'_singleton duration⟩⟩⟩⟩
  · unfold detect_boundaries_frame_based at heq
    rw [if_neg hcols] at heq
    rcases ft with _ | ⟨t0, ftl⟩
    · simp at heq
    rcases ftl with _ | ⟨t1, rest⟩
    · simp at heq
    simp only [] at heq
    have heq2 := ite_opt_some2 _ bs heq
    subst heq2
    refine boundary_finish duration _ hdur
      (append_fold_inv _ duration _ [(0:ℚ)] ?_ (by simp) rfl
        (List.chain'_singleton 0)
        (by rw [List.getLastD_cons, List.getLastD_nil]; exact hdur.le))
    intro acc b hb
    by_cases h12 : (12:ℚ) ≤ b - acc.getLastD 0
    · right
      refine ⟨b, ?_, by linarith, ?_⟩
      · simp only [if_pos h12]
      · rcases List.mem_append.1 hb with hbc | hbd
        · rcases List.mem_filterMap.1 hbc with ⟨i, _, hi⟩
          have hbv := ite_opt_some _ b hi
          rw [hbv]
          by_cases hil : i < (t0 :: t1 :: rest).length
          · rw [if_pos hil]
            exact le_trans (getD_le_getLastD _ hmono i hil) hfd
          · rw [if_neg hil]
            exact hfd
        · exact le_of_eq (List.mem_singleton.1 hbd)
    · left
      simp only [if_neg h12]

/-- Counterexample to claim C1 as stated: a nonempty single-frame axis makes
the novelty detector return [0, 0, 0, 0], which is not strictly increasing. -/
theorem c1_boundary_counterexample :
    detect_boundaries_novelty (fun _ => 0)
      (compute_novelty_functions [1] 0 [1] 0 fsC5) [0] 6 = [0, 0, 0, 0] ∧
    ¬ List.Chain' (· < ·) ([0, 0, 0, 0] : List ℚ) := by
  constructor
  · decide
  · intro h
    exact absurd (List.chain'_cons.1 h).1 (by norm_num)

/-- Amended claim C1: for a nonempty, nondecreasing frame-time axis whose last
time is positive, and a positive minimum segment length, the novelty-based
boundary list starts at 0, ends at the last frame time, and is strictly
increasing; and whenever the frame-based detector returns a boundary list (for
a positive duration bounding the frame times) that list starts at 0, ends at
the duration, and is strictly increasing. -/
theorem c1_boundary_endpoints (sqrtq : ℚ → ℚ) (nf : NoveltyFuncs)
    (chroma rms centroid : List (List ℚ)) (ft : List ℚ) (msl duration : ℚ)
    (hft : ft ≠ []) (hmono : List.Chain' (· ≤ ·) ft)
    (hlast : 0 < ft.getLastD 0) (hmsl : 0 < msl)
    (hdur : 0 < duration) (hfd : ft.getLastD 0 ≤ duration) :
    BoundaryOK (ft.getLastD 0) (detect_boundaries_novelty sqrtq nf ft msl) ∧
    ∀ bs, detect_boundaries_frame_based sqrtq chroma rms centroid ft duration = some bs →
      BoundaryOK duration bs :=
  ⟨detect_boundaries_novelty_ok sqrtq nf ft msl hft hmono hlast hmsl,
   fun bs heq =>
     detect_boundaries_frame_based_ok sqrtq chroma rms centroid ft duration bs
       hmono hdur hfd heq⟩

theorem c1_boundary_endpoints_witness :
    BoundaryOK (([0, 10] : List ℚ).getLastD 0)
      (detect_boundaries_novelty (fun _ => 0)
        (compute_novelty_functions [1] 0 [1] 0 fsC5) [0, 10] 6) ∧
    ∀ bs, detect_boundaries_frame_based (fun _ => 0) [[0, 0]] [[0, 0]] [[0, 0]]
        [0, 10] 10 = some bs → BoundaryOK 10 bs :=
  c1_boundary_endpoints (fun _ => 0) (compute_novelty_functions [1] 0 [1] 0 fsC5)
    [[0, 0]] [[0, 0]] [[0, 0]] [0, 10] 6 10 (by decide)
    (List.chain'_cons.2 ⟨by norm_num, List.chain'_singleton 10⟩) (by decide)
    (by norm_num) (by norm_num) (by decide)

/-! ## C4: minimum-gap property of the novelty boundary detector -/

theorem chain'_concat_rel (R : ℚ → ℚ → Prop) (l : List ℚ) (b : ℚ)
    (h : List.Chain' R l) (hb : l = [] ∨ R (l.getLastD 0) b) :
    List.Chain' R (l ++ [b]) := by
  rw [List.chain'_append]
  refine ⟨h, List.chain'_singleton b, ?_⟩
  intro x hx y hy
  rcases hb with rfl | hrel
  · simp at hx
  · have hne : l ≠ [] := by rintro rfl; simp at hx
    rw [getLast?_eq_getLastD l hne] at hx
    simp only [Option.mem_def, Option.some.injEq] at hx
    simp only [List.head?_cons, Option.mem_def, Option.some.injEq] at hy
    rw [← hx, ← hy]
    exact hrel

/-- Invariant for the gap-filtering folds: each appended value keeps the
minimum gap to its predecessor. -/
theorem append_fold_gap {α : Type} (f : List ℚ → α → List ℚ) (msl : ℚ) :
    ∀ (l : List α) (init : List ℚ),
      (∀ (acc : List ℚ), ∀ x ∈ l, f acc x = acc ∨
        ∃ b, f acc x = acc ++ [b] ∧ msl ≤ b - acc.getLastD 0) →
      init ≠ [] → List.Chain' (fun a b => msl ≤ b - a) init →
      l.foldl f init ≠ [] ∧ List.Chain' (fun a b => msl ≤ b - a) (l.foldl f init) := by
  intro l
  induction l with
  | nil =>
    intro init _ h1 h2
    exact ⟨h1, h2⟩
  | cons x xs ih =>
    intro init hf h1 h2
    simp only [List.foldl_cons]
    rcases hf init x (by simp) with heq | ⟨b, heq, hgap⟩
    · rw [heq]
      exact ih init (fun acc y hy => hf acc y (by simp [hy])) h1 h2
    · rw [heq]
      exact ih _ (fun acc y hy => hf acc y (by simp [hy])) (by simp)
        (chain'_concat_rel _ init b h2 (Or.inr hgap))

/-- Common tail of the novelty detector, gap version: the result is the thirds
fallback or keeps the minimum gap everywhere except possibly before the final
appended total. -/
theorem gap_finish (T msl : ℚ) (bts : List ℚ)
    (hchain : List.Chain' (fun a b => msl ≤ b - a) bts) :
    (if (if bts.getLastD 0 ≠ T then bts ++ [T] else bts).length < 3
     then [0, T/3, 2*T/3, T]
     else if bts.getLastD 0 ≠ T then bts ++ [T] else bts) = [0, T/3, 2*T/3, T] ∨
    List.Chain' (fun a b => msl ≤ b - a)
      ((if (if bts.getLastD 0 ≠ T then bts ++ [T] else bts).length < 3
        then [0, T/3, 2*T/3, T]
        else if bts.getLastD 0 ≠ T then bts ++ [T] else bts).dropLast) := by
  by_cases hlen : (if bts.getLastD 0 ≠ T then bts ++ [T] else bts).length < 3
  · left
    rw [if_pos hlen]
  · right
    rw [if_neg hlen]
    by_cases hne2 : bts.getLastD 0 ≠ T
    · rw [if_pos hne2, List.dropLast_concat]
      exact hchain
    · rw [if_neg hne2]
      exact hchain.init

/-- A novelty bundle with a single interior peak, for the C4 counterexample. -/
def nfC4 : NoveltyFuncs :=
  ⟨some [0, 0, 0, 0, 0, 0, 0, 0, 1, 0, 0], none, none, none,
   some [0, 0, 0, 0, 0, 0, 0, 0, 1, 0, 0]⟩

/-- Counterexample to claim C4 as stated: with an 11-frame axis at 1 s spacing,
a peak at 8 s and an 8 s minimum segment length, the detector returns
[0, 8, 10] — not the equal-thirds fallback — whose final gap is 2 s < 8 s. -/
theorem c4_min_gap_counterexample :
    detect_boundaries_novelty (fun _ => 0) nfC4
      [0, 1, 2, 3, 4, 5, 6, 7, 8, 9, 10] 8 = [0, 8, 10] ∧
    detect_boundaries_novelty (fun _ => 0) nfC4
      [0, 1, 2, 3, 4, 5, 6, 7, 8, 9, 10] 8 ≠ [0, 10/3, 2*10/3, 10] ∧
    ¬ ((8:ℚ) ≤ 10 - 8) := by
  refine ⟨by decide, by decide, by norm_num⟩

/-- Amended claim C4: the novelty detector's boundary list either is the
equal-thirds fallback or satisfies the minimum gap between all consecutive
boundaries except possibly the last pair — the unconditional final append of
the total duration can land closer than the minimum segment length to the last
accepted boundary. -/
theorem c4_min_gap (sqrtq : ℚ → ℚ) (nf : NoveltyFuncs) (ft : List ℚ) (msl : ℚ)
    (hft : ft ≠ []) :
    detect_boundaries_novelty sqrtq nf ft msl =
      [0, ft.getLastD 0/3, 2*ft.getLastD 0/3, ft.getLastD 0] ∨
    List.Chain' (fun a b => msl ≤ b - a)
      ((detect_boundaries_novelty sqrtq nf ft msl).dropLast) := by
  have h0 : 0 < ft.length := List.length_pos.2 hft
  rcases hsel : select_novelty_curve nf with _ | novelty
  · left
    simp only [detect_boundaries_novelty, hsel]
    rw [if_pos h0]
  · simp only [detect_boundaries_novelty, hsel]
    rw [if_pos h0]
    refine gap_finish (ft.getLastD 0) msl _
      (append_fold_gap _ msl _ [(0:ℚ)] ?_ (by simp) (List.chain'_singleton 0)).2
    intro acc p _
    by_cases hp : p < ft.length
    · by_cases hacc : msl ≤ ft.getD p 0 - acc.getLastD 0
      · right
        refine ⟨ft.getD p 0, ?_, hacc⟩
        simp only [if_pos hp, if_pos hacc]
      · left
        simp only [if_pos hp, if_neg hacc]
    · left
      simp only [if_neg hp]

theorem c4_min_gap_witness :
    detect_boundaries_novelty (fun _ => 0) nfC4
        [0, 1, 2, 3, 4, 5, 6, 7, 8, 9, 10] 8 =
      [0, ([0, 1, 2, 3, 4, 5, 6, 7, 8, 9, 10] : List ℚ).getLastD 0/3,
       2*([0, 1, 2, 3, 4, 5, 6, 7, 8, 9, 10] : List ℚ).getLastD 0/3,
       ([0, 1, 2, 3, 4, 5, 6, 7, 8, 9, 10] : List ℚ).getLastD 0] ∨
    List.Chain' (fun a b => (8:ℚ) ≤ b - a)
      ((detect_boundaries_novelty (fun _ => 0) nfC4
        [0, 1, 2, 3, 4, 5, 6, 7, 8, 9, 10] 8).dropLast) :=
  c4_min_gap (fun _ => 0) nfC4 [0, 1, 2, 3, 4, 5, 6, 7, 8, 9, 10] 8 (by decide)

/-! ## C3: which boundary detector the shipped entry point uses -/

/-- Counterexample to claim C3 as stated: on a 2-frame feature set the shipped
entry point (which calls the frame-based `analyze_song_structure`, example.py
line 578) produces 4 sections via the quarters fallback, while the
novelty-based `improved_analyze_song_structure` produces 3 via the thirds
fallback; the two section outputs do not coincide. -/
theorem c3_shipped_counterexample :
    (analyze_audio_file_sections (fun _ => 0) fsC5.chroma fsC5.rms fsC5.spectral
        fsC5.frame_times 12).map (fun secs => secs.length) = some 4 ∧
    (improved_analyze_song_structure (fun _ => 0) [1] 0 [1] 0 fsC5).length = 3 := by
  constructor
  · decide
  · decide

/-- Amended claim C3: `analyze_audio_file` builds its section list through the
frame-based detector and labeler of example.py — not the novelty-based
variant.  Part 1: the shipped section output is exactly the frame-based
composition.  Part 2: it does not coincide with
`improved_analyze_song_structure` on all inputs (the section counts already
differ on a degenerate two-frame input). -/
theorem c3_shipped_entry :
    (∀ (sqrtq : ℚ → ℚ) (chroma rms centroid : List (List ℚ)) (ft : List ℚ) (dur : ℚ),
      analyze_audio_file_sections sqrtq chroma rms centroid ft dur =
        (detect_boundaries_frame_based sqrtq chroma rms centroid ft dur).map
          (fun bts => label_sections_frame_based bts chroma rms centroid ft)) ∧
    ¬ (∀ (sqrtq : ℚ → ℚ) (fs : FeatureSet) (w1 : List ℚ) (r1 : ℕ) (w2 : List ℚ)
        (r2 : ℕ) (dur : ℚ),
        (analyze_audio_file_sections sqrtq fs.chroma fs.rms fs.spectral
            fs.frame_times dur).map (fun secs => secs.length) =
          some ((improved_analyze_song_structure sqrtq w1 r1 w2 r2 fs).length)) := by
  constructor
  · intro sqrtq chroma rms centroid ft dur
    rfl
  · intro h
    have hx := h (fun _ => 0) fsC5 [1] 0 [1] 0 12
    rw [show (analyze_audio_file_sections (fun _ => 0) fsC5.chroma fsC5.rms fsC5.spectral
          fsC5.frame_times 12).map (fun secs => secs.length) = some 4 from by decide] at hx
    rw [show (improved_analyze_song_structure (fun _ => 0) [1] 0 [1] 0 fsC5).length = 3
          from by decide] at hx
    exact absurd hx (by decide)

/-! ## C2: all emitted confidences lie in [0, 1] -/

/-- Generic invariant for left folds. -/
theorem foldl_inv {α β : Type} (P : β → Prop) (F : β → α → β) :
    ∀ (l : List α) (init : β), (∀ acc x, x ∈ l → P acc → P (F acc x)) → P init →
      P (l.foldl F init) := by
  intro l
  induction l with
  | nil =>
    intro init _ h
    simpa using h
  | cons a as ih =>
    intro init h h0
    simp only [List.foldl_cons]
    exact ih (F init a) (fun acc x hx => h acc x (by simp [hx])) (h init a (by simp) h0)

/-- The stability component of the frame-based feature triple lies in [0, 1]. -/
theorem proj21_bound (C : Prop) [Decidable C] (a c : ℚ) (sC : List ℚ) :
    0 ≤ (if C then (a, if 0 < sC.length then 1 / (1 + npVar sC) else 1/2, c)
         else ((3:ℚ)/10, (1:ℚ)/2, (1000:ℚ))).2.1 ∧
    (if C then (a, if 0 < sC.length then 1 / (1 + npVar sC) else 1/2, c)
     else ((3:ℚ)/10, (1:ℚ)/2, (1000:ℚ))).2.1 ≤ 1 := by
  have hv := npVar_nonneg sC
  constructor
  · split_ifs with h1 h2
    · show 0 ≤ 1 / (1 + npVar sC)
      positivity
    · show 0 ≤ (1:ℚ)/2
      norm_num
    · show 0 ≤ (1:ℚ)/2
      norm_num
  · split_ifs with h1 h2
    · show 1 / (1 + npVar sC) ≤ 1
      rw [div_le_one (by linarith)]
      linarith
    · show (1:ℚ)/2 ≤ 1
      norm_num
    · show (1:ℚ)/2 ≤ 1
      norm_num

theorem label_sections_frame_based_conf (bt : List ℚ)
    (chroma rms centroid : List (List ℚ)) (ft : List ℚ) :
    ∀ s ∈ label_sections_frame_based bt chroma rms centroid ft,
      0 ≤ s.confidence ∧ s.confidence ≤ 1 := by
  intro s hs
  simp only [label_sections_frame_based] at hs
  refine foldl_step_forall (fun s => 0 ≤ s.confidence ∧ s.confidence ≤ 1) _ ?_ _ _
    (by simp) s hs
  intro acc i x hacc hx
  simp only [] at hx
  rcases List.mem_append.1 hx with h | h
  · exact hacc x h
  · rw [List.mem_singleton.1 h]
    exact ⟨round2_nonneg _ (proj21_bound _ _ _ _).1,
           round2_le_one _ (proj21_bound _ _ _ _).2⟩

/-- The advanced labeler's raw confidence lies in [0, 1] (indeed in
[0.5, 0.99]). -/
theorem advanced_confidence_bounds (label : String) (posFrac : ℚ)
    (b1 b2 b3 b4 : Bool) :
    0 ≤ advanced_confidence label posFrac b1 b2 b3 b4 ∧
    advanced_confidence label posFrac b1 b2 b3 b4 ≤ 1 := by
  simp only [advanced_confidence]
  split_ifs <;>
    exact ⟨le_min (by norm_num) (by norm_num), min_le_of_left_le (by norm_num)⟩

theorem label_sections_advanced_conf (sqrtq : ℚ → ℚ) (boundary_times : List ℚ)
    (fs : FeatureSet) (ft : List ℚ) :
    ∀ s ∈ label_sections_advanced sqrtq boundary_times fs ft,
      0 ≤ s.confidence ∧ s.confidence ≤ 1 := by
  intro s hs
  simp only [label_sections_advanced] at hs
  refine foldl_step_forall (fun s => 0 ≤ s.confidence ∧ s.confidence ≤ 1) _ ?_ _ _
    (by simp) s hs
  intro acc i x hacc hx
  simp only [] at hx
  rcases List.mem_append.1 hx with h | h
  · exact hacc x h
  · rw [List.mem_singleton.1 h]
    exact ⟨round2_nonneg _ (advanced_confidence_bounds _ _ _ _ _ _).1,
           round2_le_one _ (advanced_confidence_bounds _ _ _ _ _ _).2⟩

/-- With a square root that is nonnegative and whose square dominates its
argument, the guarded cosine score never exceeds 1. -/
theorem cos_score_le_one (sqrtq : ℚ → ℚ)
    (hs : ∀ x, 0 ≤ x → 0 ≤ sqrtq x ∧ x ≤ (sqrtq x)^2) (a t : List ℚ) :
    cos_score sqrtq a t ≤ 1 := by
  simp only [cos_score]
  split_ifs with h
  · obtain ⟨hcn, htn⟩ := h
    have hSa := sumSq_nonneg a
    have hSt := sumSq_nonneg t
    have h1 := (hs _ hSa).2
    have h2 := (hs _ hSt).2
    rw [div_le_one (by positivity)]
    have hsq : (dot a t)^2 ≤ (sqrtq (sumSq a) * sqrtq (sumSq t))^2 := by
      calc (dot a t)^2 ≤ sumSq a * sumSq t := dot_sq_le a t
        _ ≤ (sqrtq (sumSq a))^2 * (sqrtq (sumSq t))^2 := by nlinarith
        _ = (sqrtq (sumSq a) * sqrtq (sumSq t))^2 := by ring
    exact (abs_le_of_sq_le_sq' hsq (by positivity)).2
  · norm_num

/-- The best-chord score starts at 0 and only moves up through cosine scores,
so it stays in [0, 1]. -/
theorem best_chord_bounds (sqrtq : ℚ → ℚ)
    (hs : ∀ x, 0 ≤ x → 0 ≤ sqrtq x ∧ x ≤ (sqrtq x)^2) (a : List ℚ) :
    0 ≤ (best_chord sqrtq a).2 ∧ (best_chord sqrtq a).2 ≤ 1 := by
  simp only [best_chord]
  refine foldl_inv (fun b => 0 ≤ b.2 ∧ b.2 ≤ 1)
    (fun best p =>
      if best.2 < cos_score sqrtq a p.2 then (p.1, cos_score sqrtq a p.2) else best)
    chord_templates ("N", 0) ?_ (by norm_num)
  intro acc p _ hacc
  by_cases hlt : acc.2 < cos_score sqrtq a p.2
  · simp only [if_pos hlt]
    exact ⟨le_of_lt (lt_of_le_of_lt hacc.1 hlt), cos_score_le_one sqrtq hs a p.2⟩
  · simp only [if_neg hlt]
    exact hacc

/-- A chord emitted for a window carries a confidence in [0, 1]. -/
theorem window_chord_conf (sqrtq : ℚ → ℚ)
    (hs : ∀ x, 0 ≤ x → 0 ≤ sqrtq x ∧ x ≤ (sqrtq x)^2)
    (chroma : List (List ℚ)) (ft : List ℚ) (fps s : ℕ) (c : Chord)
    (h : window_chord sqrtq chroma ft fps s = some c) :
    0 ≤ c.confidence ∧ c.confidence ≤ 1 := by
  simp only [window_chord] at h
  have hb := best_chord_bounds sqrtq hs (window_mean_chroma chroma fps s)
  split_ifs at h with hthr <;>
    (rw [← Option.some.inj h]
     exact ⟨round2_nonneg _ hb.1, round2_le_one _ hb.2⟩)

/-- Chord merging preserves confidences in [0, 1] (averages of two bounded
confidences stay bounded). -/
theorem merge_chords_conf (cs : List Chord)
    (hcs : ∀ c ∈ cs, 0 ≤ c.confidence ∧ c.confidence ≤ 1) :
    ∀ c ∈ merge_chords cs, 0 ≤ c.confidence ∧ c.confidence ≤ 1 := by
  rcases cs with _ | ⟨c0, rest⟩
  · intro c hc
    simp [merge_chords] at hc
  · simp only [merge_chords]
    refine foldl_inv (fun acc => ∀ c ∈ acc, 0 ≤ c.confidence ∧ c.confidence ≤ 1) _ rest
      [c0] ?_ ?_
    · intro acc ch hch hacc
      rcases hgl : acc.getLast? with _ | lc
      · intro c hc
        rcases List.mem_append.1 hc with h | h
        · exact hacc c h
        · rw [List.mem_singleton.1 h]
          exact hcs ch (by simp [hch])
      · have hlc := hacc lc (List.mem_of_getLast?_eq_some hgl)
        have hch2 := hcs ch (by simp [hch])
        by_cases hcond : ch.name = lc.name ∧ |ch.start - lc.stop| < 1/2
        · simp only [if_pos hcond]
          intro c hc
          rcases List.mem_append.1 hc with h | h
          · exact hacc c (List.mem_of_mem_dropLast h)
          · rw [List.mem_singleton.1 h]
            refine ⟨round2_nonneg _ (by linarith [hlc.1, hch2.1]),
                    round2_le_one _ (by linarith [hlc.2, hch2.2])⟩
        · simp only [if_neg hcond]
          intro c hc
          rcases List.mem_append.1 hc with h | h
          · exact hacc c h
          · rw [List.mem_singleton.1 h]
            exact hch2
    · intro c hc
      rw [List.mem_singleton.1 hc]
      exact hcs c0 (by simp)

/-- Extracting the payload of a guard that returns `none` on its error path. -/
theorem ite_opt_some3 {A : Prop} [Decidable A] {β : Type} (v b : β)
    (h : (if A then none else some v) = some b) : v = b := by
  split_ifs at h
  exact Option.some.inj h

/-- Every chord returned by `detect_chords` has confidence in [0, 1]. -/
theorem detect_chords_conf (sqrtq : ℚ → ℚ)
    (hs : ∀ x, 0 ≤ x → 0 ≤ sqrtq x ∧ x ≤ (sqrtq x)^2)
    (chroma : List (List ℚ)) (sr : ℕ) (cs : List Chord)
    (h : detect_chords sqrtq chroma sr = some cs) :
    ∀ c ∈ cs, 0 ≤ c.confidence ∧ c.confidence ≤ 1 := by
  simp only [detect_chords] at h
  have hcs := ite_opt_some3 _ cs h
  rw [← hcs]
  refine merge_chords_conf _ ?_
  intro c hc
  rcases List.mem_filterMap.1 hc with ⟨s, _, hwc⟩
  exact window_chord_conf sqrtq hs chroma _ _ s c hwc

/-- The 24 key correlation scores, after the NaN-to-0 replacement, lie in
[-1, 1] whenever the correlation function is bounded the way Pearson
correlation is. -/
theorem key_scores_getD_bounds (corr : List ℚ → List ℚ → Option ℚ)
    (hcorr : ∀ u w q, corr u w = some q → -1 ≤ q ∧ q ≤ 1) (v : List ℚ) (i : ℕ) :
    -1 ≤ (key_scores corr v).getD i 0 ∧ (key_scores corr v).getD i 0 ≤ 1 := by
  rw [List.getD_eq_getElem?_getD]
  rcases h' : (key_scores corr v)[i]? with _ | q
  · norm_num
  · simp only [Option.getD_some]
    have hq : q ∈ key_scores corr v := List.getElem?_mem h'
    rcases List.mem_map.1 hq with ⟨p, _, hpq⟩
    have hpq2 : (corr v (p.map (· / p.sum))).getD 0 = q := hpq
    rcases hc : corr v (p.map (· / p.sum)) with _ | r
    · rw [hc] at hpq2
      simp only [Option.getD_none] at hpq2
      rw [← hpq2]
      norm_num
    · rw [hc] at hpq2
      simp only [Option.getD_some] at hpq2
      rw [← hpq2]
      exact hcorr _ _ r hc

/-- One key-change step only emits events whose confidence is a rounded score
in (0.3, 1]. -/
theorem key_step_conf (corr : List ℚ → List ℚ → Option ℚ)
    (hcorr : ∀ u w q, corr u w = some q → -1 ≤ q ∧ q ≤ 1)
    (v : List ℚ) (pk key : String) (tq : ℚ) (idx : ℕ) (out : List KeyChange)
    (hout : ∀ k ∈ out, 0 ≤ k.confidence ∧ k.confidence ≤ 1) :
    ∀ k ∈ (if key ≠ pk ∧ 3/10 < (key_scores corr v).getD idx 0
           then out ++ [⟨tq, pk, key, round2 ((key_scores corr v).getD idx 0)⟩]
           else out),
      0 ≤ k.confidence ∧ k.confidence ≤ 1 := by
  intro k hk
  split_ifs at hk with hcond
  · rcases List.mem_append.1 hk with h | h
    · exact hout k h
    · rw [List.mem_singleton.1 h]
      have hb := key_scores_getD_bounds corr hcorr v idx
      exact ⟨round2_nonneg _ (by linarith [hcond.2]), round2_le_one _ hb.2⟩
  · exact hout k hk

/-- Every key-change event returned by `detect_key_changes_in_segments` has
confidence in [0, 1]. -/
theorem detect_key_changes_conf (corr : List ℚ → List ℚ → Option ℚ)
    (hcorr : ∀ u w q, corr u w = some q → -1 ≤ q ∧ q ≤ 1)
    (chroma : List (List ℚ)) (sr : ℕ) (kcs : List KeyChange)
    (h : detect_key_changes_in_segments corr chroma sr = some kcs) :
    ∀ k ∈ kcs, 0 ≤ k.confidence ∧ k.confidence ≤ 1 := by
  simp only [detect_key_changes_in_segments] at h
  by_cases hA : matCols chroma < 2 * ((10 * sr) / 2048)
  · rw [if_pos hA, Option.some.injEq] at h
    rw [← h]
    intro k hk
    simp at hk
  · rw [if_neg hA] at h
    have h2 := ite_opt_some3 _ kcs h
    rw [← h2]
    refine foldl_inv
      (fun st => ∀ k ∈ st.2, 0 ≤ k.confidence ∧ k.confidence ≤ 1) _ _
      ((none : Option String), ([] : List KeyChange)) ?_ ?_
    · intro st s _ hst
      rcases st with ⟨opk, out⟩
      rcases opk with _ | pk
      · exact hst
      · exact key_step_conf corr hcorr _ pk _ _ _ out hst
    · intro k hk
      simp at hk

/-- Claim C2: every confidence in the output lies in [0, 1] — the sections of
the frame-based labeler, the sections of the advanced labeler, the chords of
`detect_chords` (for a square root that is nonnegative with dominating
square, as the floating `np.linalg.norm` is up to rounding), and the
key-change events (for a correlation bounded in [-1, 1], as Pearson
correlation is). -/
theorem c2_confidence_bounds (sqrtq : ℚ → ℚ) (corr : List ℚ → List ℚ → Option ℚ)
    (bt boundary_times ft : List ℚ) (chroma rms centroid : List (List ℚ))
    (fs : FeatureSet) (chordC keyC : List (List ℚ)) (sr sr2 : ℕ)
    (hs : ∀ x, 0 ≤ x → 0 ≤ sqrtq x ∧ x ≤ (sqrtq x)^2)
    (hcorr : ∀ u w q, corr u w = some q → -1 ≤ q ∧ q ≤ 1) :
    (∀ s ∈ label_sections_frame_based bt chroma rms centroid ft,
      0 ≤ s.confidence ∧ s.confidence ≤ 1) ∧
    (∀ s ∈ label_sections_advanced sqrtq boundary_times fs ft,
      0 ≤ s.confidence ∧ s.confidence ≤ 1) ∧
    (∀ cs, detect_chords sqrtq chordC sr = some cs →
      ∀ c ∈ cs, 0 ≤ c.confidence ∧ c.confidence ≤ 1) ∧
    (∀ kcs, detect_key_changes_in_segments corr keyC sr2 = some kcs →
      ∀ k ∈ kcs, 0 ≤ k.confidence ∧ k.confidence ≤ 1) :=
  ⟨label_sections_frame_based_conf bt chroma rms centroid ft,
   label_sections_advanced_conf sqrtq boundary_times fs ft,
   fun cs h => detect_chords_conf sqrtq hs chordC sr cs h,
   fun kcs h => detect_key_changes_conf corr hcorr keyC sr2 kcs h⟩

theorem c2_confidence_bounds_witness :
    (∀ s ∈ label_sections_frame_based [] [] [] [] [],
      0 ≤ s.confidence ∧ s.confidence ≤ 1) ∧
    (∀ s ∈ label_sections_advanced (fun x => x + 1) [] default [],
      0 ≤ s.confidence ∧ s.confidence ≤ 1) ∧
    (∀ cs, detect_chords (fun x => x + 1) [] 22050 = some cs →
      ∀ c ∈ cs, 0 ≤ c.confidence ∧ c.confidence ≤ 1) ∧
    (∀ kcs, detect_key_changes_in_segments (fun _ _ => some 0) [] 22050 = some kcs →
      ∀ k ∈ kcs, 0 ≤ k.confidence ∧ k.confidence ≤ 1) :=
  c2_confidence_bounds (fun x => x + 1) (fun _ _ => some 0) [] [] [] [] [] []
    default [] [] 22050 22050
    (fun x hx => ⟨by show (0:ℚ) ≤ x + 1; linarith,
                  by show x ≤ (x + 1)^2; nlinarith⟩)
    (fun u w q hq => by cases hq; norm_num)

/-! ## C7: chord names and the 0.3 confidence threshold -/

theorem core_case1 (M P Q S d : ℚ) (hM : 0 ≤ M) (hP : 0 ≤ P)
    (hS : S ≤ M^2 + M*P + M*Q) (hc : M*Q ≤ 2*M^2 + M*P + P^2/3)
    (hd : M + P/3 ≤ d) : S ≤ 3*d^2 := by
  have h1 : (M + P/3)^2 ≤ d^2 := pow_le_pow_left₀ (by linarith) hd 2
  have h2 : M^2 + M*P + M*Q ≤ 3*(M + P/3)^2 := by nlinarith [hc]
  linarith [hS, h2, h1]

theorem core_case2 (M P Q S d : ℚ) (hM : 0 ≤ M) (hP : 0 ≤ P)
    (hS : S ≤ M^2 + M*P + M*Q) (hc : 2*M^2 + M*P + P^2/3 < M*Q)
    (hd : Q/2 ≤ d) : S ≤ 3*d^2 := by
  have hMP : 0 ≤ M*P := mul_nonneg hM hP
  have hM0 : 0 < M := by
    by_contra hn
    push_neg at hn
    have hMeq : M = 0 := le_antisymm hn hM
    rw [hMeq] at hc
    nlinarith [sq_nonneg P]
  have hMQ2 : M*(2*M) < M*Q := by nlinarith [hc, hMP, sq_nonneg P]
  have hQ2M : 2*M < Q := (mul_lt_mul_left hM0).1 hMQ2
  have hKK : 0 ≤ (3*Q-2*M)*(Q-2*M) := mul_nonneg (by linarith) (by linarith)
  have h1 : (Q/2)^2 ≤ d^2 := pow_le_pow_left₀ (by linarith) hd 2
  nlinarith [hS, hc, hKK, h1, sq_nonneg P, hMP]

set_option maxHeartbeats 1000000 in
/-- The key optimization fact behind C7, stated for 12 nonnegative values whose
maximum sits at position 0: one of eight specific triad sums `d` (all of them
major/minor-triad index sets) satisfies `Σ bᵢ² ≤ 3 d²`.  The minimum of the
best triad cosine over nonnegative chroma vectors is exactly 1/3, attained at
equal mass on three consecutive bins. -/
theorem opt_core (b0 b1 b2 b3 b4 b5 b6 b7 b8 b9 b10 b11 : ℚ)
    (h0 : 0 ≤ b0) (h1 : 0 ≤ b1) (h2 : 0 ≤ b2) (h3 : 0 ≤ b3) (h4 : 0 ≤ b4)
    (h5 : 0 ≤ b5) (h6 : 0 ≤ b6) (h7 : 0 ≤ b7) (h8 : 0 ≤ b8) (h9 : 0 ≤ b9)
    (h10 : 0 ≤ b10) (h11 : 0 ≤ b11)
    (m1 : b1 ≤ b0) (m2 : b2 ≤ b0) (m3 : b3 ≤ b0) (m4 : b4 ≤ b0) (m5 : b5 ≤ b0)
    (m6 : b6 ≤ b0) (m7 : b7 ≤ b0) (m8 : b8 ≤ b0) (m9 : b9 ≤ b0)
    (m10 : b10 ≤ b0) (m11 : b11 ≤ b0) :
    ∃ d : ℚ,
      (d = b0+b4+b7 ∨ d = b0+b5+b9 ∨ d = b0+b3+b8 ∨ d = b0+b3+b7 ∨
       d = b0+b4+b9 ∨ d = b0+b5+b8 ∨ d = b1+b6+b10 ∨ d = b2+b6+b11) ∧
      b0^2+b1^2+b2^2+b3^2+b4^2+b5^2+b6^2+b7^2+b8^2+b9^2+b10^2+b11^2 ≤ 3 * d^2 := by
  have q1 : b1^2 ≤ b0*b1 := by linarith [mul_le_mul_of_nonneg_right m1 h1]
  have q2 : b2^2 ≤ b0*b2 := by linarith [mul_le_mul_of_nonneg_right m2 h2]
  have q3 : b3^2 ≤ b0*b3 := by linarith [mul_le_mul_of_nonneg_right m3 h3]
  have q4 : b4^2 ≤ b0*b4 := by linarith [mul_le_mul_of_nonneg_right m4 h4]
  have q5 : b5^2 ≤ b0*b5 := by linarith [mul_le_mul_of_nonneg_right m5 h5]
  have q6 : b6^2 ≤ b0*b6 := by linarith [mul_le_mul_of_nonneg_right m6 h6]
  have q7 : b7^2 ≤ b0*b7 := by linarith [mul_le_mul_of_nonneg_right m7 h7]
  have q8 : b8^2 ≤ b0*b8 := by linarith [mul_le_mul_of_nonneg_right m8 h8]
  have q9 : b9^2 ≤ b0*b9 := by linarith [mul_le_mul_of_nonneg_right m9 h9]
  have q10 : b10^2 ≤ b0*b10 := by linarith [mul_le_mul_of_nonneg_right m10 h10]
  have q11 : b11^2 ≤ b0*b11 := by linarith [mul_le_mul_of_nonneg_right m11 h11]
  have hPge : 0 ≤ b3+b4+b5+b7+b8+b9 := by linarith
  have hS : b0^2+b1^2+b2^2+b3^2+b4^2+b5^2+b6^2+b7^2+b8^2+b9^2+b10^2+b11^2 ≤
      b0^2 + b0*(b3+b4+b5+b7+b8+b9) + b0*(b1+b2+b6+b10+b11) := by
    linarith [q1, q2, q3, q4, q5, q6, q7, q8, q9, q10, q11]
  by_cases hc : b0*(b1+b2+b6+b10+b11) ≤
      2*b0^2 + b0*(b3+b4+b5+b7+b8+b9) + (b3+b4+b5+b7+b8+b9)^2/3
  · have h6d : b0 + (b3+b4+b5+b7+b8+b9)/3 ≤ b0+b4+b7 ∨
        b0 + (b3+b4+b5+b7+b8+b9)/3 ≤ b0+b5+b9 ∨
        b0 + (b3+b4+b5+b7+b8+b9)/3 ≤ b0+b3+b8 ∨
        b0 + (b3+b4+b5+b7+b8+b9)/3 ≤ b0+b3+b7 ∨
        b0 + (b3+b4+b5+b7+b8+b9)/3 ≤ b0+b4+b9 ∨
        b0 + (b3+b4+b5+b7+b8+b9)/3 ≤ b0+b5+b8 := by
      by_contra hno
      push_neg at hno
      obtain ⟨n1, n2, n3, n4, n5, n6⟩ := hno
      linarith
    rcases h6d with h | h | h | h | h | h
    · exact ⟨b0+b4+b7, Or.inl rfl, core_case1 b0 _ _ _ _ h0 hPge hS hc h⟩
    · exact ⟨b0+b5+b9, Or.inr (Or.inl rfl), core_case1 b0 _ _ _ _ h0 hPge hS hc h⟩
    · exact ⟨b0+b3+b8, Or.inr (Or.inr (Or.inl rfl)),
        core_case1 b0 _ _ _ _ h0 hPge hS hc h⟩
    · exact ⟨b0+b3+b7, Or.inr (Or.inr (Or.inr (Or.inl rfl))),
        core_case1 b0 _ _ _ _ h0 hPge hS hc h⟩
    · exact ⟨b0+b4+b9, Or.inr (Or.inr (Or.inr (Or.inr (Or.inl rfl)))),
        core_case1 b0 _ _ _ _ h0 hPge hS hc h⟩
    · exact ⟨b0+b5+b8, Or.inr (Or.inr (Or.inr (Or.inr (Or.inr (Or.inl rfl))))),
        core_case1 b0 _ _ _ _ h0 hPge hS hc h⟩
  · push_neg at hc
    have he78 : (b1+b2+b6+b10+b11)/2 ≤ b1+b6+b10 ∨
        (b1+b2+b6+b10+b11)/2 ≤ b2+b6+b11 := by
      by_contra hno
      push_neg at hno
      obtain ⟨n1, n2⟩ := hno
      linarith
    rcases he78 with h | h
    · exact ⟨b1+b6+b10,
        Or.inr (Or.inr (Or.inr (Or.inr (Or.inr (Or.inr (Or.inl rfl)))))),
        core_case2 b0 _ _ _ _ h0 hPge hS hc h⟩
    · exact ⟨b2+b6+b11,
        Or.inr (Or.inr (Or.inr (Or.inr (Or.inr (Or.inr (Or.inr rfl)))))),
        core_case2 b0 _ _ _ _ h0 hPge hS hc h⟩

/-- Every nonnegative 12-bin chroma vector has a major/minor triad template
whose squared inner product captures at least a third of the vector's energy
(equivalently: the best cosine against the 24 templates is at least 1/3). -/
theorem exists_good_template (a : List ℚ) (hlen : a.length = 12)
    (ha : ∀ v ∈ a, 0 ≤ v) :
    ∃ t ∈ chord_templates, sumSq a ≤ 3 * (dot a t.2)^2 := by
  rcases a with _ | ⟨a0, a⟩
  · simp at hlen
  rcases a with _ | ⟨a1, a⟩
  · simp at hlen
  rcases a with _ | ⟨a2, a⟩
  · simp at hlen
  rcases a with _ | ⟨a3, a⟩
  · simp at hlen
  rcases a with _ | ⟨a4, a⟩
  · simp at hlen
  rcases a with _ | ⟨a5, a⟩
  · simp at hlen
  rcases a with _ | ⟨a6, a⟩
  · simp at hlen
  rcases a with _ | ⟨a7, a⟩
  · simp at hlen
  rcases a with _ | ⟨a8, a⟩
  · simp at hlen
  rcases a with _ | ⟨a9, a⟩
  · simp at hlen
  rcases a with _ | ⟨a10, a⟩
  · simp at hlen
  rcases a with _ | ⟨a11, a⟩
  · simp at hlen
  have hnil : a = [] := by
    cases a with
    | nil => rfl
    | cons x xs =>
      simp only [List.length_cons] at hlen
      omega
  subst hnil
  have ha0 : 0 ≤ a0 := ha a0 (by simp)
  have ha1 : 0 ≤ a1 := ha a1 (by simp)
  have ha2 : 0 ≤ a2 := ha a2 (by simp)
  have ha3 : 0 ≤ a3 := ha a3 (by simp)
  have ha4 : 0 ≤ a4 := ha a4 (by simp)
  have ha5 : 0 ≤ a5 := ha a5 (by simp)
  have ha6 : 0 ≤ a6 := ha a6 (by simp)
  have ha7 : 0 ≤ a7 := ha a7 (by simp)
  have ha8 : 0 ≤ a8 := ha a8 (by simp)
  have ha9 : 0 ≤ a9 := ha a9 (by simp)
  have ha10 : 0 ≤ a10 := ha a10 (by simp)
  have ha11 : 0 ≤ a11 := ha a11 (by simp)
  have hss : sumSq [a0,a1,a2,a3,a4,a5,a6,a7,a8,a9,a10,a11] =
      a0^2+a1^2+a2^2+a3^2+a4^2+a5^2+a6^2+a7^2+a8^2+a9^2+a10^2+a11^2 := by
    simp [sumSq]
    ring
  rw [hss]
  rcases hm : ([a0,a1,a2,a3,a4,a5,a6,a7,a8,a9,a10,a11]).max? with _ | m
  · simp [List.max?_cons'] at hm
  have hmem : m ∈ [a0,a1,a2,a3,a4,a5,a6,a7,a8,a9,a10,a11] :=
    List.max?_mem (fun x y => max_choice x y) hm
  have hmax : ∀ x ∈ [a0,a1,a2,a3,a4,a5,a6,a7,a8,a9,a10,a11], x ≤ m :=
    (List.max?_le_iff (fun x y z => max_le_iff) hm).1 (le_refl m)
  simp only [List.mem_cons, List.not_mem_nil, or_false] at hmem
  rcases hmem with h | h | h | h | h | h | h | h | h | h | h | h
  · rw [h] at hmax
    obtain ⟨d, hd, hineq⟩ := opt_core a0 a1 a2 a3 a4 a5 a6 a7 a8 a9 a10 a11
      ha0 ha1 ha2 ha3 ha4 ha5 ha6 ha7 ha8 ha9 ha10 ha11
      (hmax a1 (by simp)) (hmax a2 (by simp)) (hmax a3 (by simp)) (hmax a4 (by simp)) (hmax a5 (by simp)) (hmax a6 (by simp)) (hmax a7 (by simp)) (hmax a8 (by simp)) (hmax a9 (by simp)) (hmax a10 (by simp)) (hmax a11 (by simp))
    have hperm : a0^2+a1^2+a2^2+a3^2+a4^2+a5^2+a6^2+a7^2+a8^2+a9^2+a10^2+a11^2 =
        a0^2+a1^2+a2^2+a3^2+a4^2+a5^2+a6^2+a7^2+a8^2+a9^2+a10^2+a11^2 := by ring
    rcases hd with rfl | rfl | rfl | rfl | rfl | rfl | rfl | rfl
    · refine ⟨("C", [1,0,0,0,1,0,0,1,0,0,0,0]), by decide, ?_⟩
      have hdot : dot [a0,a1,a2,a3,a4,a5,a6,a7,a8,a9,a10,a11] [1,0,0,0,1,0,0,1,0,0,0,0] = a0+a4+a7 := by
        simp only [dot, List.zipWith_cons_cons, List.zipWith_nil_left,
          List.sum_cons, List.sum_nil]
        ring
      rw [hdot, hperm]
      exact hineq
    · refine ⟨("F", [1,0,0,0,0,1,0,0,0,1,0,0]), by decide, ?_⟩
      have hdot : dot [a0,a1,a2,a3,a4,a5,a6,a7,a8,a9,a10,a11] [1,0,0,0,0,1,0,0,0,1,0,0] = a0+a5+a9 := by
        simp only [dot, List.zipWith_cons_cons, List.zipWith_nil_left,
          List.sum_cons, List.sum_nil]
        ring
      rw [hdot, hperm]
      exact hineq
    · refine ⟨("G#", [1,0,0,1,0,0,0,0,1,0,0,0]), by decide, ?_⟩
      have hdot : dot [a0,a1,a2,a3,a4,a5,a6,a7,a8,a9,a10,a11] [1,0,0,1,0,0,0,0,1,0,0,0] = a0+a3+a8 := by
        simp only [dot, List.zipWith_cons_cons, List.zipWith_nil_left,
          List.sum_cons, List.sum_nil]
        ring
      rw [hdot, hperm]
      exact hineq
    · refine ⟨("Cm", [1,0,0,1,0,0,0,1,0,0,0,0]), by decide, ?_⟩
      have hdot : dot [a0,a1,a2,a3,a4,a5,a6,a7,a8,a9,a10,a11] [1,0,0,1,0,0,0,1,0,0,0,0] = a0+a3+a7 := by
        simp only [dot, List.zipWith_cons_cons, List.zipWith_nil_left,
          List.sum_cons, List.sum_nil]
        ring
      rw [hdot, hperm]
      exact hineq
    · refine ⟨("Am", [1,0,0,0,1,0,0,0,0,1,0,0]), by decide, ?_⟩
      have hdot : dot [a0,a1,a2,a3,a4,a5,a6,a7,a8,a9,a10,a11] [1,0,0,0,1,0,0,0,0,1,0,0] = a0+a4+a9 := by
        simp only [dot, List.zipWith_cons_cons, List.zipWith_nil_left,
          List.sum_cons, List.sum_nil]
        ring
      rw [hdot, hperm]
      exact hineq
    · refine ⟨("Fm", [1,0,0,0,0,1,0,0,1,0,0,0]), by decide, ?_⟩
      have hdot : dot [a0,a1,a2,a3,a4,a5,a6,a7,a8,a9,a10,a11] [1,0,0,0,0,1,0,0,1,0,0,0] = a0+a5+a8 := by
        simp only [dot, List.zipWith_cons_cons, List.zipWith_nil_left,
          List.sum_cons, List.sum_nil]
        ring
      rw [hdot, hperm]
      exact hineq
    · refine ⟨("F#", [0,1,0,0,0,0,1,0,0,0,1,0]), by decide, ?_⟩
      have hdot : dot [a0,a1,a2,a3,a4,a5,a6,a7,a8,a9,a10,a11] [0,1,0,0,0,0,1,0,0,0,1,0] = a1+a6+a10 := by
        simp only [dot, List.zipWith_cons_cons, List.zipWith_nil_left,
          List.sum_cons, List.sum_nil]
        ring
      rw [hdot, hperm]
      exact hineq
    · refine ⟨("Bm", [0,0,1,0,0,0,1,0,0,0,0,1]), by decide, ?_⟩
      have hdot : dot [a0,a1,a2,a3,a4,a5,a6,a7,a8,a9,a10,a11] [0,0,1,0,0,0,1,0,0,0,0,1] = a2+a6+a11 := by
        simp only [dot, List.zipWith_cons_cons, List.zipWith_nil_left,
          List.sum_cons, List.sum_nil]
        ring
      rw [hdot, hperm]
      exact hineq
  · rw [h] at hmax
    obtain ⟨d, hd, hineq⟩ := opt_core a1 a2 a3 a4 a5 a6 a7 a8 a9 a10 a11 a0
      ha1 ha2 ha3 ha4 ha5 ha6 ha7 ha8 ha9 ha10 ha11 ha0
      (hmax a2 (by simp)) (hmax a3 (by simp)) (hmax a4 (by simp)) (hmax a5 (by simp)) (hmax a6 (by simp)) (hmax a7 (by simp)) (hmax a8 (by simp)) (hmax a9 (by simp)) (hmax a10 (by simp)) (hmax a11 (by simp)) (hmax a0 (by simp))
    have hperm : a0^2+a1^2+a2^2+a3^2+a4^2+a5^2+a6^2+a7^2+a8^2+a9^2+a10^2+a11^2 =
        a1^2+a2^2+a3^2+a4^2+a5^2+a6^2+a7^2+a8^2+a9^2+a10^2+a11^2+a0^2 := by ring
    rcases hd with rfl | rfl | rfl | rfl | rfl | rfl | rfl | rfl
    · refine ⟨("C#", [0,1,0,0,0,1,0,0,1,0,0,0]), by decide, ?_⟩
      have hdot : dot [a0,a1,a2,a3,a4,a5,a6,a7,a8,a9,a10,a11] [0,1,0,0,0,1,0,0,1,0,0,0] = a1+a5+a8 := by
        simp only [dot, List.zipWith_cons_cons, List.zipWith_nil_left,
          List.sum_cons, List.sum_nil]
        ring
      rw [hdot, hperm]
      exact hineq
    · refine ⟨("F#", [0,1,0,0,0,0,1,0,0,0,1,0]), by decide, ?_⟩
      have hdot : dot [a0,a1,a2,a3,a4,a5,a6,a7,a8,a9,a10,a11] [0,1,0,0,0,0,1,0,0,0,1,0] = a1+a6+a10 := by
        simp only [dot, List.zipWith_cons_cons, List.zipWith_nil_left,
          List.sum_cons, List.sum_nil]
        ring
      rw [hdot, hperm]
      exact hineq
    · refine ⟨("A", [0,1,0,0,1,0,0,0,0,1,0,0]), by decide, ?_⟩
      have hdot : dot [a0,a1,a2,a3,a4,a5,a6,a7,a8,a9,a10,a11] [0,1,0,0,1,0,0,0,0,1,0,0] = a1+a4+a9 := by
        simp only [dot, List.zipWith_cons_cons, List.zipWith_nil_left,
          List.sum_cons, List.sum_nil]
        ring
      rw [hdot, hperm]
      exact hineq
    · refine ⟨("C#m", [0,1,0,0,1,0,0,0,1,0,0,0]), by decide, ?_⟩
      have hdot : dot [a0,a1,a2,a3,a4,a5,a6,a7,a8,a9,a10,a11] [0,1,0,0,1,0,0,0,1,0,0,0] = a1+a4+a8 := by
        simp only [dot, List.zipWith_cons_cons, List.zipWith_nil_left,
          List.sum_cons, List.sum_nil]
        ring
      rw [hdot, hperm]
      exact hineq
    · refine ⟨("A#m", [0,1,0,0,0,1,0,0,0,0,1,0]), by decide, ?_⟩
      have hdot : dot [a0,a1,a2,a3,a4,a5,a6,a7,a8,a9,a10,a11] [0,1,0,0,0,1,0,0,0,0,1,0] = a1+a5+a10 := by
        simp only [dot, List.zipWith_cons_cons, List.zipWith_nil_left,
          List.sum_cons, List.sum_nil]
        ring
      rw [hdot, hperm]
      exact hineq
    · refine ⟨("F#m", [0,1,0,0,0,0,1,0,0,1,0,0]), by decide, ?_⟩
      have hdot : dot [a0,a1,a2,a3,a4,a5,a6,a7,a8,a9,a10,a11] [0,1,0,0,0,0,1,0,0,1,0,0] = a1+a6+a9 := by
        simp only [dot, List.zipWith_cons_cons, List.zipWith_nil_left,
          List.sum_cons, List.sum_nil]
        ring
      rw [hdot, hperm]
      exact hineq
    · refine ⟨("G", [0,0,1,0,0,0,0,1,0,0,0,1]), by decide, ?_⟩
      have hdot : dot [a0,a1,a2,a3,a4,a5,a6,a7,a8,a9,a10,a11] [0,0,1,0,0,0,0,1,0,0,0,1] = a2+a7+a11 := by
        simp only [dot, List.zipWith_cons_cons, List.zipWith_nil_left,
          List.sum_cons, List.sum_nil]
        ring
      rw [hdot, hperm]
      exact hineq
    · refine ⟨("Cm", [1,0,0,1,0,0,0,1,0,0,0,0]), by decide, ?_⟩
      have hdot : dot [a0,a1,a2,a3,a4,a5,a6,a7,a8,a9,a10,a11] [1,0,0,1,0,0,0,1,0,0,0,0] = a3+a7+a0 := by
        simp only [dot, List.zipWith_cons_cons, List.zipWith_nil_left,
          List.sum_cons, List.sum_nil]
        ring
      rw [hdot, hperm]
      exact hineq
  · rw [h] at hmax
    obtain ⟨d, hd, hineq⟩ := opt_core a2 a3 a4 a5 a6 a7 a8 a9 a10 a11 a0 a1
      ha2 ha3 ha4 ha5 ha6 ha7 ha8 ha9 ha10 ha11 ha0 ha1
      (hmax a3 (by simp)) (hmax a4 (by simp)) (hmax a5 (by simp)) (hmax a6 (by simp)) (hmax a7 (by simp)) (hmax a8 (by simp)) (hmax a9 (by simp)) (hmax a10 (by simp)) (hmax a11 (by simp)) (hmax a0 (by simp)) (hmax a1 (by simp))
    have hperm : a0^2+a1^2+a2^2+a3^2+a4^2+a5^2+a6^2+a7^2+a8^2+a9^2+a10^2+a11^2 =
        a2^2+a3^2+a4^2+a5^2+a6^2+a7^2+a8^2+a9^2+a10^2+a11^2+a0^2+a1^2 := by ring
    rcases hd with rfl | rfl | rfl | rfl | rfl | rfl | rfl | rfl
    · refine ⟨("D", [0,0,1,0,0,0,1,0,0,1,0,0]), by decide, ?_⟩
      have hdot : dot [a0,a1,a2,a3,a4,a5,a6,a7,a8,a9,a10,a11] [0,0,1,0,0,0,1,0,0,1,0,0] = a2+a6+a9 := by
        simp only [dot, List.zipWith_cons_cons, List.zipWith_nil_left,
          List.sum_cons, List.sum_nil]
        ring
      rw [hdot, hperm]
      exact hineq
    · refine ⟨("G", [0,0,1,0,0,0,0,1,0,0,0,1]), by decide, ?_⟩
      have hdot : dot [a0,a1,a2,a3,a4,a5,a6,a7,a8,a9,a10,a11] [0,0,1,0,0,0,0,1,0,0,0,1] = a2+a7+a11 := by
        simp only [dot, List.zipWith_cons_cons, List.zipWith_nil_left,
          List.sum_cons, List.sum_nil]
        ring
      rw [hdot, hperm]
      exact hineq
    · refine ⟨("A#", [0,0,1,0,0,1,0,0,0,0,1,0]), by decide, ?_⟩
      have hdot : dot [a0,a1,a2,a3,a4,a5,a6,a7,a8,a9,a10,a11] [0,0,1,0,0,1,0,0,0,0,1,0] = a2+a5+a10 := by
        simp only [dot, List.zipWith_cons_cons, List.zipWith_nil_left,
          List.sum_cons, List.sum_nil]
        ring
      rw [hdot, hperm]
      exact hineq
    · refine ⟨("Dm", [0,0,1,0,0,1,0,0,0,1,0,0]), by decide, ?_⟩
      have hdot : dot [a0,a1,a2,a3,a4,a5,a6,a7,a8,a9,a10,a11] [0,0,1,0,0,1,0,0,0,1,0,0] = a2+a5+a9 := by
        simp only [dot, List.zipWith_cons_cons, List.zipWith_nil_left,
          List.sum_cons, List.sum_nil]
        ring
      rw [hdot, hperm]
      exact hineq
    · refine ⟨("Bm", [0,0,1,0,0,0,1,0,0,0,0,1]), by decide, ?_⟩
      have hdot : dot [a0,a1,a2,a3,a4,a5,a6,a7,a8,a9,a10,a11] [0,0,1,0,0,0,1,0,0,0,0,1] = a2+a6+a11 := by
        simp only [dot, List.zipWith_cons_cons, List.zipWith_nil_left,
          List.sum_cons, List.sum_nil]
        ring
      rw [hdot, hperm]
      exact hineq
    · refine ⟨("Gm", [0,0,1,0,0,0,0,1,0,0,1,0]), by decide, ?_⟩
      have hdot : dot [a0,a1,a2,a3,a4,a5,a6,a7,a8,a9,a10,a11] [0,0,1,0,0,0,0,1,0,0,1,0] = a2+a7+a10 := by
        simp only [dot, List.zipWith_cons_cons, List.zipWith_nil_left,
          List.sum_cons, List.sum_nil]
        ring
      rw [hdot, hperm]
      exact hineq
    · refine ⟨("G#", [1,0,0,1,0,0,0,0,1,0,0,0]), by decide, ?_⟩
      have hdot : dot [a0,a1,a2,a3,a4,a5,a6,a7,a8,a9,a10,a11] [1,0,0,1,0,0,0,0,1,0,0,0] = a3+a8+a0 := by
        simp only [dot, List.zipWith_cons_cons, List.zipWith_nil_left,
          List.sum_cons, List.sum_nil]
        ring
      rw [hdot, hperm]
      exact hineq
    · refine ⟨("C#m", [0,1,0,0,1,0,0,0,1,0,0,0]), by decide, ?_⟩
      have hdot : dot [a0,a1,a2,a3,a4,a5,a6,a7,a8,a9,a10,a11] [0,1,0,0,1,0,0,0,1,0,0,0] = a4+a8+a1 := by
        simp only [dot, List.zipWith_cons_cons, List.zipWith_nil_left,
          List.sum_cons, List.sum_nil]
        ring
      rw [hdot, hperm]
      exact hineq
  · rw [h] at hmax
    obtain ⟨d, hd, hineq⟩ := opt_core a3 a4 a5 a6 a7 a8 a9 a10 a11 a0 a1 a2
      ha3 ha4 ha5 ha6 ha7 ha8 ha9 ha10 ha11 ha0 ha1 ha2
      (hmax a4 (by simp)) (hmax a5 (by simp)) (hmax a6 (by simp)) (hmax a7 (by simp)) (hmax a8 (by simp)) (hmax a9 (by simp)) (hmax a10 (by simp)) (hmax a11 (by simp)) (hmax a0 (by simp)) (hmax a1 (by simp)) (hmax a2 (by simp))
    have hperm : a0^2+a1^2+a2^2+a3^2+a4^2+a5^2+a6^2+a7^2+a8^2+a9^2+a10^2+a11^2 =
        a3^2+a4^2+a5^2+a6^2+a7^2+a8^2+a9^2+a10^2+a11^2+a0^2+a1^2+a2^2 := by ring
    rcases hd with rfl | rfl | rfl | rfl | rfl | rfl | rfl | rfl
    · refine ⟨("D#", [0,0,0,1,0,0,0,1,0,0,1,0]), by decide, ?_⟩
      have hdot : dot [a0,a1,a2,a3,a4,a5,a6,a7,a8,a9,a10,a11] [0,0,0,1,0,0,0,1,0,0,1,0] = a3+a7+a10 := by
        simp only [dot, List.zipWith_cons_cons, List.zipWith_nil_left,
          List.sum_cons, List.sum_nil]
        ring
      rw [hdot, hperm]
      exact hineq
    · refine ⟨("G#", [1,0,0,1,0,0,0,0,1,0,0,0]), by decide, ?_⟩
      have hdot : dot [a0,a1,a2,a3,a4,a5,a6,a7,a8,a9,a10,a11] [1,0,0,1,0,0,0,0,1,0,0,0] = a3+a8+a0 := by
        simp only [dot, List.zipWith_cons_cons, List.zipWith_nil_left,
          List.sum_cons, List.sum_nil]
        ring
      rw [hdot, hperm]
      exact hineq
    · refine ⟨("B", [0,0,0,1,0,0,1,0,0,0,0,1]), by decide, ?_⟩
      have hdot : dot [a0,a1,a2,a3,a4,a5,a6,a7,a8,a9,a10,a11] [0,0,0,1,0,0,1,0,0,0,0,1] = a3+a6+a11 := by
        simp only [dot, List.zipWith_cons_cons, List.zipWith_nil_left,
          List.sum_cons, List.sum_nil]
        ring
      rw [hdot, hperm]
      exact hineq
    · refine ⟨("D#m", [0,0,0,1,0,0,1,0,0,0,1,0]), by decide, ?_⟩
      have hdot : dot [a0,a1,a2,a3,a4,a5,a6,a7,a8,a9,a10,a11] [0,0,0,1,0,0,1,0,0,0,1,0] = a3+a6+a10 := by
        simp only [dot, List.zipWith_cons_cons, List.zipWith_nil_left,
          List.sum_cons, List.sum_nil]
        ring
      rw [hdot, hperm]
      exact hineq
    · refine ⟨("Cm", [1,0,0,1,0,0,0,1,0,0,0,0]), by decide, ?_⟩
      have hdot : dot [a0,a1,a2,a3,a4,a5,a6,a7,a8,a9,a10,a11] [1,0,0,1,0,0,0,1,0,0,0,0] = a3+a7+a0 := by
        simp only [dot, List.zipWith_cons_cons, List.zipWith_nil_left,
          List.sum_cons, List.sum_nil]
        ring
      rw [hdot, hperm]
      exact hineq
    · refine ⟨("G#m", [0,0,0,1,0,0,0,0,1,0,0,1]), by decide, ?_⟩
      have hdot : dot [a0,a1,a2,a3,a4,a5,a6,a7,a8,a9,a10,a11] [0,0,0,1,0,0,0,0,1,0,0,1] = a3+a8+a11 := by
        simp only [dot, List.zipWith_cons_cons, List.zipWith_nil_left,
          List.sum_cons, List.sum_nil]
        ring
      rw [hdot, hperm]
      exact hineq
    · refine ⟨("A", [0,1,0,0,1,0,0,0,0,1,0,0]), by decide, ?_⟩
      have hdot : dot [a0,a1,a2,a3,a4,a5,a6,a7,a8,a9,a10,a11] [0,1,0,0,1,0,0,0,0,1,0,0] = a4+a9+a1 := by
        simp only [dot, List.zipWith_cons_cons, List.zipWith_nil_left,
          List.sum_cons, List.sum_nil]
        ring
      rw [hdot, hperm]
      exact hineq
    · refine ⟨("Dm", [0,0,1,0,0,1,0,0,0,1,0,0]), by decide, ?_⟩
      have hdot : dot [a0,a1,a2,a3,a4,a5,a6,a7,a8,a9,a10,a11] [0,0,1,0,0,1,0,0,0,1,0,0] = a5+a9+a2 := by
        simp only [dot, List.zipWith_cons_cons, List.zipWith_nil_left,
          List.sum_cons, List.sum_nil]
        ring
      rw [hdot, hperm]
      exact hineq
  · rw [h] at hmax
    obtain ⟨d, hd, hineq⟩ := opt_core a4 a5 a6 a7 a8 a9 a10 a11 a0 a1 a2 a3
      ha4 ha5 ha6 ha7 ha8 ha9 ha10 ha11 ha0 ha1 ha2 ha3
      (hmax a5 (by simp)) (hmax a6 (by simp)) (hmax a7 (by simp)) (hmax a8 (by simp)) (hmax a9 (by simp)) (hmax a10 (by simp)) (hmax a11 (by simp)) (hmax a0 (by simp)) (hmax a1 (by simp)) (hmax a2 (by simp)) (hmax a3 (by simp))
    have hperm : a0^2+a1^2+a2^2+a3^2+a4^2+a5^2+a6^2+a7^2+a8^2+a9^2+a10^2+a11^2 =
        a4^2+a5^2+a6^2+a7^2+a8^2+a9^2+a10^2+a11^2+a0^2+a1^2+a2^2+a3^2 := by ring
    rcases hd with rfl | rfl | rfl | rfl | rfl | rfl | rfl | rfl
    · refine ⟨("E", [0,0,0,0,1,0,0,0,1,0,0,1]), by decide, ?_⟩
      have hdot : dot [a0,a1,a2,a3,a4,a5,a6,a7,a8,a9,a10,a11] [0,0,0,0,1,0,0,0,1,0,0,1] = a4+a8+a11 := by
        simp only [dot, List.zipWith_cons_cons, List.zipWith_nil_left,
          List.sum_cons, List.sum_nil]
        ring
      rw [hdot, hperm]
      exact hineq
    · refine ⟨("A", [0,1,0,0,1,0,0,0,0,1,0,0]), by decide, ?_⟩
      have hdot : dot [a0,a1,a2,a3,a4,a5,a6,a7,a8,a9,a10,a11] [0,1,0,0,1,0,0,0,0,1,0,0] = a4+a9+a1 := by
        simp only [dot, List.zipWith_cons_cons, List.zipWith_nil_left,
          List.sum_cons, List.sum_nil]
        ring
      rw [hdot, hperm]
      exact hineq
    · refine ⟨("C", [1,0,0,0,1,0,0,1,0,0,0,0]), by decide, ?_⟩
      have hdot : dot [a0,a1,a2,a3,a4,a5,a6,a7,a8,a9,a10,a11] [1,0,0,0,1,0,0,1,0,0,0,0] = a4+a7+a0 := by
        simp only [dot, List.zipWith_cons_cons, List.zipWith_nil_left,
          List.sum_cons, List.sum_nil]
        ring
      rw [hdot, hperm]
      exact hineq
    · refine ⟨("Em", [0,0,0,0,1,0,0,1,0,0,0,1]), by decide, ?_⟩
      have hdot : dot [a0,a1,a2,a3,a4,a5,a6,a7,a8,a9,a10,a11] [0,0,0,0,1,0,0,1,0,0,0,1] = a4+a7+a11 := by
        simp only [dot, List.zipWith_cons_cons, List.zipWith_nil_left,
          List.sum_cons, List.sum_nil]
        ring
      rw [hdot, hperm]
      exact hineq
    · refine ⟨("C#m", [0,1,0,0,1,0,0,0,1,0,0,0]), by decide, ?_⟩
      have hdot : dot [a0,a1,a2,a3,a4,a5,a6,a7,a8,a9,a10,a11] [0,1,0,0,1,0,0,0,1,0,0,0] = a4+a8+a1 := by
        simp only [dot, List.zipWith_cons_cons, List.zipWith_nil_left,
          List.sum_cons, List.sum_nil]
        ring
      rw [hdot, hperm]
      exact hineq
    · refine ⟨("Am", [1,0,0,0,1,0,0,0,0,1,0,0]), by decide, ?_⟩
      have hdot : dot [a0,a1,a2,a3,a4,a5,a6,a7,a8,a9,a10,a11] [1,0,0,0,1,0,0,0,0,1,0,0] = a4+a9+a0 := by
        simp only [dot, List.zipWith_cons_cons, List.zipWith_nil_left,
          List.sum_cons, List.sum_nil]
        ring
      rw [hdot, hperm]
      exact hineq
    · refine ⟨("A#", [0,0,1,0,0,1,0,0,0,0,1,0]), by decide, ?_⟩
      have hdot : dot [a0,a1,a2,a3,a4,a5,a6,a7,a8,a9,a10,a11] [0,0,1,0,0,1,0,0,0,0,1,0] = a5+a10+a2 := by
        simp only [dot, List.zipWith_cons_cons, List.zipWith_nil_left,
          List.sum_cons, List.sum_nil]
        ring
      rw [hdot, hperm]
      exact hineq
    · refine ⟨("D#m", [0,0,0,1,0,0,1,0,0,0,1,0]), by decide, ?_⟩
      have hdot : dot [a0,a1,a2,a3,a4,a5,a6,a7,a8,a9,a10,a11] [0,0,0,1,0,0,1,0,0,0,1,0] = a6+a10+a3 := by
        simp only [dot, List.zipWith_cons_cons, List.zipWith_nil_left,
          List.sum_cons, List.sum_nil]
        ring
      rw [hdot, hperm]
      exact hineq
  · rw [h] at hmax
    obtain ⟨d, hd, hineq⟩ := opt_core a5 a6 a7 a8 a9 a10 a11 a0 a1 a2 a3 a4
      ha5 ha6 ha7 ha8 ha9 ha10 ha11 ha0 ha1 ha2 ha3 ha4
      (hmax a6 (by simp)) (hmax a7 (by simp)) (hmax a8 (by simp)) (hmax a9 (by simp)) (hmax a10 (by simp)) (hmax a11 (by simp)) (hmax a0 (by simp)) (hmax a1 (by simp)) (hmax a2 (by simp)) (hmax a3 (by simp)) (hmax a4 (by simp))
    have hperm : a0^2+a1^2+a2^2+a3^2+a4^2+a5^2+a6^2+a7^2+a8^2+a9^2+a10^2+a11^2 =
        a5^2+a6^2+a7^2+a8^2+a9^2+a10^2+a11^2+a0^2+a1^2+a2^2+a3^2+a4^2 := by ring
    rcases hd with rfl | rfl | rfl | rfl | rfl | rfl | rfl | rfl
    · refine ⟨("F", [1,0,0,0,0,1,0,0,0,1,0,0]), by decide, ?_⟩
      have hdot : dot [a0,a1,a2,a3,a4,a5,a6,a7,a8,a9,a10,a11] [1,0,0,0,0,1,0,0,0,1,0,0] = a5+a9+a0 := by
        simp only [dot, List.zipWith_cons_cons, List.zipWith_nil_left,
          List.sum_cons, List.sum_nil]
        ring
      rw [hdot, hperm]
      exact hineq
    · refine ⟨("A#", [0,0,1,0,0,1,0,0,0,0,1,0]), by decide, ?_⟩
      have hdot : dot [a0,a1,a2,a3,a4,a5,a6,a7,a8,a9,a10,a11] [0,0,1,0,0,1,0,0,0,0,1,0] = a5+a10+a2 := by
        simp only [dot, List.zipWith_cons_cons, List.zipWith_nil_left,
          List.sum_cons, List.sum_nil]
        ring
      rw [hdot, hperm]
      exact hineq
    · refine ⟨("C#", [0,1,0,0,0,1,0,0,1,0,0,0]), by decide, ?_⟩
      have hdot : dot [a0,a1,a2,a3,a4,a5,a6,a7,a8,a9,a10,a11] [0,1,0,0,0,1,0,0,1,0,0,0] = a5+a8+a1 := by
        simp only [dot, List.zipWith_cons_cons, List.zipWith_nil_left,
          List.sum_cons, List.sum_nil]
        ring
      rw [hdot, hperm]
      exact hineq
    · refine ⟨("Fm", [1,0,0,0,0,1,0,0,1,0,0,0]), by decide, ?_⟩
      have hdot : dot [a0,a1,a2,a3,a4,a5,a6,a7,a8,a9,a10,a11] [1,0,0,0,0,1,0,0,1,0,0,0] = a5+a8+a0 := by
        simp only [dot, List.zipWith_cons_cons, List.zipWith_nil_left,
          List.sum_cons, List.sum_nil]
        ring
      rw [hdot, hperm]
      exact hineq
    · refine ⟨("Dm", [0,0,1,0,0,1,0,0,0,1,0,0]), by decide, ?_⟩
      have hdot : dot [a0,a1,a2,a3,a4,a5,a6,a7,a8,a9,a10,a11] [0,0,1,0,0,1,0,0,0,1,0,0] = a5+a9+a2 := by
        simp only [dot, List.zipWith_cons_cons, List.zipWith_nil_left,
          List.sum_cons, List.sum_nil]
        ring
      rw [hdot, hperm]
      exact hineq
    · refine ⟨("A#m", [0,1,0,0,0,1,0,0,0,0,1,0]), by decide, ?_⟩
      have hdot : dot [a0,a1,a2,a3,a4,a5,a6,a7,a8,a9,a10,a11] [0,1,0,0,0,1,0,0,0,0,1,0] = a5+a10+a1 := by
        simp only [dot, List.zipWith_cons_cons, List.zipWith_nil_left,
          List.sum_cons, List.sum_nil]
        ring
      rw [hdot, hperm]
      exact hineq
    · refine ⟨("B", [0,0,0,1,0,0,1,0,0,0,0,1]), by decide, ?_⟩
      have hdot : dot [a0,a1,a2,a3,a4,a5,a6,a7,a8,a9,a10,a11] [0,0,0,1,0,0,1,0,0,0,0,1] = a6+a11+a3 := by
        simp only [dot, List.zipWith_cons_cons, List.zipWith_nil_left,
          List.sum_cons, List.sum_nil]
        ring
      rw [hdot, hperm]
      exact hineq
    · refine ⟨("Em", [0,0,0,0,1,0,0,1,0,0,0,1]), by decide, ?_⟩
      have hdot : dot [a0,a1,a2,a3,a4,a5,a6,a7,a8,a9,a10,a11] [0,0,0,0,1,0,0,1,0,0,0,1] = a7+a11+a4 := by
        simp only [dot, List.zipWith_cons_cons, List.zipWith_nil_left,
          List.sum_cons, List.sum_nil]
        ring
      rw [hdot, hperm]
      exact hineq
  · rw [h] at hmax
    obtain ⟨d, hd, hineq⟩ := opt_core a6 a7 a8 a9 a10 a11 a0 a1 a2 a3 a4 a5
      ha6 ha7 ha8 ha9 ha10 ha11 ha0 ha1 ha2 ha3 ha4 ha5
      (hmax a7 (by simp)) (hmax a8 (by simp)) (hmax a9 (by simp)) (hmax a10 (by simp)) (hmax a11 (by simp)) (hmax a0 (by simp)) (hmax a1 (by simp)) (hmax a2 (by simp)) (hmax a3 (by simp)) (hmax a4 (by simp)) (hmax a5 (by simp))
    have hperm : a0^2+a1^2+a2^2+a3^2+a4^2+a5^2+a6^2+a7^2+a8^2+a9^2+a10^2+a11^2 =
        a6^2+a7^2+a8^2+a9^2+a10^2+a11^2+a0^2+a1^2+a2^2+a3^2+a4^2+a5^2 := by ring
    rcases hd with rfl | rfl | rfl | rfl | rfl | rfl | rfl | rfl
    · refine ⟨("F#", [0,1,0,0,0,0,1,0,0,0,1,0]), by decide, ?_⟩
      have hdot : dot [a0,a1,a2,a3,a4,a5,a6,a7,a8,a9,a10,a11] [0,1,0,0,0,0,1,0,0,0,1,0] = a6+a10+a1 := by
        simp only [dot, List.zipWith_cons_cons, List.zipWith_nil_left,
          List.sum_cons, List.sum_nil]
        ring
      rw [hdot, hperm]
      exact hineq
    · refine ⟨("B", [0,0,0,1,0,0,1,0,0,0,0,1]), by decide, ?_⟩
      have hdot : dot [a0,a1,a2,a3,a4,a5,a6,a7,a8,a9,a10,a11] [0,0,0,1,0,0,1,0,0,0,0,1] = a6+a11+a3 := by
        simp only [dot, List.zipWith_cons_cons, List.zipWith_nil_left,
          List.sum_cons, List.sum_nil]
        ring
      rw [hdot, hperm]
      exact hineq
    · refine ⟨("D", [0,0,1,0,0,0,1,0,0,1,0,0]), by decide, ?_⟩
      have hdot : dot [a0,a1,a2,a3,a4,a5,a6,a7,a8,a9,a10,a11] [0,0,1,0,0,0,1,0,0,1,0,0] = a6+a9+a2 := by
        simp only [dot, List.zipWith_cons_cons, List.zipWith_nil_left,
          List.sum_cons, List.sum_nil]
        ring
      rw [hdot, hperm]
      exact hineq
    · refine ⟨("F#m", [0,1,0,0,0,0,1,0,0,1,0,0]), by decide, ?_⟩
      have hdot : dot [a0,a1,a2,a3,a4,a5,a6,a7,a8,a9,a10,a11] [0,1,0,0,0,0,1,0,0,1,0,0] = a6+a9+a1 := by
        simp only [dot, List.zipWith_cons_cons, List.zipWith_nil_left,
          List.sum_cons, List.sum_nil]
        ring
      rw [hdot, hperm]
      exact hineq
    · refine ⟨("D#m", [0,0,0,1,0,0,1,0,0,0,1,0]), by decide, ?_⟩
      have hdot : dot [a0,a1,a2,a3,a4,a5,a6,a7,a8,a9,a10,a11] [0,0,0,1,0,0,1,0,0,0,1,0] = a6+a10+a3 := by
        simp only [dot, List.zipWith_cons_cons, List.zipWith_nil_left,
          List.sum_cons, List.sum_nil]
        ring
      rw [hdot, hperm]
      exact hineq
    · refine ⟨("Bm", [0,0,1,0,0,0,1,0,0,0,0,1]), by decide, ?_⟩
      have hdot : dot [a0,a1,a2,a3,a4,a5,a6,a7,a8,a9,a10,a11] [0,0,1,0,0,0,1,0,0,0,0,1] = a6+a11+a2 := by
        simp only [dot, List.zipWith_cons_cons, List.zipWith_nil_left,
          List.sum_cons, List.sum_nil]
        ring
      rw [hdot, hperm]
      exact hineq
    · refine ⟨("C", [1,0,0,0,1,0,0,1,0,0,0,0]), by decide, ?_⟩
      have hdot : dot [a0,a1,a2,a3,a4,a5,a6,a7,a8,a9,a10,a11] [1,0,0,0,1,0,0,1,0,0,0,0] = a7+a0+a4 := by
        simp only [dot, List.zipWith_cons_cons, List.zipWith_nil_left,
          List.sum_cons, List.sum_nil]
        ring
      rw [hdot, hperm]
      exact hineq
    · refine ⟨("Fm", [1,0,0,0,0,1,0,0,1,0,0,0]), by decide, ?_⟩
      have hdot : dot [a0,a1,a2,a3,a4,a5,a6,a7,a8,a9,a10,a11] [1,0,0,0,0,1,0,0,1,0,0,0] = a8+a0+a5 := by
        simp only [dot, List.zipWith_cons_cons, List.zipWith_nil_left,
          List.sum_cons, List.sum_nil]
        ring
      rw [hdot, hperm]
      exact hineq
  · rw [h] at hmax
    obtain ⟨d, hd, hineq⟩ := opt_core a7 a8 a9 a10 a11 a0 a1 a2 a3 a4 a5 a6
      ha7 ha8 ha9 ha10 ha11 ha0 ha1 ha2 ha3 ha4 ha5 ha6
      (hmax a8 (by simp)) (hmax a9 (by simp)) (hmax a10 (by simp)) (hmax a11 (by simp)) (hmax a0 (by simp)) (hmax a1 (by simp)) (hmax a2 (by simp)) (hmax a3 (by simp)) (hmax a4 (by simp)) (hmax a5 (by simp)) (hmax a6 (by simp))
    have hperm : a0^2+a1^2+a2^2+a3^2+a4^2+a5^2+a6^2+a7^2+a8^2+a9^2+a10^2+a11^2 =
        a7^2+a8^2+a9^2+a10^2+a11^2+a0^2+a1^2+a2^2+a3^2+a4^2+a5^2+a6^2 := by ring
    rcases hd with rfl | rfl | rfl | rfl | rfl | rfl | rfl | rfl
    · refine ⟨("G", [0,0,1,0,0,0,0,1,0,0,0,1]), by decide, ?_⟩
      have hdot : dot [a0,a1,a2,a3,a4,a5,a6,a7,a8,a9,a10,a11] [0,0,1,0,0,0,0,1,0,0,0,1] = a7+a11+a2 := by
        simp only [dot, List.zipWith_cons_cons, List.zipWith_nil_left,
          List.sum_cons, List.sum_nil]
        ring
      rw [hdot, hperm]
      exact hineq
    · refine ⟨("C", [1,0,0,0,1,0,0,1,0,0,0,0]), by decide, ?_⟩
      have hdot : dot [a0,a1,a2,a3,a4,a5,a6,a7,a8,a9,a10,a11] [1,0,0,0,1,0,0,1,0,0,0,0] = a7+a0+a4 := by
        simp only [dot, List.zipWith_cons_cons, List.zipWith_nil_left,
          List.sum_cons, List.sum_nil]
        ring
      rw [hdot, hperm]
      exact hineq
    · refine ⟨("D#", [0,0,0,1,0,0,0,1,0,0,1,0]), by decide, ?_⟩
      have hdot : dot [a0,a1,a2,a3,a4,a5,a6,a7,a8,a9,a10,a11] [0,0,0,1,0,0,0,1,0,0,1,0] = a7+a10+a3 := by
        simp only [dot, List.zipWith_cons_cons, List.zipWith_nil_left,
          List.sum_cons, List.sum_nil]
        ring
      rw [hdot, hperm]
      exact hineq
    · refine ⟨("Gm", [0,0,1,0,0,0,0,1,0,0,1,0]), by decide, ?_⟩
      have hdot : dot [a0,a1,a2,a3,a4,a5,a6,a7,a8,a9,a10,a11] [0,0,1,0,0,0,0,1,0,0,1,0] = a7+a10+a2 := by
        simp only [dot, List.zipWith_cons_cons, List.zipWith_nil_left,
          List.sum_cons, List.sum_nil]
        ring
      rw [hdot, hperm]
      exact hineq
    · refine ⟨("Em", [0,0,0,0,1,0,0,1,0,0,0,1]), by decide, ?_⟩
      have hdot : dot [a0,a1,a2,a3,a4,a5,a6,a7,a8,a9,a10,a11] [0,0,0,0,1,0,0,1,0,0,0,1] = a7+a11+a4 := by
        simp only [dot, List.zipWith_cons_cons, List.zipWith_nil_left,
          List.sum_cons, List.sum_nil]
        ring
      rw [hdot, hperm]
      exact hineq
    · refine ⟨("Cm", [1,0,0,1,0,0,0,1,0,0,0,0]), by decide, ?_⟩
      have hdot : dot [a0,a1,a2,a3,a4,a5,a6,a7,a8,a9,a10,a11] [1,0,0,1,0,0,0,1,0,0,0,0] = a7+a0+a3 := by
        simp only [dot, List.zipWith_cons_cons, List.zipWith_nil_left,
          List.sum_cons, List.sum_nil]
        ring
      rw [hdot, hperm]
      exact hineq
    · refine ⟨("C#", [0,1,0,0,0,1,0,0,1,0,0,0]), by decide, ?_⟩
      have hdot : dot [a0,a1,a2,a3,a4,a5,a6,a7,a8,a9,a10,a11] [0,1,0,0,0,1,0,0,1,0,0,0] = a8+a1+a5 := by
        simp only [dot, List.zipWith_cons_cons, List.zipWith_nil_left,
          List.sum_cons, List.sum_nil]
        ring
      rw [hdot, hperm]
      exact hineq
    · refine ⟨("F#m", [0,1,0,0,0,0,1,0,0,1,0,0]), by decide, ?_⟩
      have hdot : dot [a0,a1,a2,a3,a4,a5,a6,a7,a8,a9,a10,a11] [0,1,0,0,0,0,1,0,0,1,0,0] = a9+a1+a6 := by
        simp only [dot, List.zipWith_cons_cons, List.zipWith_nil_left,
          List.sum_cons, List.sum_nil]
        ring
      rw [hdot, hperm]
      exact hineq
  · rw [h] at hmax
    obtain ⟨d, hd, hineq⟩ := opt_core a8 a9 a10 a11 a0 a1 a2 a3 a4 a5 a6 a7
      ha8 ha9 ha10 ha11 ha0 ha1 ha2 ha3 ha4 ha5 ha6 ha7
      (hmax a9 (by simp)) (hmax a10 (by simp)) (hmax a11 (by simp)) (hmax a0 (by simp)) (hmax a1 (by simp)) (hmax a2 (by simp)) (hmax a3 (by simp)) (hmax a4 (by simp)) (hmax a5 (by simp)) (hmax a6 (by simp)) (hmax a7 (by simp))
    have hperm : a0^2+a1^2+a2^2+a3^2+a4^2+a5^2+a6^2+a7^2+a8^2+a9^2+a10^2+a11^2 =
        a8^2+a9^2+a10^2+a11^2+a0^2+a1^2+a2^2+a3^2+a4^2+a5^2+a6^2+a7^2 := by ring
    rcases hd with rfl | rfl | rfl | rfl | rfl | rfl | rfl | rfl
    · refine ⟨("G#", [1,0,0,1,0,0,0,0,1,0,0,0]), by decide, ?_⟩
      have hdot : dot [a0,a1,a2,a3,a4,a5,a6,a7,a8,a9,a10,a11] [1,0,0,1,0,0,0,0,1,0,0,0] = a8+a0+a3 := by
        simp only [dot, List.zipWith_cons_cons, List.zipWith_nil_left,
          List.sum_cons, List.sum_nil]
        ring
      rw [hdot, hperm]
      exact hineq
    · refine ⟨("C#", [0,1,0,0,0,1,0,0,1,0,0,0]), by decide, ?_⟩
      have hdot : dot [a0,a1,a2,a3,a4,a5,a6,a7,a8,a9,a10,a11] [0,1,0,0,0,1,0,0,1,0,0,0] = a8+a1+a5 := by
        simp only [dot, List.zipWith_cons_cons, List.zipWith_nil_left,
          List.sum_cons, List.sum_nil]
        ring
      rw [hdot, hperm]
      exact hineq
    · refine ⟨("E", [0,0,0,0,1,0,0,0,1,0,0,1]), by decide, ?_⟩
      have hdot : dot [a0,a1,a2,a3,a4,a5,a6,a7,a8,a9,a10,a11] [0,0,0,0,1,0,0,0,1,0,0,1] = a8+a11+a4 := by
        simp only [dot, List.zipWith_cons_cons, List.zipWith_nil_left,
          List.sum_cons, List.sum_nil]
        ring
      rw [hdot, hperm]
      exact hineq
    · refine ⟨("G#m", [0,0,0,1,0,0,0,0,1,0,0,1]), by decide, ?_⟩
      have hdot : dot [a0,a1,a2,a3,a4,a5,a6,a7,a8,a9,a10,a11] [0,0,0,1,0,0,0,0,1,0,0,1] = a8+a11+a3 := by
        simp only [dot, List.zipWith_cons_cons, List.zipWith_nil_left,
          List.sum_cons, List.sum_nil]
        ring
      rw [hdot, hperm]
      exact hineq
    · refine ⟨("Fm", [1,0,0,0,0,1,0,0,1,0,0,0]), by decide, ?_⟩
      have hdot : dot [a0,a1,a2,a3,a4,a5,a6,a7,a8,a9,a10,a11] [1,0,0,0,0,1,0,0,1,0,0,0] = a8+a0+a5 := by
        simp only [dot, List.zipWith_cons_cons, List.zipWith_nil_left,
          List.sum_cons, List.sum_nil]
        ring
      rw [hdot, hperm]
      exact hineq
    · refine ⟨("C#m", [0,1,0,0,1,0,0,0,1,0,0,0]), by decide, ?_⟩
      have hdot : dot [a0,a1,a2,a3,a4,a5,a6,a7,a8,a9,a10,a11] [0,1,0,0,1,0,0,0,1,0,0,0] = a8+a1+a4 := by
        simp only [dot, List.zipWith_cons_cons, List.zipWith_nil_left,
          List.sum_cons, List.sum_nil]
        ring
      rw [hdot, hperm]
      exact hineq
    · refine ⟨("D", [0,0,1,0,0,0,1,0,0,1,0,0]), by decide, ?_⟩
      have hdot : dot [a0,a1,a2,a3,a4,a5,a6,a7,a8,a9,a10,a11] [0,0,1,0,0,0,1,0,0,1,0,0] = a9+a2+a6 := by
        simp only [dot, List.zipWith_cons_cons, List.zipWith_nil_left,
          List.sum_cons, List.sum_nil]
        ring
      rw [hdot, hperm]
      exact hineq
    · refine ⟨("Gm", [0,0,1,0,0,0,0,1,0,0,1,0]), by decide, ?_⟩
      have hdot : dot [a0,a1,a2,a3,a4,a5,a6,a7,a8,a9,a10,a11] [0,0,1,0,0,0,0,1,0,0,1,0] = a10+a2+a7 := by
        simp only [dot, List.zipWith_cons_cons, List.zipWith_nil_left,
          List.sum_cons, List.sum_nil]
        ring
      rw [hdot, hperm]
      exact hineq
  · rw [h] at hmax
    obtain ⟨d, hd, hineq⟩ := opt_core a9 a10 a11 a0 a1 a2 a3 a4 a5 a6 a7 a8
      ha9 ha10 ha11 ha0 ha1 ha2 ha3 ha4 ha5 ha6 ha7 ha8
      (hmax a10 (by simp)) (hmax a11 (by simp)) (hmax a0 (by simp)) (hmax a1 (by simp)) (hmax a2 (by simp)) (hmax a3 (by simp)) (hmax a4 (by simp)) (hmax a5 (by simp)) (hmax a6 (by simp)) (hmax a7 (by simp)) (hmax a8 (by simp))
    have hperm : a0^2+a1^2+a2^2+a3^2+a4^2+a5^2+a6^2+a7^2+a8^2+a9^2+a10^2+a11^2 =
        a9^2+a10^2+a11^2+a0^2+a1^2+a2^2+a3^2+a4^2+a5^2+a6^2+a7^2+a8^2 := by ring
    rcases hd with rfl | rfl | rfl | rfl | rfl | rfl | rfl | rfl
    · refine ⟨("A", [0,1,0,0,1,0,0,0,0,1,0,0]), by decide, ?_⟩
      have hdot : dot [a0,a1,a2,a3,a4,a5,a6,a7,a8,a9,a10,a11] [0,1,0,0,1,0,0,0,0,1,0,0] = a9+a1+a4 := by
        simp only [dot, List.zipWith_cons_cons, List.zipWith_nil_left,
          List.sum_cons, List.sum_nil]
        ring
      rw [hdot, hperm]
      exact hineq
    · refine ⟨("D", [0,0,1,0,0,0,1,0,0,1,0,0]), by decide, ?_⟩
      have hdot : dot [a0,a1,a2,a3,a4,a5,a6,a7,a8,a9,a10,a11] [0,0,1,0,0,0,1,0,0,1,0,0] = a9+a2+a6 := by
        simp only [dot, List.zipWith_cons_cons, List.zipWith_nil_left,
          List.sum_cons, List.sum_nil]
        ring
      rw [hdot, hperm]
      exact hineq
    · refine ⟨("F", [1,0,0,0,0,1,0,0,0,1,0,0]), by decide, ?_⟩
      have hdot : dot [a0,a1,a2,a3,a4,a5,a6,a7,a8,a9,a10,a11] [1,0,0,0,0,1,0,0,0,1,0,0] = a9+a0+a5 := by
        simp only [dot, List.zipWith_cons_cons, List.zipWith_nil_left,
          List.sum_cons, List.sum_nil]
        ring
      rw [hdot, hperm]
      exact hineq
    · refine ⟨("Am", [1,0,0,0,1,0,0,0,0,1,0,0]), by decide, ?_⟩
      have hdot : dot [a0,a1,a2,a3,a4,a5,a6,a7,a8,a9,a10,a11] [1,0,0,0,1,0,0,0,0,1,0,0] = a9+a0+a4 := by
        simp only [dot, List.zipWith_cons_cons, List.zipWith_nil_left,
          List.sum_cons, List.sum_nil]
        ring
      rw [hdot, hperm]
      exact hineq
    · refine ⟨("F#m", [0,1,0,0,0,0,1,0,0,1,0,0]), by decide, ?_⟩
      have hdot : dot [a0,a1,a2,a3,a4,a5,a6,a7,a8,a9,a10,a11] [0,1,0,0,0,0,1,0,0,1,0,0] = a9+a1+a6 := by
        simp only [dot, List.zipWith_cons_cons, List.zipWith_nil_left,
          List.sum_cons, List.sum_nil]
        ring
      rw [hdot, hperm]
      exact hineq
    · refine ⟨("Dm", [0,0,1,0,0,1,0,0,0,1,0,0]), by decide, ?_⟩
      have hdot : dot [a0,a1,a2,a3,a4,a5,a6,a7,a8,a9,a10,a11] [0,0,1,0,0,1,0,0,0,1,0,0] = a9+a2+a5 := by
        simp only [dot, List.zipWith_cons_cons, List.zipWith_nil_left,
          List.sum_cons, List.sum_nil]
        ring
      rw [hdot, hperm]
      exact hineq
    · refine ⟨("D#", [0,0,0,1,0,0,0,1,0,0,1,0]), by decide, ?_⟩
      have hdot : dot [a0,a1,a2,a3,a4,a5,a6,a7,a8,a9,a10,a11] [0,0,0,1,0,0,0,1,0,0,1,0] = a10+a3+a7 := by
        simp only [dot, List.zipWith_cons_cons, List.zipWith_nil_left,
          List.sum_cons, List.sum_nil]
        ring
      rw [hdot, hperm]
      exact hineq
    · refine ⟨("G#m", [0,0,0,1,0,0,0,0,1,0,0,1]), by decide, ?_⟩
      have hdot : dot [a0,a1,a2,a3,a4,a5,a6,a7,a8,a9,a10,a11] [0,0,0,1,0,0,0,0,1,0,0,1] = a11+a3+a8 := by
        simp only [dot, List.zipWith_cons_cons, List.zipWith_nil_left,
          List.sum_cons, List.sum_nil]
        ring
      rw [hdot, hperm]
      exact hineq
  · rw [h] at hmax
    obtain ⟨d, hd, hineq⟩ := opt_core a10 a11 a0 a1 a2 a3 a4 a5 a6 a7 a8 a9
      ha10 ha11 ha0 ha1 ha2 ha3 ha4 ha5 ha6 ha7 ha8 ha9
      (hmax a11 (by simp)) (hmax a0 (by simp)) (hmax a1 (by simp)) (hmax a2 (by simp)) (hmax a3 (by simp)) (hmax a4 (by simp)) (hmax a5 (by simp)) (hmax a6 (by simp)) (hmax a7 (by simp)) (hmax a8 (by simp)) (hmax a9 (by simp))
    have hperm : a0^2+a1^2+a2^2+a3^2+a4^2+a5^2+a6^2+a7^2+a8^2+a9^2+a10^2+a11^2 =
        a10^2+a11^2+a0^2+a1^2+a2^2+a3^2+a4^2+a5^2+a6^2+a7^2+a8^2+a9^2 := by ring
    rcases hd with rfl | rfl | rfl | rfl | rfl | rfl | rfl | rfl
    · refine ⟨("A#", [0,0,1,0,0,1,0,0,0,0,1,0]), by decide, ?_⟩
      have hdot : dot [a0,a1,a2,a3,a4,a5,a6,a7,a8,a9,a10,a11] [0,0,1,0,0,1,0,0,0,0,1,0] = a10+a2+a5 := by
        simp only [dot, List.zipWith_cons_cons, List.zipWith_nil_left,
          List.sum_cons, List.sum_nil]
        ring
      rw [hdot, hperm]
      exact hineq
    · refine ⟨("D#", [0,0,0,1,0,0,0,1,0,0,1,0]), by decide, ?_⟩
      have hdot : dot [a0,a1,a2,a3,a4,a5,a6,a7,a8,a9,a10,a11] [0,0,0,1,0,0,0,1,0,0,1,0] = a10+a3+a7 := by
        simp only [dot, List.zipWith_cons_cons, List.zipWith_nil_left,
          List.sum_cons, List.sum_nil]
        ring
      rw [hdot, hperm]
      exact hineq
    · refine ⟨("F#", [0,1,0,0,0,0,1,0,0,0,1,0]), by decide, ?_⟩
      have hdot : dot [a0,a1,a2,a3,a4,a5,a6,a7,a8,a9,a10,a11] [0,1,0,0,0,0,1,0,0,0,1,0] = a10+a1+a6 := by
        simp only [dot, List.zipWith_cons_cons, List.zipWith_nil_left,
          List.sum_cons, List.sum_nil]
        ring
      rw [hdot, hperm]
      exact hineq
    · refine ⟨("A#m", [0,1,0,0,0,1,0,0,0,0,1,0]), by decide, ?_⟩
      have hdot : dot [a0,a1,a2,a3,a4,a5,a6,a7,a8,a9,a10,a11] [0,1,0,0,0,1,0,0,0,0,1,0] = a10+a1+a5 := by
        simp only [dot, List.zipWith_cons_cons, List.zipWith_nil_left,
          List.sum_cons, List.sum_nil]
        ring
      rw [hdot, hperm]
      exact hineq
    · refine ⟨("Gm", [0,0,1,0,0,0,0,1,0,0,1,0]), by decide, ?_⟩
      have hdot : dot [a0,a1,a2,a3,a4,a5,a6,a7,a8,a9,a10,a11] [0,0,1,0,0,0,0,1,0,0,1,0] = a10+a2+a7 := by
        simp only [dot, List.zipWith_cons_cons, List.zipWith_nil_left,
          List.sum_cons, List.sum_nil]
        ring
      rw [hdot, hperm]
      exact hineq
    · refine ⟨("D#m", [0,0,0,1,0,0,1,0,0,0,1,0]), by decide, ?_⟩
      have hdot : dot [a0,a1,a2,a3,a4,a5,a6,a7,a8,a9,a10,a11] [0,0,0,1,0,0,1,0,0,0,1,0] = a10+a3+a6 := by
        simp only [dot, List.zipWith_cons_cons, List.zipWith_nil_left,
          List.sum_cons, List.sum_nil]
        ring
      rw [hdot, hperm]
      exact hineq
    · refine ⟨("E", [0,0,0,0,1,0,0,0,1,0,0,1]), by decide, ?_⟩
      have hdot : dot [a0,a1,a2,a3,a4,a5,a6,a7,a8,a9,a10,a11] [0,0,0,0,1,0,0,0,1,0,0,1] = a11+a4+a8 := by
        simp only [dot, List.zipWith_cons_cons, List.zipWith_nil_left,
          List.sum_cons, List.sum_nil]
        ring
      rw [hdot, hperm]
      exact hineq
    · refine ⟨("Am", [1,0,0,0,1,0,0,0,0,1,0,0]), by decide, ?_⟩
      have hdot : dot [a0,a1,a2,a3,a4,a5,a6,a7,a8,a9,a10,a11] [1,0,0,0,1,0,0,0,0,1,0,0] = a0+a4+a9 := by
        simp only [dot, List.zipWith_cons_cons, List.zipWith_nil_left,
          List.sum_cons, List.sum_nil]
        ring
      rw [hdot, hperm]
      exact hineq
  · rw [h] at hmax
    obtain ⟨d, hd, hineq⟩ := opt_core a11 a0 a1 a2 a3 a4 a5 a6 a7 a8 a9 a10
      ha11 ha0 ha1 ha2 ha3 ha4 ha5 ha6 ha7 ha8 ha9 ha10
      (hmax a0 (by simp)) (hmax a1 (by simp)) (hmax a2 (by simp)) (hmax a3 (by simp)) (hmax a4 (by simp)) (hmax a5 (by simp)) (hmax a6 (by simp)) (hmax a7 (by simp)) (hmax a8 (by simp)) (hmax a9 (by simp)) (hmax a10 (by simp))
    have hperm : a0^2+a1^2+a2^2+a3^2+a4^2+a5^2+a6^2+a7^2+a8^2+a9^2+a10^2+a11^2 =
        a11^2+a0^2+a1^2+a2^2+a3^2+a4^2+a5^2+a6^2+a7^2+a8^2+a9^2+a10^2 := by ring
    rcases hd with rfl | rfl | rfl | rfl | rfl | rfl | rfl | rfl
    · refine ⟨("B", [0,0,0,1,0,0,1,0,0,0,0,1]), by decide, ?_⟩
      have hdot : dot [a0,a1,a2,a3,a4,a5,a6,a7,a8,a9,a10,a11] [0,0,0,1,0,0,1,0,0,0,0,1] = a11+a3+a6 := by
        simp only [dot, List.zipWith_cons_cons, List.zipWith_nil_left,
          List.sum_cons, List.sum_nil]
        ring
      rw [hdot, hperm]
      exact hineq
    · refine ⟨("E", [0,0,0,0,1,0,0,0,1,0,0,1]), by decide, ?_⟩
      have hdot : dot [a0,a1,a2,a3,a4,a5,a6,a7,a8,a9,a10,a11] [0,0,0,0,1,0,0,0,1,0,0,1] = a11+a4+a8 := by
        simp only [dot, List.zipWith_cons_cons, List.zipWith_nil_left,
          List.sum_cons, List.sum_nil]
        ring
      rw [hdot, hperm]
      exact hineq
    · refine ⟨("G", [0,0,1,0,0,0,0,1,0,0,0,1]), by decide, ?_⟩
      have hdot : dot [a0,a1,a2,a3,a4,a5,a6,a7,a8,a9,a10,a11] [0,0,1,0,0,0,0,1,0,0,0,1] = a11+a2+a7 := by
        simp only [dot, List.zipWith_cons_cons, List.zipWith_nil_left,
          List.sum_cons, List.sum_nil]
        ring
      rw [hdot, hperm]
      exact hineq
    · refine ⟨("Bm", [0,0,1,0,0,0,1,0,0,0,0,1]), by decide, ?_⟩
      have hdot : dot [a0,a1,a2,a3,a4,a5,a6,a7,a8,a9,a10,a11] [0,0,1,0,0,0,1,0,0,0,0,1] = a11+a2+a6 := by
        simp only [dot, List.zipWith_cons_cons, List.zipWith_nil_left,
          List.sum_cons, List.sum_nil]
        ring
      rw [hdot, hperm]
      exact hineq
    · refine ⟨("G#m", [0,0,0,1,0,0,0,0,1,0,0,1]), by decide, ?_⟩
      have hdot : dot [a0,a1,a2,a3,a4,a5,a6,a7,a8,a9,a10,a11] [0,0,0,1,0,0,0,0,1,0,0,1] = a11+a3+a8 := by
        simp only [dot, List.zipWith_cons_cons, List.zipWith_nil_left,
          List.sum_cons, List.sum_nil]
        ring
      rw [hdot, hperm]
      exact hineq
    · refine ⟨("Em", [0,0,0,0,1,0,0,1,0,0,0,1]), by decide, ?_⟩
      have hdot : dot [a0,a1,a2,a3,a4,a5,a6,a7,a8,a9,a10,a11] [0,0,0,0,1,0,0,1,0,0,0,1] = a11+a4+a7 := by
        simp only [dot, List.zipWith_cons_cons, List.zipWith_nil_left,
          List.sum_cons, List.sum_nil]
        ring
      rw [hdot, hperm]
      exact hineq
    · refine ⟨("F", [1,0,0,0,0,1,0,0,0,1,0,0]), by decide, ?_⟩
      have hdot : dot [a0,a1,a2,a3,a4,a5,a6,a7,a8,a9,a10,a11] [1,0,0,0,0,1,0,0,0,1,0,0] = a0+a5+a9 := by
        simp only [dot, List.zipWith_cons_cons, List.zipWith_nil_left,
          List.sum_cons, List.sum_nil]
        ring
      rw [hdot, hperm]
      exact hineq
    · refine ⟨("A#m", [0,1,0,0,0,1,0,0,0,0,1,0]), by decide, ?_⟩
      have hdot : dot [a0,a1,a2,a3,a4,a5,a6,a7,a8,a9,a10,a11] [0,1,0,0,0,1,0,0,0,0,1,0] = a1+a5+a10 := by
        simp only [dot, List.zipWith_cons_cons, List.zipWith_nil_left,
          List.sum_cons, List.sum_nil]
        ring
      rw [hdot, hperm]
      exact hineq


/-- Every chord template is a binary triad: its squared norm is 3. -/
theorem sumSq_templates : ∀ p ∈ chord_templates, sumSq p.2 = 3 := by decide

/-- Every chord template has nonnegative entries. -/
theorem templates_nonneg : ∀ p ∈ chord_templates, ∀ v ∈ p.2, 0 ≤ v := by decide

theorem normalizeL1_length (v : List ℚ) : (normalizeL1 v).length = v.length := by
  simp only [normalizeL1]
  split_ifs <;> simp

theorem normalizeL1_nonneg (v : List ℚ) (hv : ∀ x ∈ v, 0 ≤ x) :
    ∀ x ∈ normalizeL1 v, 0 ≤ x := by
  intro x hx
  simp only [normalizeL1] at hx
  split_ifs at hx with h
  · rcases List.mem_map.1 hx with ⟨u, hu, rfl⟩
    exact div_nonneg (hv u hu) (le_of_lt h)
  · exact hv x hx

theorem window_mean_chroma_length (chroma : List (List ℚ)) (fps s : ℕ) :
    (window_mean_chroma chroma fps s).length = chroma.length := by
  simp only [window_mean_chroma, normalizeL1_length, List.length_map]

theorem window_mean_chroma_nonneg (chroma : List (List ℚ))
    (hch : ∀ row ∈ chroma, ∀ v ∈ row, 0 ≤ v) (fps s : ℕ) :
    ∀ x ∈ window_mean_chroma chroma fps s, 0 ≤ x := by
  refine normalizeL1_nonneg _ ?_
  intro x hx
  rcases List.mem_map.1 hx with ⟨row, hrow, rfl⟩
  refine npMean_nonneg _ ?_
  intro v hv
  refine hch row hrow v ?_
  simp only [rowSlice] at hv
  exact List.drop_subset _ _ (List.take_subset _ _ hv)

/-- The best-chord fold's score dominates every template's cosine score. -/
theorem best_fold_ge (sqrtq : ℚ → ℚ) (a : List ℚ) :
    ∀ (l : List (String × List ℚ)) (init : String × ℚ),
      init.2 ≤ (l.foldl (fun best p =>
          if best.2 < cos_score sqrtq a p.2 then (p.1, cos_score sqrtq a p.2) else best)
        init).2 ∧
      ∀ p ∈ l, cos_score sqrtq a p.2 ≤ (l.foldl (fun best p =>
          if best.2 < cos_score sqrtq a p.2 then (p.1, cos_score sqrtq a p.2) else best)
        init).2 := by
  intro l
  induction l with
  | nil =>
    intro init
    exact ⟨le_refl _, by intro p hp; simp at hp⟩
  | cons q qs ih =>
    intro init
    simp only [List.foldl_cons]
    by_cases hlt : init.2 < cos_score sqrtq a q.2
    · rw [if_pos hlt]
      refine ⟨le_trans (le_of_lt hlt) (ih (q.1, cos_score sqrtq a q.2)).1, ?_⟩
      intro p hp
      rcases List.mem_cons.1 hp with rfl | hp
      · exact (ih (p.1, cos_score sqrtq a p.2)).1
      · exact (ih _).2 p hp
    · rw [if_neg hlt]
      refine ⟨(ih init).1, ?_⟩
      intro p hp
      rcases List.mem_cons.1 hp with rfl | hp
      · exact le_trans (not_lt.1 hlt) (ih init).1
      · exact (ih init).2 p hp

/-- If the best score is positive, the winning name is a template name and both
guard norms (of the window vector, and of the common template norm √3) were
positive at update time. -/
theorem best_chord_pos (sqrtq : ℚ → ℚ) (a : List ℚ)
    (hpos : 0 < (best_chord sqrtq a).2) :
    (best_chord sqrtq a).1 ∈ chord_templates.map Prod.fst ∧
    0 < sqrtq (sumSq a) ∧ 0 < sqrtq 3 := by
  have hinv := foldl_inv
    (fun best => 0 < best.2 →
      best.1 ∈ chord_templates.map Prod.fst ∧ 0 < sqrtq (sumSq a) ∧ 0 < sqrtq 3)
    (fun best p =>
      if best.2 < cos_score sqrtq a p.2 then (p.1, cos_score sqrtq a p.2) else best)
    chord_templates ("N", 0)
    (by
      intro acc x hx hP
      by_cases hlt : acc.2 < cos_score sqrtq a x.2
      · simp only [if_pos hlt]
        intro hsc
        simp only [cos_score] at hsc
        split_ifs at hsc with hg
        · refine ⟨List.mem_map_of_mem Prod.fst hx, hg.1, ?_⟩
          have h2 := hg.2
          rw [sumSq_templates x hx] at h2
          exact h2
        · norm_num at hsc
      · simp only [if_neg hlt]
        exact hP)
    (by intro h; norm_num at h)
  exact hinv hpos

/-- Emission bound: when the best score clears the 0.3 threshold, it is in
fact at least 100/303 (~0.3300) — the best cosine of a nonnegative 12-bin
vector against the triad templates is at least 1/3, and the square-root
surrogate degrades it by at most the 1% slack of `hs`. -/
theorem best_chord_emission (sqrtq : ℚ → ℚ)
    (hs : ∀ x, 0 ≤ x → 0 ≤ sqrtq x ∧ (sqrtq x)^2 ≤ x * (101/100))
    (a : List ℚ) (hlen : a.length = 12) (ha : ∀ v ∈ a, 0 ≤ v)
    (hthr : 3/10 < (best_chord sqrtq a).2) :
    100/303 ≤ (best_chord sqrtq a).2 ∧
    (best_chord sqrtq a).1 ∈ chord_templates.map Prod.fst := by
  have hpos0 : 0 < (best_chord sqrtq a).2 := lt_trans (by norm_num) hthr
  obtain ⟨hname, hcn, htn⟩ := best_chord_pos sqrtq a hpos0
  obtain ⟨t, htmem, hopt⟩ := exists_good_template a hlen ha
  have hSa : 0 ≤ sumSq a := sumSq_nonneg a
  have hcnsq := (hs _ hSa).2
  have htnsq := (hs 3 (by norm_num)).2
  have hSapos : 0 < sumSq a := by nlinarith [hcn, hcnsq]
  have hdot0 : 0 ≤ dot a t.2 := dot_nonneg a t.2 ha (templates_nonneg t htmem)
  have hdotpos : 0 < dot a t.2 := by
    rcases eq_or_lt_of_le hdot0 with he | h
    · exfalso
      rw [← he] at hopt
      nlinarith [hopt, hSapos]
    · exact h
  have hprod : sqrtq (sumSq a) * sqrtq 3 ≤ 3 * dot a t.2 * (101/100) := by
    have hsq : (sqrtq (sumSq a) * sqrtq 3)^2 ≤ (3 * dot a t.2 * (101/100))^2 := by
      have h1 : (sqrtq (sumSq a))^2 * (sqrtq 3)^2 ≤
          (sumSq a * (101/100)) * (3 * (101/100)) :=
        mul_le_mul hcnsq htnsq (sq_nonneg (sqrtq 3)) (mul_nonneg hSa (by norm_num))
      nlinarith [hopt, h1, hSapos, hdotpos]
    have hrhs : 0 ≤ 3 * dot a t.2 * (101/100) :=
      mul_nonneg (mul_nonneg (by norm_num) hdot0) (by norm_num)
    exact (abs_le_of_sq_le_sq' hsq hrhs).2
  have hscore : 100/303 ≤ cos_score sqrtq a t.2 := by
    simp only [cos_score]
    rw [sumSq_templates t htmem]
    rw [if_pos ⟨hcn, htn⟩]
    rw [le_div_iff (mul_pos hcn htn)]
    linarith [hprod]
  refine ⟨?_, hname⟩
  calc (100:ℚ)/303 ≤ cos_score sqrtq a t.2 := hscore
    _ ≤ (best_chord sqrtq a).2 := (best_fold_ge sqrtq a chord_templates ("N", 0)).2 t htmem

set_option maxRecDepth 4000 in
/-- A chord emitted for a window has a template name and a rounded confidence
of at least 0.33. -/
theorem window_chord_good (sqrtq : ℚ → ℚ)
    (hs : ∀ x, 0 ≤ x → 0 ≤ sqrtq x ∧ (sqrtq x)^2 ≤ x * (101/100))
    (chroma : List (List ℚ)) (hch : ∀ row ∈ chroma, ∀ v ∈ row, 0 ≤ v)
    (hlen : chroma.length = 12) (ft : List ℚ) (fps s : ℕ) (c : Chord)
    (h : window_chord sqrtq chroma ft fps s = some c) :
    c.name ∈ chord_templates.map Prod.fst ∧ 33/100 ≤ c.confidence := by
  simp only [window_chord] at h
  have hwl : (window_mean_chroma chroma fps s).length = 12 := by
    rw [window_mean_chroma_length]
    exact hlen
  split_ifs at h with hthr <;>
    · have hemi := best_chord_emission sqrtq hs (window_mean_chroma chroma fps s)
        hwl (window_mean_chroma_nonneg chroma hch fps s) hthr
      rw [← Option.some.inj h]
      refine ⟨hemi.2, ?_⟩
      have hr := round2_ge_hundredth ((best_chord sqrtq (window_mean_chroma chroma fps s)).2)
        33 (by push_cast; linarith [hemi.1])
      push_cast at hr
      exact hr

/-- Chord merging preserves template names and the 0.33 confidence floor. -/
theorem merge_chords_good (cs : List Chord)
    (hcs : ∀ c ∈ cs, c.name ∈ chord_templates.map Prod.fst ∧ 33/100 ≤ c.confidence) :
    ∀ c ∈ merge_chords cs,
      c.name ∈ chord_templates.map Prod.fst ∧ 33/100 ≤ c.confidence := by
  rcases cs with _ | ⟨c0, rest⟩
  · intro c hc
    simp [merge_chords] at hc
  · simp only [merge_chords]
    refine foldl_inv
      (fun acc => ∀ c ∈ acc,
        c.name ∈ chord_templates.map Prod.fst ∧ 33/100 ≤ c.confidence) _ rest [c0] ?_ ?_
    · intro acc ch hch hacc
      rcases hgl : acc.getLast? with _ | lc
      · intro c hc
        rcases List.mem_append.1 hc with h | h
        · exact hacc c h
        · rw [List.mem_singleton.1 h]
          exact hcs ch (by simp [hch])
      · have hlc := hacc lc (List.mem_of_getLast?_eq_some hgl)
        have hch2 := hcs ch (by simp [hch])
        by_cases hcond : ch.name = lc.name ∧ |ch.start - lc.stop| < 1/2
        · simp only [if_pos hcond]
          intro c hc
          rcases List.mem_append.1 hc with h | h
          · exact hacc c (List.mem_of_mem_dropLast h)
          · rw [List.mem_singleton.1 h]
            refine ⟨hlc.1, ?_⟩
            have hr := round2_ge_hundredth ((lc.confidence + ch.confidence)/2) 33
              (by push_cast; linarith [hlc.2, hch2.2])
            push_cast at hr
            exact hr
        · simp only [if_neg hcond]
          intro c hc
          rcases List.mem_append.1 hc with h | h
          · exact hacc c h
          · rw [List.mem_singleton.1 h]
            exact hch2
    · intro c hc
      rw [List.mem_singleton.1 hc]
      exact hcs c0 (by simp)

/-- Claim C7: every chord returned by `detect_chords` is named by one of the 24
triad templates — never the placeholder "N" — and its stored confidence
strictly exceeds 0.3 (it is at least 0.33); a window whose best similarity
does not exceed 0.3 contributes no chord at all.  Hypotheses: the square-root
surrogate is nonnegative and 1%-accurate from above, the chroma matrix is
nonnegative with the standard 12 pitch-class rows. -/
theorem c7_chord_names_and_threshold (sqrtq : ℚ → ℚ) (chroma : List (List ℚ))
    (sr : ℕ)
    (hs : ∀ x, 0 ≤ x → 0 ≤ sqrtq x ∧ (sqrtq x)^2 ≤ x * (101/100))
    (hch : ∀ row ∈ chroma, ∀ v ∈ row, 0 ≤ v)
    (hlen : chroma.length = 12) :
    (∀ cs, detect_chords sqrtq chroma sr = some cs →
      ∀ c ∈ cs, c.name ∈ chord_templates.map Prod.fst ∧ c.name ≠ "N" ∧
        3/10 < c.confidence) ∧
    (∀ ft fps s, (window_best sqrtq chroma fps s).2 ≤ 3/10 →
      window_chord sqrtq chroma ft fps s = none) := by
  constructor
  · intro cs heq c hc
    simp only [detect_chords] at heq
    have hcs := ite_opt_some3 _ cs heq
    rw [← hcs] at hc
    have hgood := merge_chords_good _
      (by
        intro c' hc'
        rcases List.mem_filterMap.1 hc' with ⟨s, _, hwc⟩
        exact window_chord_good sqrtq hs chroma hch hlen _ _ s c' hwc) c hc
    have hN : "N" ∉ chord_templates.map Prod.fst := by decide
    refine ⟨hgood.1, ?_, by linarith [hgood.2]⟩
    intro hname
    exact hN (hname ▸ hgood.1)
  · intro ft fps s hle
    simp only [window_chord]
    rw [if_neg (not_lt.2 hle)]

/-- A rational square-root surrogate accurate enough on the values reached by
the C7 witness input (√3 ≈ 1.73, √(1/3) ≈ 0.577). -/
def sqrtqW : ℚ → ℚ := fun x =>
  if x = 3 then 173/100 else if x = 1/3 then 577/1000 else 0

/-- A 12 × 22 chroma matrix sustaining a C major triad. -/
def chromaW : List (List ℚ) :=
  (List.range 12).map (fun i =>
    if i = 0 ∨ i = 4 ∨ i = 7 then (List.range 22).map (fun _ => (1:ℚ))
    else (List.range 22).map (fun _ => (0:ℚ)))

theorem c7_chord_names_and_threshold_witness :
    (∀ cs, detect_chords sqrtqW chromaW 22050 = some cs →
      ∀ c ∈ cs, c.name ∈ chord_templates.map Prod.fst ∧ c.name ≠ "N" ∧
        3/10 < c.confidence) ∧
    (∀ ft fps s, (window_best sqrtqW chromaW fps s).2 ≤ 3/10 →
      window_chord sqrtqW chromaW ft fps s = none) :=
  c7_chord_names_and_threshold sqrtqW chromaW 22050
    (by
      intro x hx
      constructor
      · simp only [sqrtqW]
        split_ifs <;> norm_num
      · simp only [sqrtqW]
        split_ifs with hx1 hx2
        · rw [hx1]
          norm_num
        · rw [hx2]
          norm_num
        · have h := mul_nonneg hx (show (0:ℚ) ≤ 101/100 by norm_num)
          simpa using h)
    (by decide) (by decide)

end Sectionist
